import Mathlib

/-!
Shallow embedding of the `provide` dependency-injection resolver.

The Go source works by reflection: types are `reflect.Type` handles, values are
`reflect.Value`, and the resolver walks a task graph keyed by
`task = (Type, Complete bool)`.  We embed the four source files faithfully:

* the task/state model (`task`, `state`, `initializer`),
* the rule compiler `customProvide`,
* the auto-provider `autoProvide` (struct-tag scan, `PleaseProvide` probe),
* the scheduler (`do`, `complete`, `state` lookup) and the `Provider`
  orchestration (`AddRule`, `Provide`).

Reflection is modelled by an environment `TEnv` that supplies, per named type,
its kind, struct fields (with their `provide` tag), an optional `PleaseProvide`
method, whether it implements `error`, and its zero value.  Go closures that
capture mutable locals (the `alreadyDone` latch of a rule, the fields and
inputs captured by the auto-provider) are reified: actions are data
(`ActionD`), the latch is a per-rule entry in the provider state, and the
pointer graph is an explicit heap.  The trace field records the observable
events (constructor calls, value-store writes, field sets, initializer calls,
action executions) that the specification's claims quantify over; it is a
ghost log and never influences control flow.
-/

namespace ProvideModel

/-- Model of `reflect.Type`: a named (base) type or a pointer type. -/
inductive GoType where
  | base (n : Nat)
  | ptr (elem : GoType)
deriving DecidableEq, Repr

/-- Model of `reflect.Kind` as far as the source consults it. -/
inductive GoKind where
  | ifaceK | structK | mapK | chanK | funcK | ptrK | otherK
deriving DecidableEq, Repr

/-- Model of `reflect.Value`.  `ptrv` points into the explicit heap;
`nilPtr`/`nilIface` are the nil values whose `IsNil` is true; `invalid` is the
zero `reflect.Value` obtained from a missing map entry. -/
inductive Value where
  | invalid
  | prim (n : Nat)
  | ptrv (addr : Nat)
  | nilPtr
  | nilIface
  | ifaceV (n : Nat)
  | structV (fields : List Value)

/-- `reflect.Value.IsNil` on the values the source tests. -/
def Value.isNil : Value → Bool
  | .nilPtr => true
  | .nilIface => true
  | _ => false

/-- Source: `type task struct { Type reflect.Type; Complete bool }`. -/
structure task where
  typ : GoType
  Complete : Bool
deriving DecidableEq, Repr

/-- The local `type Field struct` of `autoProvide`. -/
structure pfield where
  typ : GoType
  Index : Nat
  MustBeComplete : Bool
deriving DecidableEq, Repr

/-- The deferred actions (`Do` closures) the source creates, reified as data
together with the locals each closure captures. -/
inductive ActionD where
  | customDo (r : Nat)
  | autoPtrPartialDo (typ : GoType)
  | autoPtrCompleteDo (typ : GoType) (providedFields : List pfield)
      (ins : List GoType) (hasInitFn : Bool)
  | autoDerefPartialDo (typ : GoType)
deriving DecidableEq, Repr

/-- Source: `type state struct { Done, InProgress bool; DependsOn []task;
Do func(map[reflect.Type]reflect.Value) error }`. -/
structure state where
  Done : Bool := false
  InProgress : Bool := false
  DependsOn : List task := []
  Do : Option ActionD := none
deriving DecidableEq, Repr

/-- Source: `type initializer struct { Type reflect.Type; Partial, Complete state }`. -/
structure initializer where
  typ : GoType
  PartialState : state
  CompleteState : state

/-- A Go error value: either a message built by the engine (`errors.New`) or a
user error value returned by a constructor or initializer. -/
inductive Err where
  | msg (s : String)
  | val (v : Value)

/-- The `PleaseProvide` method of a type: its input types (after the receiver)
and declared return types, plus its semantics.  `sem` receives the current
contents of the receiver's heap cell and the input values and returns the new
cell contents together with the returned (error-typed) values. -/
structure InitCap where
  ins : List GoType
  outTypes : List GoType
  sem : Value → List Value → Value × List Value

/-- Per named type, what reflection would report. -/
structure TypeInfo where
  kind : GoKind := .otherK
  fields : List (GoType × Option String) := []
  initCap : Option InitCap := none
  implsError : Bool := false
  zero : Value := .prim 0

/-- The reflective environment: metadata and a printable name per named type. -/
structure TEnv where
  info : Nat → TypeInfo
  name : Nat → String

/-- `reflect.Type.Kind()`. -/
def kindOf (env : TEnv) : GoType → GoKind
  | .base n => (env.info n).kind
  | .ptr _ => .ptrK

/-- `reflect.Type.String()`. -/
def typeName (env : TEnv) : GoType → String
  | .base n => env.name n
  | .ptr t => "*" ++ typeName env t

/-- `reflect.Type.Elem()`; only ever applied to pointer types by the source. -/
def elemT : GoType → GoType
  | .ptr t => t
  | t => t

/-- Source `isErrorType`: interface kind and implements `error`. -/
def isErrorType (env : TEnv) : GoType → Bool
  | .base n => (env.info n).kind == .ifaceK && (env.info n).implsError
  | .ptr _ => false

/-- Source `isReferenceType`: pointer, interface, map or channel kind. -/
def isReferenceType (env : TEnv) (t : GoType) : Bool :=
  let k := kindOf env t
  k == .ptrK || k == .ifaceK || k == .mapK || k == .chanK

/-- The struct fields reflection reports for a named type. -/
def fieldsOf (env : TEnv) : GoType → List (GoType × Option String)
  | .base n => (env.info n).fields
  | .ptr _ => []

/-- The `PleaseProvide` method set of a type: only a pointer to a named type
has one (`typ.MethodByName` in the source, on the pointer type). -/
def initCapOf (env : TEnv) : GoType → Option InitCap
  | .ptr (.base n) => (env.info n).initCap
  | _ => none

/-- The zero value `reflect.New` allocates behind a fresh pointer. -/
def zeroOf (env : TEnv) : GoType → Value
  | .base n => (env.info n).zero
  | .ptr _ => .nilPtr

/-- A user rule (`provideFn`): its reflective signature and its semantics as a
pure function from input values to output values.  `isFunc` models the
`Kind() != Func` rejection. -/
structure Rule where
  isFunc : Bool := true
  ins : List GoType
  outs : List GoType
  fn : List Value → List Value

/-- Association-list lookup, modelling a Go map read. -/
def alookup {α β : Type} [DecidableEq α] : List (α × β) → α → Option β
  | [], _ => none
  | (k, v) :: rest, a => if k = a then some v else alookup rest a

/-- Association-list insert/replace, modelling a Go map write. -/
def ainsert {α β : Type} [DecidableEq α] : List (α × β) → α → β → List (α × β)
  | [], a, b => [(a, b)]
  | (k, v) :: rest, a, b => if k = a then (a, b) :: rest else (k, v) :: ainsert rest a b

/-- Ghost events recording the observable behaviour of a resolution.
`ranAct t selfDep depsDone` records that the scheduler executed the action of
task `t`, whether `t` listed itself among its own dependencies at that moment,
and whether all of its listed dependencies were Done at that moment. -/
inductive Event where
  | callCtor (r : Nat)
  | storeV (t : GoType)
  | setFieldE (t : GoType) (i : Nat)
  | callInit (t : GoType)
  | ranAct (t : task) (selfDep : Bool) (depsDone : Bool)
deriving DecidableEq, Repr

/-- Number of occurrences of an event in a trace. -/
def countE (tr : List Event) (ev : Event) : Nat :=
  (tr.filter (fun x => decide (x = ev))).length

/-- The `Provider`'s mutable state: its rules (in registration order, so an
index names a rule and its latch), the task map, the value map, the heap the
pointers point into, the per-rule `alreadyDone` latches, and the ghost trace. -/
structure PState where
  rules : List Rule
  tasks : List (task × state)
  values : List (GoType × Value)
  heap : List Value
  latches : List Nat
  trace : List Event

/-- A fresh provider (`p.init()` creates the two empty maps). -/
def emptyProvider : PState :=
  { rules := [], tasks := [], values := [], heap := [], latches := [], trace := [] }

/-- The non-error outputs of a rule, in declaration order. -/
def nonErrOuts (env : TEnv) (rule : Rule) : List GoType :=
  rule.outs.filter (fun t => !isErrorType env t)

/-- Source `customProvide`: compile a rule into one initializer per non-error
output, all of whose Partial states share the rule's single latched action. -/
def customProvide (env : TEnv) (rule : Rule) (r : Nat) : Except Err (List initializer) :=
  if !rule.isFunc then .error (.msg "providers must be functions")
  else
    let deps := rule.ins.map (fun t => task.mk t true)
    let outs := rule.outs.map (fun t => (t, isErrorType env t))
    .ok ((outs.filter (fun o => !o.2)).map (fun o =>
      { typ := o.1
        PartialState := { DependsOn := deps, Do := some (.customDo r) }
        CompleteState := { DependsOn := [task.mk o.1 false] } }))

/-- `inputs[i] = values[ins[i]]` of the rule action (a missing entry yields the
zero `reflect.Value`). -/
def readInputs (values : List (GoType × Value)) (ins : List GoType) : List Value :=
  ins.map (fun t => (alookup values t).getD .invalid)

/-- The output loop of the rule action: store each non-error output into the
value map in order; abort with the first non-nil error output. -/
def processOuts : List ((GoType × Bool) × Value) → PState → PState × Option Err
  | [], σ => (σ, none)
  | ((t, isErr), v) :: rest, σ =>
    if isErr then
      if v.isNil then processOuts rest σ
      else (σ, some (.val v))
    else
      processOuts rest
        { σ with values := ainsert σ.values t v, trace := σ.trace ++ [.storeV t] }

/-- `elem.Field(i).Set(v)` through a heap cell holding a struct value. -/
def setStructField : Value → Nat → Value → Value
  | .structV fs, i, v => .structV (fs.set i v)
  | w, _, _ => w

/-- Update one heap cell in place. -/
def heapSet (h : List Value) (addr : Nat) (f : Value → Value) : List Value :=
  h.set addr (f (h.getD addr .invalid))

/-- The field-setting loop of the auto-provider's Complete action: set each
annotated field of the pointed-to struct from the value map. -/
def setFields (typ : GoType) (v : Value) : List pfield → PState → PState
  | [], σ => σ
  | f :: rest, σ =>
    let fv := (alookup σ.values f.typ).getD .invalid
    let σ :=
      match v with
      | .ptrv addr =>
        { σ with heap := heapSet σ.heap addr (fun c => setStructField c f.Index fv),
                 trace := σ.trace ++ [.setFieldE typ f.Index] }
      | _ => { σ with trace := σ.trace ++ [.setFieldE typ f.Index] }
    setFields typ v rest σ

/-- First non-nil returned value of the initializer method. -/
def firstNonNil : List Value → Option Value
  | [] => none
  | v :: rest => if v.isNil then firstNonNil rest else some v

/-- Execute a deferred action against the provider state.  Mirrors the four
`Do` closures of the source; the state is returned alongside any error because
the Go closures mutate `p.values` (and the heap) in place even when they then
return an error. -/
def runAction (env : TEnv) (a : ActionD) (σ : PState) : PState × Option Err :=
  match a with
  | .customDo r =>
    match σ.rules.get? r with
    | none => (σ, none)
    | some rule =>
      if r ∈ σ.latches then (σ, none)
      else
        let σ := { σ with latches := r :: σ.latches, trace := σ.trace ++ [.callCtor r] }
        let inputs := readInputs σ.values rule.ins
        let outputs := rule.fn inputs
        let outs := rule.outs.map (fun t => (t, isErrorType env t))
        processOuts (outs.zip outputs) σ
  | .autoPtrPartialDo typ =>
    let addr := σ.heap.length
    ({ σ with heap := σ.heap ++ [zeroOf env (elemT typ)],
              values := ainsert σ.values typ (.ptrv addr),
              trace := σ.trace ++ [.storeV typ] }, none)
  | .autoPtrCompleteDo typ providedFields ins hasInitFn =>
    let v := (alookup σ.values typ).getD .invalid
    let σ := setFields typ v providedFields σ
    if hasInitFn then
      match initCapOf env typ with
      | none => (σ, none)
      | some cap =>
        let inputs := readInputs σ.values ins
        let recv := match v with | .ptrv a => σ.heap.getD a .invalid | _ => .invalid
        let res := cap.sem recv inputs
        let σ := { σ with
          heap := (match v with | .ptrv a => σ.heap.set a res.1 | _ => σ.heap),
          trace := σ.trace ++ [.callInit typ] }
        match firstNonNil res.2 with
        | some e => (σ, some (.val e))
        | none => (σ, none)
    else (σ, none)
  | .autoDerefPartialDo typ =>
    let pt := GoType.ptr typ
    let vptr := (alookup σ.values pt).getD .invalid
    if vptr.isNil then
      (σ, some (.msg ("can't use nil pointer to automatically provide value for "
        ++ typeName env typ)))
    else
      let v := match vptr with | .ptrv a => σ.heap.getD a .invalid | _ => .invalid
      ({ σ with values := ainsert σ.values typ v,
                trace := σ.trace ++ [.storeV typ] }, none)

/-- The field-scanning loop of `autoProvide` on a pointer-to-struct type:
collect the annotated fields, rejecting unrecognized tags and non-reference
circular fields. -/
def collectFields (env : TEnv) (elemName : String) :
    List (GoType × Option String) → Nat → Except Err (List pfield)
  | [], _ => .ok []
  | f :: rest, i =>
    match f.2 with
    | none => collectFields env elemName rest (i + 1)
    | some tag =>
      let allowCircular := tag == "circular"
      if !allowCircular then
        if tag != "" then
          .error (.msg ("unrecognized provide tag " ++ tag ++ " in " ++ elemName))
        else
          (collectFields env elemName rest (i + 1)).map
            (fun l => ⟨f.1, i, true⟩ :: l)
      else
        if !isReferenceType env f.1 then
          .error (.msg ("only reference types (pointer, map, chan) can be circularly provided to "
            ++ elemName ++ ", not " ++ typeName env f.1))
        else
          (collectFields env elemName rest (i + 1)).map
            (fun l => ⟨f.1, i, false⟩ :: l)

/-- The initializer `autoProvide` builds in its pointer branch. -/
def buildPtrInit (typ : GoType) (providedFields : List pfield)
    (ins : List GoType) (hasInitFn : Bool) : initializer :=
  { typ := typ
    PartialState := { Do := some (.autoPtrPartialDo typ) }
    CompleteState :=
      { DependsOn := task.mk typ false ::
          (providedFields.map (fun f => task.mk f.typ f.MustBeComplete)
            ++ ins.map (fun t => task.mk t true))
        Do := some (.autoPtrCompleteDo typ providedFields ins hasInitFn) } }

/-- Source `autoProvide`: derive an initializer for a type with no explicit
rule, or fail with a definition error. -/
def autoProvide (env : TEnv) (typ : GoType) : Except Err initializer :=
  if kindOf env typ == .ifaceK then
    .error (.msg (typeName env typ ++ " can't be automatically provided"))
  else
    match typ with
    | .ptr elem =>
      let fieldsE : Except Err (List pfield) :=
        if kindOf env elem == .structK then
          collectFields env (typeName env elem) (fieldsOf env elem) 0
        else .ok []
      match fieldsE with
      | .error e => .error e
      | .ok providedFields =>
        match initCapOf env (.ptr elem) with
        | some cap =>
          match cap.outTypes.find? (fun t => !isErrorType env t) with
          | some bad =>
            .error (.msg (typeName env (.ptr elem)
              ++ ".PleaseProvide must only return errors (which must be interfaces), not "
              ++ typeName env bad))
          | none => .ok (buildPtrInit (.ptr elem) providedFields cap.ins true)
        | none =>
          if providedFields.isEmpty then
            .error (.msg (typeName env (.ptr elem) ++ " can't be automatically provided"))
          else .ok (buildPtrInit (.ptr elem) providedFields [] false)
    | t =>
      let ptrTo := GoType.ptr t
      .ok { typ := t
            PartialState :=
              { DependsOn := [task.mk ptrTo true], Do := some (.autoDerefPartialDo t) }
            CompleteState := { DependsOn := [task.mk t false] } }

/-- Source `p.state(t)`: look up a task's state, lazily deriving and installing
both levels via `autoProvide` on a miss. -/
def getTaskState (env : TEnv) (σ : PState) (t : task) : PState × Except Err state :=
  match alookup σ.tasks t with
  | some s => (σ, .ok s)
  | none =>
    match autoProvide env t.typ with
    | .error e => (σ, .error e)
    | .ok init =>
      let m := ainsert (ainsert σ.tasks (task.mk t.typ false) init.PartialState)
        (task.mk t.typ true) init.CompleteState
      let σ := { σ with tasks := m }
      (σ, .ok ((alookup σ.tasks t).getD {}))

/-- Whether a task is recorded as Done. -/
def isDoneB (σ : PState) (u : task) : Bool :=
  match alookup σ.tasks u with
  | some s => s.Done
  | none => false

/-- The cycle error of `p.do`: scan the stack bottom-to-top for the first
occurrence of the task currently being processed and report the types from
there to the top.  Our stack lists the top first, so the source's
bottom-to-top order is its reverse. -/
def cycleErr (env : TEnv) (stack : List task) (t : task) : Err :=
  let rev := stack.reverse
  let i := rev.findIdx (fun u => u == t)
  .msg ("cycle: " ++ String.intercalate " --> "
    ((rev.drop i).map (fun u => typeName env u.typ)))

/-- The dependency loop of `p.do` on a not-yet-started task: skip Done
dependencies, fail on an InProgress one (cycle), push the rest. -/
def scheduleDeps (env : TEnv) (t : task) :
    PState → List task → List task → Bool → PState × Except Err (List task × Bool)
  | σ, stack, [], hasDeps => (σ, .ok (stack, hasDeps))
  | σ, stack, dep :: rest, hasDeps =>
    match getTaskState env σ dep with
    | (σ, .error e) => (σ, .error e)
    | (σ, .ok depState) =>
      if depState.Done then scheduleDeps env t σ stack rest hasDeps
      else if depState.InProgress then (σ, .error (cycleErr env stack t))
      else scheduleDeps env t σ (dep :: stack) rest true

/-- The second branch of `p.do`: run the task's action if any (recording the
ghost observation of whether every listed dependency is Done at this moment),
then mark the task Done and clear its edges and action.  Only tasks whose
action ran are reported as newly done. -/
def runBranch2 (env : TEnv) (σ : PState) (t : task) (s : state)
    (newlyDone : List task) : PState × List task × Option Err :=
  match s.Do with
  | some a =>
    let selfD := s.DependsOn.contains t
    let flag := s.DependsOn.all (fun d => isDoneB σ d)
    let σ := { σ with trace := σ.trace ++ [.ranAct t selfD flag] }
    match runAction env a σ with
    | (σ, some e) => (σ, newlyDone, some e)
    | (σ, none) =>
      let s := { s with Done := true, DependsOn := [], Do := none }
      ({ σ with tasks := ainsert σ.tasks t s }, newlyDone ++ [t], none)
  | none =>
    let s := { s with Done := true, DependsOn := [], Do := none }
    ({ σ with tasks := ainsert σ.tasks t s }, newlyDone, none)

/-- Result of the `p.do` walk. -/
inductive DoRes where
  | done (newlyDone : List task)
  | fail (e : Err)
  | timeout

/-- Source `p.do(t)`: the iterative stack walk.  The Go `for` loop is given
fuel; `timeout` marks fuel exhaustion (never reached in the runs we evaluate).
The stack's top is the head of the list. -/
def doLoop (env : TEnv) : Nat → PState → List task → List task → PState × DoRes
  | 0, σ, _, _ => (σ, .timeout)
  | Nat.succ fuel, σ, stack, newlyDone =>
    match stack with
    | [] => (σ, .done newlyDone)
    | t :: rest =>
      match getTaskState env σ t with
      | (σ, .error e) => (σ, .fail e)
      | (σ, .ok s) =>
        if !s.Done && !s.InProgress then
          match scheduleDeps env t σ stack s.DependsOn false with
          | (σ, .error e) => (σ, .fail e)
          | (σ, .ok (stack1, hasDeps)) =>
            let s1 := { s with InProgress := true }
            let σ := { σ with tasks := ainsert σ.tasks t s1 }
            if hasDeps then doLoop env fuel σ stack1 newlyDone
            else
              match runBranch2 env σ t s1 newlyDone with
              | (σ, _, some e) => (σ, .fail e)
              | (σ, nd, none) => doLoop env fuel σ rest nd
        else if !s.Done && s.InProgress then
          match runBranch2 env σ t s newlyDone with
          | (σ, _, some e) => (σ, .fail e)
          | (σ, nd, none) => doLoop env fuel σ rest nd
        else doLoop env fuel σ rest newlyDone

/-- Result of `p.complete`. -/
inductive CRes where
  | done
  | fail (e : Err)
  | timeout

/-- Source `p.complete(typ)`: worklist of Complete goals, re-seeding the
Complete task of every newly done task whose level was not Complete. -/
def completeLoop (env : TEnv) (dfuel : Nat) : Nat → PState → List task → PState × CRes
  | 0, σ, _ => (σ, .timeout)
  | Nat.succ _, σ, [] => (σ, .done)
  | Nat.succ fuel, σ, g :: gs =>
    match doLoop env dfuel σ [g] [] with
    | (σ, .timeout) => (σ, .timeout)
    | (σ, .fail e) => (σ, .fail e)
    | (σ, .done newlyDone) =>
      completeLoop env dfuel fuel σ
        (gs ++ (newlyDone.filter (fun d => !d.Complete)).map (fun d => task.mk d.typ true))

def complete (env : TEnv) (fuel : Nat) (σ : PState) (typ : GoType) : PState × CRes :=
  completeLoop env fuel fuel σ [task.mk typ true]

/-- One argument slot of a `Provide` call: a valid non-nil pointer requesting a
type, or a malformed (non-pointer or nil) argument. -/
inductive Slot where
  | req (typ : GoType)
  | bad
deriving DecidableEq, Repr

/-- Source `Provider.Provide`: validate each slot as it is reached, complete
its type, and read the value out of the value map into the slot.  Returns the
values written to the slots so far. -/
def provideLoop (env : TEnv) (fuel : Nat) :
    PState → List Slot → List Value → PState × List Value × Option Err
  | σ, [], acc => (σ, acc, none)
  | σ, .bad :: _, acc =>
    (σ, acc, some (.msg "arguments to Provide must be non-nil pointers (that Provide will set)"))
  | σ, .req t :: rest, acc =>
    if isErrorType env t then
      (σ, acc, some (.msg ("since " ++ typeName env t
        ++ " implements error, it is considered an error and cannot be provided")))
    else
      match complete env fuel σ t with
      | (σ, .timeout) => (σ, acc, some (.msg "fuel exhausted"))
      | (σ, .fail e) => (σ, acc, some e)
      | (σ, .done) =>
        match alookup σ.values t with
        | none => (σ, acc, some (.msg "should never happen: couldn't find value"))
        | some v => provideLoop env fuel σ rest (acc ++ [v])

/-- The install loop of `AddRule`: per initializer, reject a conflict on either
level, then install both levels. -/
def installInits (env : TEnv) : PState → List initializer → PState × Option Err
  | σ, [] => (σ, none)
  | σ, init :: rest =>
    if (alookup σ.tasks (task.mk init.typ false)).isSome
        || (alookup σ.tasks (task.mk init.typ true)).isSome then
      (σ, some (.msg ("trying to provide the same type " ++ typeName env init.typ
        ++ " in multiple ways")))
    else
      let m := ainsert (ainsert σ.tasks (task.mk init.typ false) init.PartialState)
        (task.mk init.typ true) init.CompleteState
      installInits env { σ with tasks := m } rest

/-- Source `Provider.AddRule`: compile the rule and install its initializers,
remembering the rule so its index names the shared latch. -/
def addRule (env : TEnv) (σ : PState) (rule : Rule) : PState × Option Err :=
  match customProvide env rule σ.rules.length with
  | .error e => (σ, some e)
  | .ok inits => installInits env { σ with rules := σ.rules ++ [rule] } inits

/-- One operation against a provider over its lifetime. -/
inductive Op where
  | addRuleOp (rule : Rule)
  | provideOp (slots : List Slot)

def runOp (env : TEnv) (fuel : Nat) (σ : PState) : Op → PState × List Value × Option Err
  | .addRuleOp rule =>
    match addRule env σ rule with
    | (σ, e) => (σ, [], e)
  | .provideOp slots => provideLoop env fuel σ slots []

/-- Run a sequence of operations from a provider state, stopping at the first
error (the source declares a provider invalid after any error).  Returns the
final state, the values each successful `Provide` call produced, and the first
error if any. -/
def runOps (env : TEnv) (fuel : Nat) : PState → List Op → PState × List (List Value) × Option Err
  | σ, [] => (σ, [], none)
  | σ, op :: rest =>
    match runOp env fuel σ op with
    | (σ, vs, some e) => (σ, [vs], some e)
    | (σ, vs, none) =>
      match runOps env fuel σ rest with
      | (σ1, outs, e) => (σ1, vs :: outs, e)

/-! ### Concrete scenario environments -/

/-- A named type with no interesting reflective structure. -/
def oinfo : TypeInfo := {}

/-- Two plain types `A` and `B`, used for the mutual-dependency cycle. -/
def envAB : TEnv :=
  { info := fun _ => oinfo,
    name := fun n => if n = 0 then "A" else "B" }

/-- Rule `func(b B) A`. -/
def ruleAofB : Rule := { ins := [.base 1], outs := [.base 0], fn := fun _ => [.prim 0] }

/-- Rule `func(a A) B`. -/
def ruleBofA : Rule := { ins := [.base 0], outs := [.base 1], fn := fun _ => [.prim 1] }

/-- A plain type `X` and an error interface type `E`. -/
def envXE : TEnv :=
  { info := fun n => if n = 1 then { kind := .ifaceK, implsError := true } else oinfo,
    name := fun n => if n = 0 then "X" else "E" }

/-- Rule `func() (X, E)` returning a non-nil error after its value output. -/
def ruleXerr : Rule :=
  { ins := [], outs := [.base 0, .base 1], fn := fun _ => [.prim 7, .ifaceV 3] }

/-- Two plain types `X` and `Y`. -/
def envXY : TEnv :=
  { info := fun _ => oinfo, name := fun n => if n = 0 then "X" else "Y" }

/-- Rule `func() (X, Y)`: one constructor with two outputs. -/
def ruleXY : Rule :=
  { ins := [], outs := [.base 0, .base 1], fn := fun _ => [.prim 7, .prim 8] }

/-- Resolve `X` and then `Y` in two separate `Provide` calls. -/
def opsXY : List Op :=
  [.addRuleOp ruleXY, .provideOp [.req (.base 0)], .provideOp [.req (.base 1)]]

/-- Struct `aS` with a circular field of type `*bS`, struct `bS` with an
ordinary provided field of type `*aS` — the circular-break scenario. -/
def envCirc : TEnv :=
  { info := fun n =>
      if n = 0 then
        { kind := .structK, fields := [(.ptr (.base 1), some "circular")],
          zero := .structV [.nilPtr] }
      else
        { kind := .structK, fields := [(.ptr (.base 0), some "")],
          zero := .structV [.nilPtr] },
    name := fun n => if n = 0 then "aS" else "bS" }

/-- Request `*bS` only. -/
def opsCirc : List Op := [.provideOp [.req (.ptr (.base 1))]]

/-- Rule `func() X`. -/
def ruleX : Rule := { ins := [], outs := [.base 0], fn := fun _ => [.prim 7] }

/-- A well-formed slot for `X` followed by a malformed slot. -/
def opsBadSlot : List Op := [.addRuleOp ruleX, .provideOp [.req (.base 0), .bad]]

/-- Struct `sS` carrying a provide-tagged field of its own pointer type
`*sS`: auto-provision gives the Complete task of `*sS` a dependency on
itself. -/
def envSelf : TEnv :=
  { info := fun n =>
      if n = 0 then
        { kind := .structK, fields := [(.ptr (.base 0), some "")],
          zero := .structV [.nilPtr] }
      else oinfo,
    name := fun _ => "sS" }

/-- Request `*sS`. -/
def opsSelf : List Op := [.provideOp [.req (.ptr (.base 0))]]

/-- Struct with an unrecognized provide tag. -/
def envBadTag : TEnv :=
  { info := fun n =>
      if n = 0 then { kind := .structK, fields := [(.base 1, some "weird")] } else oinfo,
    name := fun n => if n = 0 then "S" else "T" }

/-- Struct with a circular tag on a non-reference (plain) field. -/
def envBadCirc : TEnv :=
  { info := fun n =>
      if n = 0 then { kind := .structK, fields := [(.base 1, some "circular")] } else oinfo,
    name := fun n => if n = 0 then "S" else "T" }

/-- The `PleaseProvide` capability used by `envInitCap`. -/
def capPS : InitCap :=
  { ins := [.base 2], outTypes := [.base 3],
    sem := fun _ _ => (.structV [.prim 5], [.nilIface]) }

/-- Struct `pS` with one provided field of type `V` and a `PleaseProvide`
method taking a `W`, returning one error output. -/
def envInitCap : TEnv :=
  { info := fun n =>
      if n = 0 then
        { kind := .structK, fields := [(.base 1, some "")],
          initCap := some capPS,
          zero := .structV [.prim 0] }
      else if n = 3 then { kind := .ifaceK, implsError := true }
      else oinfo,
    name := fun n =>
      if n = 0 then "pS" else if n = 1 then "V" else if n = 2 then "W" else "Errty" }

/-- A field whose `provide` tag is present but ill-formed: an unrecognized
value, or `circular` on a non-reference-kind field type. -/
def badProvideTag (env : TEnv) (f : GoType × Option String) : Prop :=
  match f.2 with
  | none => False
  | some tag =>
    (tag ≠ "" ∧ tag ≠ "circular") ∨ (tag = "circular" ∧ isReferenceType env f.1 = false)

/-! ### Invariant vocabulary -/

/-- The message of the defensive `Provide` branch that the specification
claims is unreachable. -/
def snhMsg : String := "should never happen: couldn't find value"

/-- How many mechanisms can still write a value for `T` into the value store:
the lazy auto-provider if `T`'s Partial task has not been installed yet,
otherwise the Partial task's pending action (for a rule action, pending until
its rule's latch is set). -/
def pendingStore (σ : PState) (T : GoType) : Nat :=
  match alookup σ.tasks (task.mk T false) with
  | none => 1
  | some s =>
    if s.Done then 0
    else
      match s.Do with
      | some (.customDo r) => if r ∈ σ.latches then 0 else 1
      | some _ => 1
      | none => 0

/-- How many mechanisms can still invoke the `PleaseProvide` initializer of
`T`: the lazy auto-provider if `T`'s Complete task is not installed yet,
otherwise that task's pending Complete action when it carries an initializer. -/
def pendingInit (σ : PState) (T : GoType) : Nat :=
  match alookup σ.tasks (task.mk T true) with
  | none => 1
  | some s =>
    if s.Done then 0
    else
      match s.Do with
      | some (.autoPtrCompleteDo _ _ _ hasInitFn) => if hasInitFn then 1 else 0
      | _ => 0

/-- The task map update `p.state` performs when lazily installing an
auto-derived initializer for type `X`. -/
def installTasks (σ : PState) (X : GoType) (init : initializer) : PState :=
  let m := ainsert (ainsert σ.tasks (task.mk X false) init.PartialState)
    (task.mk X true) init.CompleteState
  { σ with tasks := m }

/-- A task that has been marked InProgress and is not yet Done. -/
def inProg (σ : PState) (u : task) : Bool :=
  match alookup σ.tasks u with
  | some s => s.InProgress && !s.Done
  | none => false

/-- The recorded dependency list of a task. -/
def depsOf (σ : PState) (u : task) : List task :=
  match alookup σ.tasks u with
  | some s => s.DependsOn
  | none => []

/-- The state invariant of a provider, maintained at every step of a
resolution walk. -/
structure InvCore (env : TEnv) (σ : PState) : Prop where
  tr1 : ∀ r, countE σ.trace (.callCtor r) = if r ∈ σ.latches then 1 else 0
  lrange : ∀ r ∈ σ.latches, r < σ.rules.length
  ownP : ∀ T s, alookup σ.tasks (task.mk T false) = some s →
      s.Do = none ∨ s.Do = some (.autoPtrPartialDo T) ∨ s.Do = some (.autoDerefPartialDo T) ∨
      ∃ r rule, s.Do = some (.customDo r) ∧ σ.rules.get? r = some rule ∧
        T ∈ nonErrOuts env rule
  ownC : ∀ T s, alookup σ.tasks (task.mk T true) = some s →
      s.Do = none ∨ ∃ pfl ins b, s.Do = some (.autoPtrCompleteDo T pfl ins b)
  pdo : ∀ T s, alookup σ.tasks (task.mk T false) = some s → s.Done = false → s.Do ≠ none
  cdep : ∀ T s, alookup σ.tasks (task.mk T true) = some s → s.Done = false →
      task.mk T false ∈ s.DependsOn
  clr : ∀ u s, alookup σ.tasks u = some s → s.Done = true →
      s.Do = none ∧ s.DependsOn = []
  pair : ∀ T, (alookup σ.tasks (task.mk T false)).isSome
      = (alookup σ.tasks (task.mk T true)).isSome
  inst : ∀ r rule, σ.rules.get? r = some rule →
      (nonErrOuts env rule).Nodup ∧
      ∀ T ∈ nonErrOuts env rule, ∃ s, alookup σ.tasks (task.mk T false) = some s ∧
        (s.Do = some (.customDo r) ∨ (s.Do = none ∧ s.Done = true ∧ r ∈ σ.latches))
  sto : ∀ T, countE σ.trace (.storeV T) + pendingStore σ T ≤ 1
  str : ∀ T, 1 ≤ countE σ.trace (.storeV T) ↔ (alookup σ.values T).isSome = true
  tr4 : ∀ T, isDoneB σ (task.mk T false) = true → (alookup σ.values T).isSome = true
  tr5 : ∀ r rule, r ∈ σ.latches → σ.rules.get? r = some rule →
      ∀ T ∈ nonErrOuts env rule, (alookup σ.values T).isSome = true
  ci : ∀ T, countE σ.trace (.callInit T) + pendingInit σ T ≤ 1
  ranOk : ∀ t, Event.ranAct t false false ∉ σ.trace
  rwf : ∀ r rule, σ.rules.get? r = some rule →
      ∀ ins, (rule.fn ins).length = rule.outs.length

/-- Every InProgress, not-yet-Done task lies on the walk stack. -/
def IPS (σ : PState) (stack : List task) : Prop :=
  ∀ u, inProg σ u = true → u ∈ stack

/-- Once the Complete task of `T` is InProgress, `T`'s Partial task is Done or
still scheduled on the stack. -/
def CDS (σ : PState) (stack : List task) : Prop :=
  ∀ T, inProg σ (task.mk T true) = true →
    isDoneB σ (task.mk T false) = true ∨ task.mk T false ∈ stack

/-- A Done Complete task has its value stored, except while its Partial task
is still scheduled on the stack (possible only through a degenerate
self-dependency). -/
def CDV (σ : PState) (stack : List task) : Prop :=
  ∀ T, isDoneB σ (task.mk T true) = true →
    (alookup σ.values T).isSome = true ∨ task.mk T false ∈ stack

/-- The walk-stack ordering invariant, with the elements above (closer to the
top than) the current one accumulated: an InProgress task that does not list
itself among its own dependencies has every dependency Done or above it. -/
def SIa (σ : PState) : List task → List task → Prop
  | _, [] => True
  | above, u :: below =>
    ((inProg σ u = true ∧ u ∉ depsOf σ u) →
      ∀ d ∈ depsOf σ u, isDoneB σ d = true ∨ d ∈ above) ∧
    SIa σ (u :: above) below

/-- The invariant at operation boundaries: the core invariant, no lingering
InProgress task, every Done Complete task has its value, and every Done
Partial task has a Done Complete task. -/
def OpInv (env : TEnv) (σ : PState) : Prop :=
  InvCore env σ ∧ (∀ u, inProg σ u = false) ∧ CDV σ [] ∧
  (∀ T, isDoneB σ (task.mk T false) = true → isDoneB σ (task.mk T true) = true)

/-- The weak trace invariant carried across failing paths: each constructor,
store and initializer event happens at most once per subject, and no action
ever ran with an unsatisfied (non-self) dependency. -/
def WTr (σ : PState) : Prop :=
  (∀ r, countE σ.trace (.callCtor r) ≤ 1) ∧
  (∀ T, countE σ.trace (.storeV T) ≤ 1) ∧
  (∀ T, countE σ.trace (.callInit T) ≤ 1) ∧
  (∀ u, Event.ranAct u false false ∉ σ.trace)

/-- A rule whose semantic function returns exactly one value per declared
output, as `reflect.Value.Call` guarantees for the reflected function. -/
def ruleWF (rule : Rule) : Prop :=
  ∀ ins, (rule.fn ins).length = rule.outs.length

/-- All rules registered by a sequence of operations are well-formed. -/
def opsWF (ops : List Op) : Prop :=
  ∀ op ∈ ops, ∀ rule, op = .addRuleOp rule → ruleWF rule

end ProvideModel

namespace ProvideModel

/-! ### Helper lemmas -/

theorem alookup_ainsert_self {α β : Type} [DecidableEq α] (m : List (α × β)) (k : α) (v : β) :
    alookup (ainsert m k v) k = some v := by
  induction m with
  | nil => simp [ainsert, alookup]
  | cons p rest ih =>
    by_cases h : p.1 = k
    · simp [ainsert, alookup, h]
    · simp [ainsert, alookup, h, ih]

theorem alookup_ainsert_ne {α β : Type} [DecidableEq α] (m : List (α × β)) (k a : α) (v : β)
    (h : a ≠ k) : alookup (ainsert m k v) a = alookup m a := by
  induction m with
  | nil => simp [ainsert, alookup, Ne.symm h]
  | cons p rest ih =>
    rcases p with ⟨pk, pv⟩
    by_cases hp : pk = k
    · subst hp
      simp [ainsert, alookup, Ne.symm h]
    · simp [ainsert, alookup, hp, ih]

theorem alookup_ainsert {α β : Type} [DecidableEq α] (m : List (α × β)) (k a : α) (v : β) :
    alookup (ainsert m k v) a = if a = k then some v else alookup m a := by
  by_cases h : a = k
  · subst h; simp [alookup_ainsert_self]
  · simp [h, alookup_ainsert_ne m k a v h]

theorem countE_append (l1 l2 : List Event) (e : Event) :
    countE (l1 ++ l2) e = countE l1 e + countE l2 e := by
  simp [countE, List.filter_append]

theorem countE_nil (e : Event) : countE [] e = 0 := rfl

theorem countE_single (x e : Event) : countE [x] e = if x = e then 1 else 0 := by
  by_cases h : x = e <;> simp [countE, h]

theorem string_prefix_ne (p s target : String) (h : ¬ (p.data <+: target.data)) :
    p ++ s ≠ target := by
  intro heq
  exact h ⟨s.data, by rw [← heq]; exact (String.data_append p s).symm⟩

theorem string_suffix_ne (a fix target : String) (h : ¬ (fix.data <:+ target.data)) :
    a ++ fix ≠ target := by
  intro heq
  exact h ⟨a.data, by rw [← heq]; exact (String.data_append a fix).symm⟩

theorem string_infix_ne (a fix b target : String) (h : ¬ (fix.data <:+: target.data)) :
    a ++ fix ++ b ≠ target := by
  intro heq
  refine h ⟨a.data, b.data, ?_⟩
  rw [← heq, String.data_append, String.data_append, List.append_assoc]

/-- State extension: Done tasks stay Done, and the InProgress tasks of the
extended state were already InProgress with the same dependency list. -/
def TExt (σ σ1 : PState) : Prop :=
  (∀ u, isDoneB σ u = true → isDoneB σ1 u = true) ∧
  (∀ u, inProg σ1 u = true → inProg σ u = true ∧ depsOf σ1 u = depsOf σ u)

theorem TExt.refl (σ : PState) : TExt σ σ := ⟨fun _ h => h, fun _ h => ⟨h, rfl⟩⟩

theorem TExt.trans {σ1 σ2 σ3 : PState} (h1 : TExt σ1 σ2) (h2 : TExt σ2 σ3) : TExt σ1 σ3 :=
  ⟨fun u h => h2.1 u (h1.1 u h),
   fun u h => ⟨(h1.2 u (h2.2 u h).1).1, ((h2.2 u h).2.trans (h1.2 u (h2.2 u h).1).2)⟩⟩

theorem SIa_transport {σ σ1 : PState} (hx : TExt σ σ1) :
    ∀ (l above : List task), SIa σ above l → SIa σ1 above l := by
  intro l
  induction l with
  | nil => intro above _; trivial
  | cons u below ih =>
    intro above h
    refine ⟨?_, ih (u :: above) h.2⟩
    intro ⟨hip, hsd⟩ d hd
    have hip0 := (hx.2 u hip).1
    have hdeq := (hx.2 u hip).2
    rw [hdeq] at hsd hd
    rcases h.1 ⟨hip0, hsd⟩ d hd with hD | hA
    · exact Or.inl (hx.1 d hD)
    · exact Or.inr hA

theorem SIa_above_subsume {σ : PState} (above above1 : List task)
    (hsub : ∀ d ∈ above, isDoneB σ d = true ∨ d ∈ above1) :
    ∀ (l : List task), SIa σ above l → SIa σ above1 l := by
  intro l
  induction l generalizing above above1 with
  | nil => intro _; trivial
  | cons u below ih =>
    intro h
    refine ⟨?_, ih (u :: above) (u :: above1) ?_ h.2⟩
    · intro hc d hd
      rcases h.1 hc d hd with hD | hA
      · exact Or.inl hD
      · rcases hsub d hA with hD | hA1
        · exact Or.inl hD
        · exact Or.inr hA1
    · intro d hd
      rcases List.mem_cons.mp hd with h1 | h1
      · exact Or.inr (by simp [h1])
      · rcases hsub d h1 with hD | hA1
        · exact Or.inl hD
        · exact Or.inr (by simp [hA1])

theorem errval_ne_msg (v : Value) (s : String) : Err.val v ≠ Err.msg s := by
  intro h; cases h

theorem errmsg_ne_snh_of_prefix (p s : String)
    (h : ¬ (p.data <+: snhMsg.data)) :
    Err.msg (p ++ s) ≠ Err.msg snhMsg := by
  intro heq
  injection heq with heq2
  exact string_prefix_ne p s _ h heq2

theorem errmsg_ne_snh_of_suffix (a fix : String)
    (h : ¬ (fix.data <:+ snhMsg.data)) :
    Err.msg (a ++ fix) ≠ Err.msg snhMsg := by
  intro heq
  injection heq with heq2
  exact string_suffix_ne a fix _ h heq2

theorem errmsg_ne_snh_of_infix (a fix b : String)
    (h : ¬ (fix.data <:+: snhMsg.data)) :
    Err.msg (a ++ fix ++ b) ≠ Err.msg snhMsg := by
  intro heq
  injection heq with heq2
  exact string_infix_ne a fix b _ h heq2

theorem collectFields_err_not_snh (env : TEnv) (nm : String) :
    ∀ (l : List (GoType × Option String)) (i : Nat) (e : Err),
    collectFields env nm l i = .error e → e ≠ .msg snhMsg := by
  intro l
  induction l with
  | nil => intro i e h; cases h
  | cons f rest ih =>
    intro i e h
    match hf : f.2 with
    | none =>
      simp [collectFields, hf] at h
      exact ih (i + 1) e h
    | some tag =>
      by_cases hcirc : tag = "circular"
      · subst hcirc
        by_cases href : isReferenceType env f.1 = true
        · rcases hc : collectFields env nm rest (i + 1) with e2 | l2
          · simp [collectFields, hf, href, hc, Except.map] at h
            subst h
            exact ih (i + 1) e2 hc
          · simp [collectFields, hf, href, hc, Except.map] at h
        · have href2 : isReferenceType env f.1 = false := by simpa using href
          simp [collectFields, hf, href2] at h
          subst h
          rw [String.append_assoc, String.append_assoc]
          exact errmsg_ne_snh_of_prefix
            "only reference types (pointer, map, chan) can be circularly provided to "
            _ (by decide)
      · by_cases hemp : tag = ""
        · subst hemp
          have hne : ("" == "circular") = false := by decide
          rcases hc : collectFields env nm rest (i + 1) with e2 | l2
          · simp [collectFields, hf, hne, hc, Except.map] at h
            subst h
            exact ih (i + 1) e2 hc
          · simp [collectFields, hf, hne, hc, Except.map] at h
        · have h1 : (tag == "circular") = false := by simpa using hcirc
          have h2 : (tag != "") = true := by simpa using hemp
          simp [collectFields, hf, h1, h2] at h
          subst h
          rw [String.append_assoc, String.append_assoc]
          exact errmsg_ne_snh_of_prefix "unrecognized provide tag " _ (by decide)

theorem autoProvide_err_not_snh (env : TEnv) (X : GoType) (e : Err)
    (h : autoProvide env X = .error e) : e ≠ .msg snhMsg := by
  match X with
  | .ptr elem =>
    have hno : (kindOf env (GoType.ptr elem) == GoKind.ifaceK) = false := rfl
    by_cases hks : kindOf env elem = GoKind.structK
    · rcases hcf : collectFields env (typeName env elem) (fieldsOf env elem) 0 with e2 | pf
      · simp [autoProvide, hno, hks, hcf] at h
        subst h
        exact collectFields_err_not_snh env (typeName env elem) (fieldsOf env elem) 0 e2 hcf
      · rcases hcap : initCapOf env (GoType.ptr elem) with _ | cap
        · by_cases hemp : pf = []
          · simp [autoProvide, hno, hks, hcf, hcap, hemp] at h
            subst h
            exact errmsg_ne_snh_of_suffix _ " can't be automatically provided" (by decide)
          · simp [autoProvide, hno, hks, hcf, hcap, hemp] at h
        · rcases hfind : cap.outTypes.find? (fun t => !isErrorType env t) with _ | bad
          · simp [autoProvide, hno, hks, hcf, hcap, hfind] at h
          · simp [autoProvide, hno, hks, hcf, hcap, hfind] at h
            subst h
            exact errmsg_ne_snh_of_infix _
              ".PleaseProvide must only return errors (which must be interfaces), not " _
              (by decide)
    · rcases hcap : initCapOf env (GoType.ptr elem) with _ | cap
      · simp [autoProvide, hno, hks, hcap] at h
        subst h
        exact errmsg_ne_snh_of_suffix _ " can't be automatically provided" (by decide)
      · rcases hfind : cap.outTypes.find? (fun t => !isErrorType env t) with _ | bad
        · simp [autoProvide, hno, hks, hcap, hfind] at h
        · simp [autoProvide, hno, hks, hcap, hfind] at h
          subst h
          exact errmsg_ne_snh_of_infix _
            ".PleaseProvide must only return errors (which must be interfaces), not " _
            (by decide)
  | .base n =>
    by_cases hk : kindOf env (GoType.base n) = GoKind.ifaceK
    · simp [autoProvide, hk] at h
      subst h
      exact errmsg_ne_snh_of_suffix _ " can't be automatically provided" (by decide)
    · simp [autoProvide, hk] at h

theorem autoProvide_shape (env : TEnv) (X : GoType) (init : initializer)
    (h : autoProvide env X = .ok init) :
    init.typ = X ∧
    init.PartialState.Done = false ∧ init.PartialState.InProgress = false ∧
    (init.PartialState.Do = some (.autoPtrPartialDo X) ∨
      init.PartialState.Do = some (.autoDerefPartialDo X)) ∧
    init.CompleteState.Done = false ∧ init.CompleteState.InProgress = false ∧
    task.mk X false ∈ init.CompleteState.DependsOn ∧
    (init.CompleteState.Do = none ∨
      ∃ pfl ins b, init.CompleteState.Do = some (.autoPtrCompleteDo X pfl ins b)) := by
  match X with
  | .ptr elem =>
    have hno : (kindOf env (GoType.ptr elem) == GoKind.ifaceK) = false := rfl
    rcases hfe : (if kindOf env elem = GoKind.structK then
        collectFields env (typeName env elem) (fieldsOf env elem) 0
      else Except.ok []) with e | pf
    · simp [autoProvide, hno, hfe] at h
    · rcases hcap : initCapOf env (GoType.ptr elem) with _ | cap
      · by_cases hemp : pf = []
        · simp [autoProvide, hno, hfe, hcap, hemp] at h
        · simp [autoProvide, hno, hfe, hcap, hemp] at h
          rw [← h]
          refine ⟨rfl, rfl, rfl, Or.inl rfl, rfl, rfl, by simp [buildPtrInit],
            Or.inr ⟨pf, [], false, rfl⟩⟩
      · rcases hfind : cap.outTypes.find? (fun t => !isErrorType env t) with _ | bad
        · simp [autoProvide, hno, hfe, hcap, hfind] at h
          rw [← h]
          refine ⟨rfl, rfl, rfl, Or.inl rfl, rfl, rfl, by simp [buildPtrInit],
            Or.inr ⟨pf, cap.ins, true, rfl⟩⟩
        · simp [autoProvide, hno, hfe, hcap, hfind] at h
  | .base n =>
    by_cases hk : (kindOf env (GoType.base n) == GoKind.ifaceK) = true
    · simp [autoProvide, hk] at h
    · have hk2 : (kindOf env (GoType.base n) == GoKind.ifaceK) = false := by
        simpa using hk
      simp [autoProvide, hk2] at h
      rw [← h]
      refine ⟨rfl, rfl, rfl, Or.inr rfl, rfl, rfl, by simp, Or.inl rfl⟩

theorem getTaskState_cases (env : TEnv) (σ : PState) (t : task) :
    (∃ s, alookup σ.tasks t = some s ∧ getTaskState env σ t = (σ, .ok s)) ∨
    (alookup σ.tasks t = none ∧ ∃ e, autoProvide env t.typ = .error e ∧
      getTaskState env σ t = (σ, .error e)) ∨
    (alookup σ.tasks t = none ∧ ∃ init, autoProvide env t.typ = .ok init ∧
      getTaskState env σ t =
        (installTasks σ t.typ init,
          .ok (if t.Complete then init.CompleteState else init.PartialState))) := by
  rcases hl : alookup σ.tasks t with _ | s
  · rcases hap : autoProvide env t.typ with e | init
    · exact Or.inr (Or.inl ⟨rfl, e, rfl, by rw [getTaskState, hl, hap]⟩)
    · refine Or.inr (Or.inr ⟨rfl, init, rfl, ?_⟩)
      rw [getTaskState, hl, hap]
      have heta : task.mk t.typ t.Complete = t := rfl
      rcases hc : t.Complete
      · have : alookup (ainsert (ainsert σ.tasks (task.mk t.typ false) init.PartialState)
            (task.mk t.typ true) init.CompleteState) t = some init.PartialState := by
          rw [alookup_ainsert_ne _ _ _ _ (by rw [← heta, hc]; intro hh; cases hh)]
          rw [← heta, hc, alookup_ainsert_self]
        simp [this, installTasks]
      · have : alookup (ainsert (ainsert σ.tasks (task.mk t.typ false) init.PartialState)
            (task.mk t.typ true) init.CompleteState) t = some init.CompleteState := by
          rw [← heta, hc, alookup_ainsert_self]
        simp [this, installTasks]
  · exact Or.inl ⟨s, rfl, by rw [getTaskState, hl]⟩

theorem installTasks_lookup (σ : PState) (X : GoType) (init : initializer) (u : task) :
    alookup (installTasks σ X init).tasks u =
      if u = task.mk X true then some init.CompleteState
      else if u = task.mk X false then some init.PartialState
      else alookup σ.tasks u := by
  show alookup (ainsert (ainsert σ.tasks (task.mk X false) init.PartialState)
      (task.mk X true) init.CompleteState) u = _
  rw [alookup_ainsert]
  by_cases h1 : u = task.mk X true
  · simp [h1]
  · simp [h1, alookup_ainsert]

theorem install_preserves (env : TEnv) (σ : PState) (X : GoType) (init : initializer)
    (h0 : alookup σ.tasks (task.mk X false) = none)
    (h1 : alookup σ.tasks (task.mk X true) = none)
    (hok : autoProvide env X = .ok init)
    (hinv : InvCore env σ) :
    InvCore env (installTasks σ X init) ∧
    (∀ u, isDoneB (installTasks σ X init) u = isDoneB σ u) ∧
    (∀ u, inProg (installTasks σ X init) u = inProg σ u) := by
  obtain ⟨-, hpD, hpI, hpDo, hcD, hcI, hcdep, hcDo⟩ := autoProvide_shape env X init hok
  have hlk := installTasks_lookup σ X init
  have hne1 : ∀ T, task.mk T false ≠ task.mk X true := by
    intro T hh; cases hh
  have hne2 : ∀ T, task.mk T true ≠ task.mk X false := by
    intro T hh; cases hh
  have hlkP : ∀ T, alookup (installTasks σ X init).tasks (task.mk T false)
      = if T = X then some init.PartialState else alookup σ.tasks (task.mk T false) := by
    intro T
    rw [hlk, if_neg (hne1 T)]
    by_cases hTX : T = X
    · subst hTX; simp
    · rw [if_neg (by intro hh; cases hh; exact hTX rfl), if_neg hTX]
  have hlkC : ∀ T, alookup (installTasks σ X init).tasks (task.mk T true)
      = if T = X then some init.CompleteState else alookup σ.tasks (task.mk T true) := by
    intro T
    rw [hlk]
    by_cases hTX : T = X
    · subst hTX; simp
    · rw [if_neg (by intro hh; cases hh; exact hTX rfl), if_neg (hne2 T), if_neg hTX]
  have hDone : ∀ u, isDoneB (installTasks σ X init) u = isDoneB σ u := by
    intro u
    unfold isDoneB
    rw [hlk]
    by_cases hu1 : u = task.mk X true
    · subst hu1; rw [h1, if_pos rfl]; simp [hcD]
    · by_cases hu2 : u = task.mk X false
      · subst hu2; rw [if_neg hu1, if_pos rfl, h0]; simp [hpD]
      · rw [if_neg hu1, if_neg hu2]
  have hIp : ∀ u, inProg (installTasks σ X init) u = inProg σ u := by
    intro u
    unfold inProg
    rw [hlk]
    by_cases hu1 : u = task.mk X true
    · subst hu1; rw [h1, if_pos rfl]; simp [hcI]
    · by_cases hu2 : u = task.mk X false
      · subst hu2; rw [if_neg hu1, if_pos rfl, h0]; simp [hpI]
      · rw [if_neg hu1, if_neg hu2]
  refine ⟨⟨hinv.tr1, hinv.lrange, ?_, ?_, ?_, ?_, ?_, ?_, ?_, ?_, hinv.str, ?_, hinv.tr5, ?_,
    hinv.ranOk, hinv.rwf⟩, hDone, hIp⟩
  · -- ownP
    intro T s hs
    rw [hlkP] at hs
    by_cases hTX : T = X
    · subst hTX
      rw [if_pos rfl] at hs
      cases hs
      rcases hpDo with hd | hd
      · exact Or.inr (Or.inl hd)
      · exact Or.inr (Or.inr (Or.inl hd))
    · rw [if_neg hTX] at hs
      exact hinv.ownP T s hs
  · -- ownC
    intro T s hs
    rw [hlkC] at hs
    by_cases hTX : T = X
    · subst hTX
      rw [if_pos rfl] at hs
      cases hs
      rcases hcDo with hd | ⟨pfl, ins, b, hd⟩
      · exact Or.inl hd
      · exact Or.inr ⟨pfl, ins, b, hd⟩
    · rw [if_neg hTX] at hs
      exact hinv.ownC T s hs
  · -- pdo
    intro T s hs hD
    rw [hlkP] at hs
    by_cases hTX : T = X
    · subst hTX
      rw [if_pos rfl] at hs
      cases hs
      rcases hpDo with hd | hd <;> simp [hd]
    · rw [if_neg hTX] at hs
      exact hinv.pdo T s hs hD
  · -- cdep
    intro T s hs hD
    rw [hlkC] at hs
    by_cases hTX : T = X
    · subst hTX
      rw [if_pos rfl] at hs
      cases hs
      exact hcdep
    · rw [if_neg hTX] at hs
      exact hinv.cdep T s hs hD
  · -- clr
    intro u s hs hD
    rw [hlk] at hs
    by_cases hu1 : u = task.mk X true
    · rw [if_pos hu1] at hs
      cases hs
      rw [hcD] at hD
      cases hD
    · by_cases hu2 : u = task.mk X false
      · rw [if_neg hu1, if_pos hu2] at hs
        cases hs
        rw [hpD] at hD
        cases hD
      · rw [if_neg hu1, if_neg hu2] at hs
        exact hinv.clr u s hs hD
  · -- pair
    intro T
    rw [hlkP, hlkC]
    by_cases hTX : T = X
    · simp [hTX]
    · rw [if_neg hTX, if_neg hTX]
      exact hinv.pair T
  · -- inst
    intro r rule hr
    refine ⟨(hinv.inst r rule hr).1, ?_⟩
    intro T hT
    obtain ⟨s, hs, hor⟩ := (hinv.inst r rule hr).2 T hT
    by_cases hTX : T = X
    · subst hTX
      rw [h0] at hs
      cases hs
    · exact ⟨s, by rw [hlkP, if_neg hTX]; exact hs, hor⟩
  · -- sto
    intro T
    have hold := hinv.sto T
    have : pendingStore (installTasks σ X init) T = pendingStore σ T := by
      unfold pendingStore
      rw [hlkP]
      by_cases hTX : T = X
      · subst hTX
        rw [if_pos rfl, h0]
        rcases hpDo with hd | hd <;> simp [hpD, hd]
      · rw [if_neg hTX]
        rfl
    rw [this]
    exact hold
  · -- tr4
    intro T hD
    rw [hDone] at hD
    exact hinv.tr4 T hD
  · -- ci
    intro T
    have hold := hinv.ci T
    have : pendingInit (installTasks σ X init) T ≤ pendingInit σ T := by
      unfold pendingInit
      rw [hlkC]
      by_cases hTX : T = X
      · subst hTX
        rw [if_pos rfl, h1]
        rcases hcDo with hd | ⟨pfl, ins, b, hd⟩
        · simp [hcD, hd]
        · rcases b <;> simp [hcD, hd]
      · rw [if_neg hTX]
    have htr : (installTasks σ X init).trace = σ.trace := rfl
    rw [htr]
    omega

theorem getTaskState_err (env : TEnv) (σ σ1 : PState) (t : task) (e : Err)
    (h : getTaskState env σ t = (σ1, .error e)) :
    σ1 = σ ∧ e ≠ .msg snhMsg := by
  rcases getTaskState_cases env σ t with ⟨s, _, heq⟩ | ⟨_, e2, hap, heq⟩ | ⟨_, init, hap, heq⟩
  · rw [h] at heq; simp at heq
  · rw [h] at heq
    have h1 : σ1 = σ := congrArg Prod.fst heq
    have h2 : e = e2 := by
      have := congrArg Prod.snd heq
      simpa using this
    subst h2
    exact ⟨h1, autoProvide_err_not_snh env t.typ e hap⟩
  · rw [h] at heq; simp at heq

theorem getTaskState_ok (env : TEnv) (σ σ1 : PState) (t : task) (s : state)
    (hinv : InvCore env σ)
    (h : getTaskState env σ t = (σ1, .ok s)) :
    InvCore env σ1 ∧
    σ1.values = σ.values ∧ σ1.trace = σ.trace ∧ σ1.latches = σ.latches ∧
    σ1.rules = σ.rules ∧ σ1.heap = σ.heap ∧
    (∀ u, isDoneB σ1 u = isDoneB σ u) ∧ (∀ u, inProg σ1 u = inProg σ u) ∧
    alookup σ1.tasks t = some s ∧
    (∀ u s2, alookup σ.tasks u = some s2 → alookup σ1.tasks u = some s2) := by
  rcases getTaskState_cases env σ t with ⟨s0, hl, heq⟩ | ⟨_, e2, hap, heq⟩ | ⟨hl, init, hap, heq⟩
  · rw [h] at heq
    have h1 : σ1 = σ := congrArg Prod.fst heq
    have h2 : s = s0 := by
      have := congrArg Prod.snd heq
      simpa using this
    subst h1; subst h2
    exact ⟨hinv, rfl, rfl, rfl, rfl, rfl, fun _ => rfl, fun _ => rfl, hl,
      fun _ _ hh => hh⟩
  · rw [h] at heq; simp at heq
  · rw [h] at heq
    have h1 : σ1 = installTasks σ t.typ init := congrArg Prod.fst heq
    have h2 : s = (if t.Complete then init.CompleteState else init.PartialState) := by
      have := congrArg Prod.snd heq
      simpa using this
    have heta : task.mk t.typ t.Complete = t := rfl
    have h0F : alookup σ.tasks (task.mk t.typ false) = none := by
      rcases hc : t.Complete
      · rw [← hc, heta]; exact hl
      · have := hinv.pair t.typ
        rw [← hc, heta] at this
        rw [hl] at this
        rcases hl2 : alookup σ.tasks (task.mk t.typ false) with _ | s2
        · rfl
        · rw [hl2] at this; simp at this
    have h0T : alookup σ.tasks (task.mk t.typ true) = none := by
      rcases hc : t.Complete
      · have := hinv.pair t.typ
        rw [← hc, heta] at this
        rw [hl] at this
        rcases hl2 : alookup σ.tasks (task.mk t.typ true) with _ | s2
        · rfl
        · rw [hl2] at this; simp at this
      · rw [← hc, heta]; exact hl
    obtain ⟨hinv1, hDone, hIp⟩ := install_preserves env σ t.typ init h0F h0T hap hinv
    subst h1
    refine ⟨hinv1, rfl, rfl, rfl, rfl, rfl, hDone, hIp, ?_, ?_⟩
    · rw [installTasks_lookup]
      rcases hc : t.Complete
      · rw [if_neg (by rw [← heta, hc]; intro hh; cases hh),
          if_pos (by rw [← heta, hc])]
        rw [h2, hc]
        rfl
      · rw [if_pos (by rw [← heta, hc])]
        rw [h2, hc]
        rfl
    · intro u s2 hu
      rw [installTasks_lookup]
      rw [if_neg, if_neg]
      · exact hu
      · intro hh; rw [hh, h0F] at hu; cases hu
      · intro hh; rw [hh, h0T] at hu; cases hu

theorem cycleErr_not_snh (env : TEnv) (stack : List task) (t : task) :
    cycleErr env stack t ≠ .msg snhMsg := by
  unfold cycleErr
  exact errmsg_ne_snh_of_prefix "cycle: " _ (by decide)

theorem scheduleDeps_nil_eq (env : TEnv) (t : task) (σ : PState) (stack : List task)
    (hd : Bool) : scheduleDeps env t σ stack [] hd = (σ, .ok (stack, hd)) := rfl

theorem scheduleDeps_cons_err (env : TEnv) (t dep : task) (σ σ2 : PState)
    (stack rest : List task) (hd : Bool) (e : Err)
    (hg : getTaskState env σ dep = (σ2, .error e)) :
    scheduleDeps env t σ stack (dep :: rest) hd = (σ2, .error e) := by
  rw [scheduleDeps, hg]

theorem scheduleDeps_cons_ok (env : TEnv) (t dep : task) (σ σ2 : PState)
    (stack rest : List task) (hd : Bool) (depState : state)
    (hg : getTaskState env σ dep = (σ2, .ok depState)) :
    scheduleDeps env t σ stack (dep :: rest) hd =
      (if depState.Done then scheduleDeps env t σ2 stack rest hd
       else if depState.InProgress then (σ2, .error (cycleErr env stack t))
       else scheduleDeps env t σ2 (dep :: stack) rest true) := by
  rw [scheduleDeps, hg]

theorem scheduleDeps_spec (env : TEnv) (t : task) :
    ∀ (deps : List task) (σ : PState) (stack : List task) (hd : Bool),
    InvCore env σ →
    (∀ σ1 e, scheduleDeps env t σ stack deps hd = (σ1, .error e) →
      InvCore env σ1 ∧ e ≠ .msg snhMsg ∧ σ1.trace = σ.trace ∧ σ1.latches = σ.latches) ∧
    (∀ σ1 stack1 hd1, scheduleDeps env t σ stack deps hd = (σ1, .ok (stack1, hd1)) →
      InvCore env σ1 ∧
      σ1.values = σ.values ∧ σ1.trace = σ.trace ∧ σ1.latches = σ.latches ∧
      σ1.rules = σ.rules ∧ σ1.heap = σ.heap ∧
      (∀ u, isDoneB σ1 u = isDoneB σ u) ∧ (∀ u, inProg σ1 u = inProg σ u) ∧
      (∀ u s2, alookup σ.tasks u = some s2 → alookup σ1.tasks u = some s2) ∧
      (∃ P, stack1 = P ++ stack ∧
        (∀ d ∈ P, inProg σ1 d = false ∧ isDoneB σ1 d = false ∧ d ∈ deps) ∧
        (∀ d ∈ deps, isDoneB σ1 d = true ∨ d ∈ P) ∧
        (hd1 = false → P = [] ∧ hd = false))) := by
  intro deps
  induction deps with
  | nil =>
    intro σ stack hd hinv
    constructor
    · intro σ1 e h
      rw [scheduleDeps_nil_eq] at h
      injection h with hA hB
      cases hB
    · intro σ1 stack1 hd1 h
      rw [scheduleDeps_nil_eq] at h
      injection h with hA hB
      injection hB with hB
      injection hB with hB1 hB2
      subst hA; subst hB1; subst hB2
      exact ⟨hinv, rfl, rfl, rfl, rfl, rfl, fun _ => rfl, fun _ => rfl, fun _ _ hh => hh,
        [], by simp, by simp, by simp, fun hh => ⟨rfl, hh⟩⟩
  | cons dep rest ih =>
    intro σ stack hd hinv
    rcases hg : getTaskState env σ dep with ⟨σ2, r⟩
    rcases r with e0 | depState
    · -- dependency lookup failed
      obtain ⟨hσ2, hne⟩ := getTaskState_err env σ σ2 dep e0 hg
      subst hσ2
      constructor
      · intro σ1 e h
        rw [scheduleDeps_cons_err env t dep σ2 σ2 stack rest hd e0 hg] at h
        injection h with hA hB
        injection hB with hB
        subst hA; subst hB
        exact ⟨hinv, hne, rfl, rfl⟩
      · intro σ1 stack1 hd1 h
        rw [scheduleDeps_cons_err env t dep σ2 σ2 stack rest hd e0 hg] at h
        injection h with hA hB
        cases hB
    · obtain ⟨hinv2, hva, htr, hla, hru, hhe, hDone, hIp, hlkd, hold⟩ :=
        getTaskState_ok env σ σ2 dep depState hinv hg
      rcases hdd : depState.Done
      case true =>
        -- dependency already Done: skip it
        have hrec := ih σ2 stack hd hinv2
        have hDdep : isDoneB σ2 dep = true := by
          unfold isDoneB; rw [hlkd]; exact hdd
        have heq : scheduleDeps env t σ stack (dep :: rest) hd
            = scheduleDeps env t σ2 stack rest hd := by
          rw [scheduleDeps_cons_ok env t dep σ σ2 stack rest hd depState hg, hdd]
          simp
        constructor
        · intro σ1 e h
          rw [heq] at h
          obtain ⟨ha, hb, hc, hdd2⟩ := hrec.1 σ1 e h
          exact ⟨ha, hb, by rw [hc, htr], by rw [hdd2, hla]⟩
        · intro σ1 stack1 hd1 h
          rw [heq] at h
          obtain ⟨ha, hb, hc, hd2, he2, hf2, hg2, hh2, hi2, P, hP1, hP2, hP3, hP4⟩ :=
            hrec.2 σ1 stack1 hd1 h
          refine ⟨ha, by rw [hb, hva], by rw [hc, htr], by rw [hd2, hla],
            by rw [he2, hru], by rw [hf2, hhe],
            fun u => by rw [hg2 u, hDone u], fun u => by rw [hh2 u, hIp u],
            fun u s2 hh => hi2 u s2 (hold u s2 hh),
            P, hP1, ?_, ?_, hP4⟩
          · intro d hdP
            obtain ⟨q1, q2, q3⟩ := hP2 d hdP
            exact ⟨q1, q2, by simp [q3]⟩
          · intro d hdm
            rcases List.mem_cons.mp hdm with h1 | h1
            · subst h1
              exact Or.inl (by rw [hg2 d]; exact hDdep)
            · exact hP3 d h1
      case false =>
        rcases hip : depState.InProgress
        case true =>
          -- cycle detected
          have heq : scheduleDeps env t σ stack (dep :: rest) hd
              = (σ2, .error (cycleErr env stack t)) := by
            rw [scheduleDeps_cons_ok env t dep σ σ2 stack rest hd depState hg, hdd, hip]
            simp
          constructor
          · intro σ1 e h
            rw [heq] at h
            injection h with hA hB
            injection hB with hB
            subst hA
            rw [← hB]
            exact ⟨hinv2, cycleErr_not_snh env stack t, htr, hla⟩
          · intro σ1 stack1 hd1 h
            rw [heq] at h
            injection h with hA hB
            cases hB
        case false =>
          -- push the dependency
          have hrec := ih σ2 (dep :: stack) true hinv2
          have hIpDep : inProg σ2 dep = false := by
            unfold inProg; rw [hlkd]
            show (depState.InProgress && !depState.Done) = false
            rw [hip]
            rfl
          have hDoDep : isDoneB σ2 dep = false := by
            unfold isDoneB; rw [hlkd]; exact hdd
          have heq : scheduleDeps env t σ stack (dep :: rest) hd
              = scheduleDeps env t σ2 (dep :: stack) rest true := by
            rw [scheduleDeps_cons_ok env t dep σ σ2 stack rest hd depState hg, hdd, hip]
            simp
          constructor
          · intro σ1 e h
            rw [heq] at h
            obtain ⟨ha, hb, hc, hd3⟩ := hrec.1 σ1 e h
            exact ⟨ha, hb, by rw [hc, htr], by rw [hd3, hla]⟩
          · intro σ1 stack1 hd1 h
            rw [heq] at h
            obtain ⟨ha, hb, hc, hd2, he2, hf2, hg2, hh2, hi2, P, hP1, hP2, hP3, hP4⟩ :=
              hrec.2 σ1 stack1 hd1 h
            refine ⟨ha, by rw [hb, hva], by rw [hc, htr], by rw [hd2, hla],
              by rw [he2, hru], by rw [hf2, hhe],
              fun u => by rw [hg2 u, hDone u], fun u => by rw [hh2 u, hIp u],
              fun u s2 hh => hi2 u s2 (hold u s2 hh),
              P ++ [dep], by rw [hP1]; simp, ?_, ?_, ?_⟩
            · intro d hdP
              rcases List.mem_append.mp hdP with h1 | h1
              · obtain ⟨q1, q2, q3⟩ := hP2 d h1
                exact ⟨q1, q2, by simp [q3]⟩
              · have hde : d = dep := by simpa using h1
                subst hde
                exact ⟨by rw [hh2 d]; exact hIpDep,
                  by rw [hg2 d]; exact hDoDep, by simp⟩
            · intro d hdm
              rcases List.mem_cons.mp hdm with h1 | h1
              · subst h1
                exact Or.inr (by simp)
              · rcases hP3 d h1 with h2 | h2
                · exact Or.inl h2
                · exact Or.inr (by simp [h2])
            · intro hh
              obtain ⟨_, hcontra⟩ := hP4 hh
              cases hcontra

theorem InvCore_trace_append (env : TEnv) (σ : PState) (l : List Event)
    (hc : ∀ r, countE l (.callCtor r) = 0)
    (hs : ∀ T, countE l (.storeV T) = 0)
    (hi : ∀ T, countE l (.callInit T) = 0)
    (hr : ∀ u, Event.ranAct u false false ∉ l)
    (hinv : InvCore env σ) :
    InvCore env { σ with trace := σ.trace ++ l } := by
  have hps : ∀ T, pendingStore { σ with trace := σ.trace ++ l } T = pendingStore σ T :=
    fun T => rfl
  have hpi : ∀ T, pendingInit { σ with trace := σ.trace ++ l } T = pendingInit σ T :=
    fun T => rfl
  have hdn : ∀ u, isDoneB { σ with trace := σ.trace ++ l } u = isDoneB σ u :=
    fun u => rfl
  refine ⟨?_, hinv.lrange, hinv.ownP, hinv.ownC, hinv.pdo, hinv.cdep, hinv.clr, hinv.pair,
    hinv.inst, ?_, ?_, ?_, hinv.tr5, ?_, ?_, hinv.rwf⟩
  · intro r
    show countE (σ.trace ++ l) (.callCtor r) = _
    rw [countE_append, hc r, Nat.add_zero]
    exact hinv.tr1 r
  · intro T
    show countE (σ.trace ++ l) (.storeV T) + _ ≤ 1
    rw [countE_append, hs T, Nat.add_zero, hps T]
    exact hinv.sto T
  · intro T
    show 1 ≤ countE (σ.trace ++ l) (.storeV T) ↔ _
    rw [countE_append, hs T, Nat.add_zero]
    exact hinv.str T
  · intro T hD
    exact hinv.tr4 T hD
  · intro T
    show countE (σ.trace ++ l) (.callInit T) + _ ≤ 1
    rw [countE_append, hi T, Nat.add_zero, hpi T]
    exact hinv.ci T
  · intro u
    show Event.ranAct u false false ∉ σ.trace ++ l
    intro hmem
    rcases List.mem_append.mp hmem with h1 | h1
    · exact hinv.ranOk u h1
    · exact hr u h1

theorem countE_single_ne (x e : Event) (h : x ≠ e) : countE [x] e = 0 := by
  rw [countE_single, if_neg h]

theorem processOuts_spec :
    ∀ (zs : List ((GoType × Bool) × Value)) (σ : PState),
    ((zs.filter (fun p => !p.1.2)).map (fun p => p.1.1)).Nodup →
    (∀ p ∈ zs, p.1.2 = false →
      countE σ.trace (.storeV p.1.1) = 0 ∧ alookup σ.values p.1.1 = none) →
    (∀ T, 1 ≤ countE σ.trace (.storeV T) ↔ (alookup σ.values T).isSome = true) →
    (processOuts zs σ).1.tasks = σ.tasks ∧
    (processOuts zs σ).1.latches = σ.latches ∧
    (processOuts zs σ).1.rules = σ.rules ∧
    (processOuts zs σ).1.heap = σ.heap ∧
    (∃ l, (processOuts zs σ).1.trace = σ.trace ++ l ∧
      (∀ r, countE l (.callCtor r) = 0) ∧ (∀ T, countE l (.callInit T) = 0) ∧
      (∀ u b1 b2, Event.ranAct u b1 b2 ∉ l)) ∧
    (∀ T v, alookup σ.values T = some v → alookup (processOuts zs σ).1.values T = some v) ∧
    (∀ T, (∀ p ∈ zs, p.1.2 = true ∨ p.1.1 ≠ T) →
      countE (processOuts zs σ).1.trace (.storeV T) = countE σ.trace (.storeV T) ∧
      alookup (processOuts zs σ).1.values T = alookup σ.values T) ∧
    (∀ p ∈ zs, p.1.2 = false →
      countE (processOuts zs σ).1.trace (.storeV p.1.1) ≤ 1) ∧
    (∀ T, 1 ≤ countE (processOuts zs σ).1.trace (.storeV T) ↔
      (alookup (processOuts zs σ).1.values T).isSome = true) ∧
    ((processOuts zs σ).2 = none →
      ∀ p ∈ zs, p.1.2 = false → (alookup (processOuts zs σ).1.values p.1.1).isSome = true) ∧
    (∀ e, (processOuts zs σ).2 = some e → e ≠ .msg snhMsg) := by
  intro zs
  induction zs with
  | nil =>
    intro σ _ _ hstr
    refine ⟨rfl, rfl, rfl, rfl, ⟨[], by simp [processOuts], by simp [countE], by simp [countE], by simp⟩,
      fun _ _ hh => hh, fun _ _ => ⟨rfl, rfl⟩, by simp, hstr, by simp, ?_⟩
    intro e h
    simp [processOuts] at h
  | cons p rest ih =>
    intro σ hnd hfresh hstr
    rcases p with ⟨⟨t, isErr⟩, v⟩
    rcases hie : isErr
    case true =>
      subst hie
      rcases hnil : v.isNil
      case true =>
        have heq : processOuts (((t, true), v) :: rest) σ = processOuts rest σ := by
          rw [processOuts]
          simp [hnil]
        rw [heq]
        have hnd2 : ((rest.filter (fun p => !p.1.2)).map (fun p => p.1.1)).Nodup := by
          have hh : (((t, true), v) :: rest).filter (fun p => !p.1.2)
              = rest.filter (fun p => !p.1.2) := by
            rw [List.filter_cons]
            simp
          rw [hh] at hnd
          exact hnd
        obtain ⟨a1, a2, a3, a4, a5, a6, a7, a8, a9, a10, a11⟩ :=
          ih σ hnd2 (fun q hq hq2 => hfresh q (by simp [hq]) hq2) hstr
        refine ⟨a1, a2, a3, a4, a5, a6, ?_, ?_, a9, ?_, a11⟩
        · intro T hT
          exact a7 T (fun q hq => hT q (by simp [hq]))
        · intro q hq hq2
          rcases List.mem_cons.mp hq with h1 | h1
          · rw [h1] at hq2; simp at hq2
          · exact a8 q h1 hq2
        · intro hnone q hq hq2
          rcases List.mem_cons.mp hq with h1 | h1
          · rw [h1] at hq2; simp at hq2
          · exact a10 hnone q h1 hq2
      case false =>
        have heq : processOuts (((t, true), v) :: rest) σ = (σ, some (.val v)) := by
          rw [processOuts]
          simp [hnil]
        rw [heq]
        refine ⟨rfl, rfl, rfl, rfl, ⟨[], by simp, by simp [countE], by simp [countE], by simp⟩,
          fun _ _ hh => hh, fun _ _ => ⟨rfl, rfl⟩, ?_, hstr, by simp, ?_⟩
        · intro q hq hq2
          rcases List.mem_cons.mp hq with h1 | h1
          · rw [h1] at hq2; simp at hq2
          · have hc0 := (hfresh q (by simp [h1]) hq2).1
            rw [hc0]
            exact Nat.zero_le 1
        · intro e he
          have hve : Err.val v = e := by
            injection he
          rw [← hve]
          exact errval_ne_msg v _
    case false =>
      subst hie
      have heq : processOuts (((t, false), v) :: rest) σ
          = processOuts rest { σ with values := ainsert σ.values t v, trace := σ.trace ++ [.storeV t] } := by
        rw [processOuts]
        simp
      rw [heq]
      set σ2 : PState := { σ with values := ainsert σ.values t v, trace := σ.trace ++ [.storeV t] } with hσ2
      have hfc : (((t, false), v) :: rest).filter (fun p => !p.1.2)
          = ((t, false), v) :: rest.filter (fun p => !p.1.2) := by
        rw [List.filter_cons]
        simp
      have htnotin : ∀ q ∈ rest, q.1.2 = false → q.1.1 ≠ t := by
        intro q hq hq2 hcontra
        rw [hfc] at hnd
        simp only [List.map_cons] at hnd
        have hqm : q.1.1 ∈ (rest.filter (fun p => !p.1.2)).map (fun p => p.1.1) := by
          refine List.mem_map.mpr ⟨q, ?_, rfl⟩
          exact List.mem_filter.mpr ⟨hq, by simp [hq2]⟩
        rw [hcontra] at hqm
        exact (List.nodup_cons.mp hnd).1 hqm
      have hcnt0 : countE σ.trace (.storeV t) = 0 :=
        (hfresh ((t, false), v) (List.mem_cons_self _ _) rfl).1
      have habs : alookup σ.values t = none :=
        (hfresh ((t, false), v) (List.mem_cons_self _ _) rfl).2
      have hnd2 : ((rest.filter (fun p => !p.1.2)).map (fun p => p.1.1)).Nodup := by
        rw [hfc] at hnd
        simp only [List.map_cons] at hnd
        exact (List.nodup_cons.mp hnd).2
      have htr2 : σ2.trace = σ.trace ++ [.storeV t] := rfl
      have hva2 : σ2.values = ainsert σ.values t v := rfl
      have hfresh2 : ∀ q ∈ rest, q.1.2 = false →
          countE σ2.trace (.storeV q.1.1) = 0 ∧ alookup σ2.values q.1.1 = none := by
        intro q hq hq2
        have hqt := htnotin q hq hq2
        constructor
        · rw [htr2, countE_append,
            countE_single_ne _ _ (by intro hh; injection hh with hh2; exact hqt hh2.symm)]
          rw [(hfresh q (by simp [hq]) hq2).1]
        · rw [hva2, alookup_ainsert_ne _ _ _ _ hqt]
          exact (hfresh q (by simp [hq]) hq2).2
      have hstr2 : ∀ T, 1 ≤ countE σ2.trace (.storeV T) ↔ (alookup σ2.values T).isSome = true := by
        intro T
        rw [htr2, hva2]
        by_cases hTt : T = t
        · subst hTt
          rw [countE_append, countE_single _ _, if_pos rfl, alookup_ainsert_self]
          simp
        · rw [countE_append,
            countE_single_ne _ _ (by intro hh; injection hh with hh2; exact hTt hh2.symm),
            alookup_ainsert_ne _ _ _ _ hTt, Nat.add_zero]
          exact hstr T
      obtain ⟨a1, a2, a3, a4, ⟨l, hl, hlc, hli, hlr⟩, a6, a7, a8, a9, a10, a11⟩ :=
        ih σ2 hnd2 hfresh2 hstr2
      refine ⟨a1, a2, a3, a4, ⟨.storeV t :: l, ?_, ?_, ?_, ?_⟩, ?_, ?_, ?_, a9, ?_, a11⟩
      · rw [hl, htr2]
        simp
      · intro r
        rw [countE, List.filter_cons]
        simp only [decide_eq_true_eq]
        rw [if_neg (by simp)]
        exact hlc r
      · intro T
        rw [countE, List.filter_cons]
        simp only [decide_eq_true_eq]
        rw [if_neg (by simp)]
        exact hli T
      · intro u b1 b2 hmem
        rcases List.mem_cons.mp hmem with h1 | h1
        · cases h1
        · exact hlr u b1 b2 h1
      · intro T w hT
        refine a6 T w ?_
        rw [hva2, alookup_ainsert_ne _ _ _ _ (by intro hh; rw [hh, habs] at hT; cases hT)]
        exact hT
      · intro T hT
        have hTt : t ≠ T := by
          rcases hT ((t, false), v) (List.mem_cons_self _ _) with h1 | h1
          · simp at h1
          · exact h1
        obtain ⟨b1, b2⟩ := a7 T (fun q hq => hT q (by simp [hq]))
        constructor
        · rw [b1, htr2, countE_append,
            countE_single_ne _ _ (by intro hh; injection hh with hh2; exact hTt hh2), Nat.add_zero]
        · rw [b2, hva2, alookup_ainsert_ne _ _ _ _ (fun hh => hTt hh.symm)]
      · intro q hq hq2
        rcases List.mem_cons.mp hq with h1 | h1
        · have hq1 : q.1.1 = t := by rw [h1]
          rw [hq1]
          have htnotin2 : ∀ p ∈ rest, p.1.2 = true ∨ p.1.1 ≠ t := by
            intro q2 hq2
            rcases hq3 : q2.1.2
            · exact Or.inr (htnotin q2 hq2 hq3)
            · exact Or.inl rfl
          have hone := (a7 t htnotin2).1
          rw [hone, htr2, countE_append, hcnt0, countE_single, if_pos rfl]
        · exact a8 q h1 hq2
      · intro hnone q hq hq2
        rcases List.mem_cons.mp hq with h1 | h1
        · have hq1 : q.1.1 = t := by rw [h1]
          rw [hq1]
          have hsome : alookup σ2.values t = some v := by
            rw [hva2, alookup_ainsert_self]
          rw [a6 t v hsome]
          rfl
        · exact a10 hnone q h1 hq2

theorem processOuts_first_err (tE : GoType) (vE : Value)
    (post : List ((GoType × Bool) × Value)) :
    ∀ (pre : List ((GoType × Bool) × Value)) (σ : PState),
    (∀ p ∈ pre, p.1.2 = true → p.2.isNil = true) →
    vE.isNil = false →
    (processOuts (pre ++ ((tE, true), vE) :: post) σ).2 = some (.val vE) ∧
    (processOuts (pre ++ ((tE, true), vE) :: post) σ).1.trace
      = σ.trace ++ (pre.filter (fun p => !p.1.2)).map (fun p => Event.storeV p.1.1) := by
  intro pre
  induction pre with
  | nil =>
    intro σ _ hE
    simp [processOuts, hE]
  | cons p rest ih =>
    intro σ hpre hE
    match p with
    | ((t, isErr), v) =>
      by_cases hie : isErr = true
      · have hnil : v.isNil = true := hpre ((t, isErr), v) (by simp) hie
        subst hie
        simpa [processOuts, hnil] using
          ih σ (fun q hq => hpre q (by simp [hq])) hE
      · have hie2 : isErr = false := by simpa using hie
        subst hie2
        have := ih { σ with values := ainsert σ.values t v,
                            trace := σ.trace ++ [.storeV t] }
          (fun q hq => hpre q (by simp [hq])) hE
        simpa [processOuts, List.filter, List.append_assoc] using this

theorem runAction_customDo_unlatched (env : TEnv) (σ : PState) (r : Nat) (rule : Rule)
    (hr : σ.rules.get? r = some rule) (hl : r ∉ σ.latches) :
    runAction env (.customDo r) σ =
      processOuts ((rule.outs.map (fun t => (t, isErrorType env t))).zip
          (rule.fn (readInputs σ.values rule.ins)))
        { σ with latches := r :: σ.latches, trace := σ.trace ++ [.callCtor r] } := by
  simp only [runAction]
  rw [hr]
  simp [hl]

theorem collectFields_bad_errors (env : TEnv) (nm : String) :
    ∀ (l : List (GoType × Option String)) (i : Nat),
    (∃ f ∈ l, badProvideTag env f) →
    ∃ e, collectFields env nm l i = .error e := by
  intro l
  induction l with
  | nil => intro i h; simp at h
  | cons f rest ih =>
    intro i h
    rcases h with ⟨g, hg, hbad⟩
    match hf : f.2 with
    | none =>
      have hgr : g ∈ rest := by
        rcases List.mem_cons.mp hg with h1 | h1
        · exfalso; rw [h1] at hbad; unfold badProvideTag at hbad; rw [hf] at hbad; exact hbad
        · exact h1
      rcases ih (i + 1) ⟨g, hgr, hbad⟩ with ⟨e, he⟩
      exact ⟨e, by simp [collectFields, hf, he]⟩
    | some tag =>
      by_cases hcirc : tag = "circular"
      · subst hcirc
        by_cases href : isReferenceType env f.1 = true
        · have hgr : g ∈ rest := by
            rcases List.mem_cons.mp hg with h1 | h1
            · exfalso; rw [h1] at hbad; unfold badProvideTag at hbad; rw [hf] at hbad
              rcases hbad with ⟨_, h2⟩ | ⟨_, h3⟩
              · exact h2 rfl
              · rw [href] at h3; cases h3
            · exact h1
          rcases ih (i + 1) ⟨g, hgr, hbad⟩ with ⟨e, he⟩
          refine ⟨e, ?_⟩
          simp [collectFields, hf, href, he, Except.map]
        · have href2 : isReferenceType env f.1 = false := by simpa using href
          exact ⟨.msg ("only reference types (pointer, map, chan) can be circularly provided to "
              ++ nm ++ ", not " ++ typeName env f.1),
            by simp [collectFields, hf, href2]⟩
      · by_cases hemp : tag = ""
        · subst hemp
          have hgr : g ∈ rest := by
            rcases List.mem_cons.mp hg with h1 | h1
            · exfalso; rw [h1] at hbad; unfold badProvideTag at hbad; rw [hf] at hbad
              rcases hbad with ⟨h2, _⟩ | ⟨h3, _⟩
              · exact h2 rfl
              · exact absurd h3.symm (by decide)
            · exact h1
          rcases ih (i + 1) ⟨g, hgr, hbad⟩ with ⟨e, he⟩
          refine ⟨e, ?_⟩
          have hne : ("" == "circular") = false := by decide
          simp [collectFields, hf, hne, he, Except.map]
        · have h1 : (tag == "circular") = false := by
            simpa using hcirc
          have h2 : (tag != "") = true := by
            simpa using hemp
          exact ⟨.msg ("unrecognized provide tag " ++ tag ++ " in " ++ nm),
            by simp [collectFields, hf, h1, h2]⟩

/-! ### The per-action accounting of `runBranch2` -/

theorem InvCore_WTr (env : TEnv) (σ : PState) (hinv : InvCore env σ) : WTr σ := by
  refine ⟨?_, ?_, ?_, hinv.ranOk⟩
  · intro r
    rw [hinv.tr1 r]
    by_cases h : r ∈ σ.latches <;> simp [h]
  · intro T
    have := hinv.sto T
    omega
  · intro T
    have := hinv.ci T
    omega

theorem zip_outs_filter (env : TEnv) :
    ∀ (l1 : List GoType) (l2 : List Value), l1.length = l2.length →
    ((((l1.map (fun t => (t, isErrorType env t))).zip l2).filter
        (fun p => !p.1.2)).map (fun p => p.1.1))
      = l1.filter (fun t => !isErrorType env t) := by
  intro l1
  induction l1 with
  | nil => intro l2 _; simp
  | cons a l1 ih =>
    intro l2 h
    cases l2 with
    | nil => simp at h
    | cons v l2 =>
      have h2 : l1.length = l2.length := by simpa using h
      by_cases he : isErrorType env a = true
      · simp [he, ih l2 h2]
      · have he2 : isErrorType env a = false := by simpa using he
        simp [he2, ih l2 h2]

theorem zip_outs_mem (env : TEnv) (l1 : List GoType) (l2 : List Value)
    (h : l1.length = l2.length) (p : (GoType × Bool) × Value)
    (hp : p ∈ (l1.map (fun t => (t, isErrorType env t))).zip l2)
    (hne : p.1.2 = false) :
    p.1.1 ∈ l1.filter (fun t => !isErrorType env t) := by
  rw [← zip_outs_filter env l1 l2 h]
  exact List.mem_map.mpr ⟨p, List.mem_filter.mpr ⟨hp, by simp [hne]⟩, rfl⟩

theorem zip_outs_cover (env : TEnv) (l1 : List GoType) (l2 : List Value)
    (h : l1.length = l2.length) (T : GoType)
    (hT : T ∈ l1.filter (fun t => !isErrorType env t)) :
    ∃ p, p ∈ (l1.map (fun t => (t, isErrorType env t))).zip l2 ∧
      p.1.2 = false ∧ p.1.1 = T := by
  rw [← zip_outs_filter env l1 l2 h] at hT
  rcases List.mem_map.mp hT with ⟨p, hp1, hp2⟩
  have h3 := List.mem_filter.mp hp1
  exact ⟨p, h3.1, by simpa using h3.2, hp2⟩

/-- Marking an existing task Done (clearing its action and edges) preserves the
core invariant, provided a finished Partial task has its value stored and a
finished rule action has set its latch. -/
theorem markDone_InvCore (env : TEnv) (σ : PState) (t : task) (s : state)
    (hinv : InvCore env σ)
    (hlk : alookup σ.tasks t = some s)
    (hval : t.Complete = false → (alookup σ.values t.typ).isSome = true)
    (hlat : ∀ r2, s.Do = some (.customDo r2) → r2 ∈ σ.latches) :
    InvCore env { σ with tasks := ainsert σ.tasks t { s with Done := true, DependsOn := [], Do := none } } := by
  have hL : ∀ u, alookup { σ with tasks := ainsert σ.tasks t { s with Done := true, DependsOn := [], Do := none } }.tasks u
      = if u = t then some { s with Done := true, DependsOn := [], Do := none }
        else alookup σ.tasks u := by
    intro u
    show alookup (ainsert σ.tasks t _) u = _
    exact alookup_ainsert σ.tasks t u _
  have hTr : ({ σ with tasks := ainsert σ.tasks t { s with Done := true, DependsOn := [], Do := none } }).trace
      = σ.trace := rfl
  have hV : ({ σ with tasks := ainsert σ.tasks t { s with Done := true, DependsOn := [], Do := none } }).values
      = σ.values := rfl
  have hPS : ∀ T, pendingStore { σ with tasks := ainsert σ.tasks t { s with Done := true, DependsOn := [], Do := none } } T
      = if task.mk T false = t then 0 else pendingStore σ T := by
    intro T
    by_cases hTt : task.mk T false = t
    · rw [if_pos hTt]
      unfold pendingStore
      rw [hL, if_pos hTt]
      simp
    · rw [if_neg hTt]
      unfold pendingStore
      rw [hL, if_neg hTt]
  have hPI : ∀ T, pendingInit { σ with tasks := ainsert σ.tasks t { s with Done := true, DependsOn := [], Do := none } } T
      = if task.mk T true = t then 0 else pendingInit σ T := by
    intro T
    by_cases hTt : task.mk T true = t
    · rw [if_pos hTt]
      unfold pendingInit
      rw [hL, if_pos hTt]
      simp
    · rw [if_neg hTt]
      unfold pendingInit
      rw [hL, if_neg hTt]
  refine ⟨hinv.tr1, hinv.lrange, ?_, ?_, ?_, ?_, ?_, ?_, ?_, ?_, ?_, ?_, ?_, ?_,
    hinv.ranOk, hinv.rwf⟩
  · -- ownP
    intro T s2 hs2
    rw [hL] at hs2
    by_cases hTt : task.mk T false = t
    · rw [if_pos hTt] at hs2
      cases hs2
      exact Or.inl rfl
    · rw [if_neg hTt] at hs2
      exact hinv.ownP T s2 hs2
  · -- ownC
    intro T s2 hs2
    rw [hL] at hs2
    by_cases hTt : task.mk T true = t
    · rw [if_pos hTt] at hs2
      cases hs2
      exact Or.inl rfl
    · rw [if_neg hTt] at hs2
      exact hinv.ownC T s2 hs2
  · -- pdo
    intro T s2 hs2 hd2
    rw [hL] at hs2
    by_cases hTt : task.mk T false = t
    · rw [if_pos hTt] at hs2
      cases hs2
      simp at hd2
    · rw [if_neg hTt] at hs2
      exact hinv.pdo T s2 hs2 hd2
  · -- cdep
    intro T s2 hs2 hd2
    rw [hL] at hs2
    by_cases hTt : task.mk T true = t
    · rw [if_pos hTt] at hs2
      cases hs2
      simp at hd2
    · rw [if_neg hTt] at hs2
      exact hinv.cdep T s2 hs2 hd2
  · -- clr
    intro u s2 hs2 hd2
    rw [hL] at hs2
    by_cases hut : u = t
    · rw [if_pos hut] at hs2
      cases hs2
      exact ⟨rfl, rfl⟩
    · rw [if_neg hut] at hs2
      exact hinv.clr u s2 hs2 hd2
  · -- pair
    intro T
    rw [hL, hL]
    by_cases h1 : task.mk T false = t
    · rw [if_pos h1]
      have h2 : task.mk T true ≠ t := by
        intro hh
        rw [← h1] at hh
        cases hh
      rw [if_neg h2]
      have h3 := hinv.pair T
      rw [h1, hlk] at h3
      simp at h3 ⊢
      exact h3
    · rw [if_neg h1]
      by_cases h2 : task.mk T true = t
      · rw [if_pos h2]
        have h3 := hinv.pair T
        rw [h2, hlk] at h3
        simp at h3 ⊢
        exact h3
      · rw [if_neg h2]
        exact hinv.pair T
  · -- inst
    intro r2 rule2 hr2
    refine ⟨(hinv.inst r2 rule2 hr2).1, ?_⟩
    intro T hT
    obtain ⟨s2, hs2, hdisj⟩ := (hinv.inst r2 rule2 hr2).2 T hT
    by_cases hTt : task.mk T false = t
    · have hs2t : s2 = s := by
        rw [hTt, hlk] at hs2
        injection hs2 with hh
        exact hh.symm
      refine ⟨{ s with Done := true, DependsOn := [], Do := none },
        by rw [hL, if_pos hTt], Or.inr ⟨rfl, rfl, ?_⟩⟩
      rcases hdisj with hdo | ⟨_, _, hl2⟩
      · exact hlat r2 (by rw [← hs2t]; exact hdo)
      · exact hl2
    · exact ⟨s2, by rw [hL, if_neg hTt]; exact hs2, hdisj⟩
  · -- sto
    intro T
    rw [hTr, hPS]
    have h0 := hinv.sto T
    by_cases hTt : task.mk T false = t
    · rw [if_pos hTt]
      omega
    · rw [if_neg hTt]
      exact h0
  · -- str
    intro T
    rw [hTr, hV]
    exact hinv.str T
  · -- tr4
    intro T hd
    have hDn : isDoneB { σ with tasks := ainsert σ.tasks t { s with Done := true, DependsOn := [], Do := none } } (task.mk T false)
        = if task.mk T false = t then true else isDoneB σ (task.mk T false) := by
      by_cases hTt : task.mk T false = t
      · rw [if_pos hTt]
        unfold isDoneB
        rw [hL, if_pos hTt]
      · rw [if_neg hTt]
        unfold isDoneB
        rw [hL, if_neg hTt]
    rw [hDn] at hd
    rw [hV]
    by_cases hTt : task.mk T false = t
    · have hC : t.Complete = false := by rw [← hTt]
      have hTy : t.typ = T := by rw [← hTt]
      have := hval hC
      rw [hTy] at this
      exact this
    · rw [if_neg hTt] at hd
      exact hinv.tr4 T hd
  · -- tr5
    intro r2 rule2 hl2 hr2 T hT
    rw [hV]
    exact hinv.tr5 r2 rule2 hl2 hr2 T hT
  · -- ci
    intro T
    rw [hTr, hPI]
    have h0 := hinv.ci T
    by_cases hTt : task.mk T true = t
    · rw [if_pos hTt]
      omega
    · rw [if_neg hTt]
      exact h0

theorem countE_zero (l : List Event) (ev : Event) (h : ∀ e ∈ l, e ≠ ev) :
    countE l ev = 0 := by
  unfold countE
  rw [List.length_eq_zero]
  rw [List.filter_eq_nil]
  intro e he
  simp [h e he]

theorem runAction_customDo_latched (env : TEnv) (σ : PState) (r : Nat) (rule : Rule)
    (hr : σ.rules.get? r = some rule) (hl : r ∈ σ.latches) :
    runAction env (.customDo r) σ = (σ, none) := by
  simp only [runAction]
  rw [hr]
  simp [hl]

/-- Committing a Partial store action: the action stored the task's value and
the task is marked Done; the core invariant carries over. -/
theorem storeCommit_InvCore (env : TEnv) (σ : PState) (t : task) (s : state) (v : Value)
    (σ1 : PState)
    (hinv : InvCore env σ)
    (hlk : alookup σ.tasks t = some s)
    (hD : s.Done = false)
    (htC : t.Complete = false)
    (hdo : s.Do = some (.autoPtrPartialDo t.typ) ∨ s.Do = some (.autoDerefPartialDo t.typ))
    (h1t : σ1.tasks = ainsert σ.tasks t { s with Done := true, DependsOn := [], Do := none })
    (h1v : σ1.values = ainsert σ.values t.typ v)
    (h1tr : σ1.trace = σ.trace ++ [.storeV t.typ])
    (h1l : σ1.latches = σ.latches)
    (h1r : σ1.rules = σ.rules) :
    InvCore env σ1 := by
  have hkeyF : task.mk t.typ false = t := by rw [← htC]
  have hps1 : pendingStore σ t.typ = 1 := by
    unfold pendingStore
    rw [hkeyF, hlk]
    rcases hdo with h | h <;> simp [hD, h]
  have hc0 : countE σ.trace (.storeV t.typ) = 0 := by
    have := hinv.sto t.typ
    omega
  have hn0 : alookup σ.values t.typ = none := by
    have h2 := hinv.str t.typ
    rcases hl2 : alookup σ.values t.typ with _ | v2
    · rfl
    · exfalso
      rw [hl2] at h2
      simp at h2
      omega
  have hL : ∀ u, alookup σ1.tasks u
      = if u = t then some { s with Done := true, DependsOn := [], Do := none }
        else alookup σ.tasks u := by
    intro u
    rw [h1t]
    exact alookup_ainsert σ.tasks t u _
  have hV : ∀ T, alookup σ1.values T = if T = t.typ then some v else alookup σ.values T := by
    intro T
    rw [h1v]
    exact alookup_ainsert σ.values t.typ T v
  have hcount1 : countE σ1.trace (Event.storeV t.typ) = 1 := by
    rw [h1tr, countE_append, countE_single, if_pos rfl, hc0]
  have hcnt_ne : ∀ T, T ≠ t.typ →
      countE σ1.trace (Event.storeV T) = countE σ.trace (Event.storeV T) := by
    intro T hTt
    rw [h1tr, countE_append, countE_single_ne _ _
      (by intro hh; injection hh with hh; exact hTt hh.symm)]
    omega
  have hneF : ∀ T, T ≠ t.typ → task.mk T false ≠ t := by
    intro T hTt hh
    rw [← hkeyF] at hh
    injection hh with h1 h2
    exact hTt h1
  have hneT : ∀ T, task.mk T true ≠ t := by
    intro T hh
    rw [← hkeyF] at hh
    injection hh with h1 h2
    cases h2
  refine ⟨?_, ?_, ?_, ?_, ?_, ?_, ?_, ?_, ?_, ?_, ?_, ?_, ?_, ?_, ?_, ?_⟩
  · -- tr1
    intro r2
    rw [h1tr, countE_append, countE_single_ne _ _ (by intro hh; cases hh), h1l]
    rw [Nat.add_zero]
    exact hinv.tr1 r2
  · -- lrange
    intro r2 h2
    rw [h1l] at h2
    rw [h1r]
    exact hinv.lrange r2 h2
  · -- ownP
    intro T s2 hs2
    rw [hL] at hs2
    rw [h1r]
    by_cases hTt : task.mk T false = t
    · rw [if_pos hTt] at hs2
      cases hs2
      exact Or.inl rfl
    · rw [if_neg hTt] at hs2
      exact hinv.ownP T s2 hs2
  · -- ownC
    intro T s2 hs2
    rw [hL, if_neg (hneT T)] at hs2
    exact hinv.ownC T s2 hs2
  · -- pdo
    intro T s2 hs2 hd2
    rw [hL] at hs2
    by_cases hTt : task.mk T false = t
    · rw [if_pos hTt] at hs2
      cases hs2
      simp at hd2
    · rw [if_neg hTt] at hs2
      exact hinv.pdo T s2 hs2 hd2
  · -- cdep
    intro T s2 hs2 hd2
    rw [hL, if_neg (hneT T)] at hs2
    exact hinv.cdep T s2 hs2 hd2
  · -- clr
    intro u s2 hs2 hd2
    rw [hL] at hs2
    by_cases hut : u = t
    · rw [if_pos hut] at hs2
      cases hs2
      exact ⟨rfl, rfl⟩
    · rw [if_neg hut] at hs2
      exact hinv.clr u s2 hs2 hd2
  · -- pair
    intro T
    rw [hL, hL]
    by_cases h1 : task.mk T false = t
    · rw [if_pos h1, if_neg (hneT T)]
      have h3 := hinv.pair T
      rw [h1, hlk] at h3
      simp at h3 ⊢
      exact h3
    · rw [if_neg h1, if_neg (hneT T)]
      exact hinv.pair T
  · -- inst
    intro r2 rule2 hr2
    rw [h1r] at hr2
    refine ⟨(hinv.inst r2 rule2 hr2).1, ?_⟩
    intro T hT
    obtain ⟨s2, hs2, hdisj⟩ := (hinv.inst r2 rule2 hr2).2 T hT
    by_cases hTt : task.mk T false = t
    · exfalso
      have hs2s : s2 = s := by
        rw [hTt, hlk] at hs2
        injection hs2 with hh
        exact hh.symm
      rcases hdisj with hdo2 | ⟨_, hdn2, _⟩
      · rw [hs2s] at hdo2
        rcases hdo with h | h <;>
          (rw [h] at hdo2; injection hdo2 with hdo2; cases hdo2)
      · rw [hs2s, hD] at hdn2
        cases hdn2
    · refine ⟨s2, by rw [hL, if_neg hTt]; exact hs2, ?_⟩
      rcases hdisj with h1 | ⟨h1, h2, h3⟩
      · exact Or.inl h1
      · exact Or.inr ⟨h1, h2, by rw [h1l]; exact h3⟩
  · -- sto
    intro T
    by_cases hTt : T = t.typ
    · have hps0 : pendingStore σ1 t.typ = 0 := by
        unfold pendingStore
        rw [hkeyF, hL, if_pos rfl]
        simp
      rw [hTt, hcount1, hps0]
    · have hps : pendingStore σ1 T = pendingStore σ T := by
        unfold pendingStore
        rw [hL, if_neg (hneF T hTt), h1l]
      rw [hcnt_ne T hTt, hps]
      exact hinv.sto T
  · -- str
    intro T
    by_cases hTt : T = t.typ
    · subst hTt
      rw [hV, if_pos rfl, hcount1]
      constructor
      · intro _
        rfl
      · intro _
        exact Nat.le_refl 1
    · rw [hV, if_neg hTt, hcnt_ne T hTt]
      exact hinv.str T
  · -- tr4
    intro T hd
    by_cases hTt : T = t.typ
    · rw [hV, if_pos hTt]
      rfl
    · have hd2 : isDoneB σ (task.mk T false) = true := by
        unfold isDoneB at hd
        rw [hL, if_neg (hneF T hTt)] at hd
        exact hd
      rw [hV, if_neg hTt]
      exact hinv.tr4 T hd2
  · -- tr5
    intro r2 rule2 hl2 hr2 T hT
    rw [h1l] at hl2
    rw [h1r] at hr2
    rw [hV]
    by_cases hTt : T = t.typ
    · rw [if_pos hTt]
      rfl
    · rw [if_neg hTt]
      exact hinv.tr5 r2 rule2 hl2 hr2 T hT
  · -- ci
    intro T
    have hci : countE σ1.trace (Event.callInit T) = countE σ.trace (Event.callInit T) := by
      rw [h1tr, countE_append, countE_single_ne _ _ (by intro hh; cases hh)]
      omega
    have hpi : pendingInit σ1 T = pendingInit σ T := by
      unfold pendingInit
      rw [hL, if_neg (hneT T)]
    rw [hci, hpi]
    exact hinv.ci T
  · -- ranOk
    intro u hmem
    rw [h1tr] at hmem
    rcases List.mem_append.mp hmem with h1 | h1
    · exact hinv.ranOk u h1
    · simp at h1
  · -- rwf
    intro r2 rule2 hr2
    rw [h1r] at hr2
    exact hinv.rwf r2 rule2 hr2

/-- Committing a Complete action of the auto pointer provider: fields were set
and the initializer possibly called, the task is marked Done; the core
invariant carries over. -/
theorem completeCommit_InvCore (env : TEnv) (σ : PState) (t : task) (s : state)
    (σ1 : PState) (ltail : List Event)
    (pfl : List pfield) (insl : List GoType) (b : Bool)
    (hinv : InvCore env σ)
    (hlk : alookup σ.tasks t = some s)
    (hD : s.Done = false)
    (htC : t.Complete = true)
    (hdo : s.Do = some (.autoPtrCompleteDo t.typ pfl insl b))
    (h1t : σ1.tasks = ainsert σ.tasks t { s with Done := true, DependsOn := [], Do := none })
    (h1v : σ1.values = σ.values)
    (h1tr : σ1.trace = σ.trace ++ ltail)
    (hltc : ∀ r2, countE ltail (.callCtor r2) = 0)
    (hlts : ∀ T, countE ltail (.storeV T) = 0)
    (hltr : ∀ u b1 b2, Event.ranAct u b1 b2 ∉ ltail)
    (hlti : countE ltail (.callInit t.typ) ≤ 1)
    (hltio : ∀ T, T ≠ t.typ → countE ltail (.callInit T) = 0)
    (hltib : 1 ≤ countE ltail (.callInit t.typ) → b = true)
    (h1l : σ1.latches = σ.latches)
    (h1r : σ1.rules = σ.rules) :
    InvCore env σ1 := by
  have hkeyT : task.mk t.typ true = t := by rw [← htC]
  have hL : ∀ u, alookup σ1.tasks u
      = if u = t then some { s with Done := true, DependsOn := [], Do := none }
        else alookup σ.tasks u := by
    intro u
    rw [h1t]
    exact alookup_ainsert σ.tasks t u _
  have hneF : ∀ T, task.mk T false ≠ t := by
    intro T hh
    rw [← hkeyT] at hh
    injection hh with h1 h2
    cases h2
  have hneT : ∀ T, T ≠ t.typ → task.mk T true ≠ t := by
    intro T hTt hh
    rw [← hkeyT] at hh
    injection hh with h1 h2
    exact hTt h1
  have hDn : ∀ T, isDoneB σ1 (task.mk T false) = isDoneB σ (task.mk T false) := by
    intro T
    unfold isDoneB
    rw [hL, if_neg (hneF T)]
  refine ⟨?_, ?_, ?_, ?_, ?_, ?_, ?_, ?_, ?_, ?_, ?_, ?_, ?_, ?_, ?_, ?_⟩
  · -- tr1
    intro r2
    rw [h1tr, countE_append, hltc r2, h1l, Nat.add_zero]
    exact hinv.tr1 r2
  · -- lrange
    intro r2 h2
    rw [h1l] at h2
    rw [h1r]
    exact hinv.lrange r2 h2
  · -- ownP
    intro T s2 hs2
    rw [hL, if_neg (hneF T)] at hs2
    rw [h1r]
    exact hinv.ownP T s2 hs2
  · -- ownC
    intro T s2 hs2
    rw [hL] at hs2
    by_cases hTt : task.mk T true = t
    · rw [if_pos hTt] at hs2
      cases hs2
      exact Or.inl rfl
    · rw [if_neg hTt] at hs2
      exact hinv.ownC T s2 hs2
  · -- pdo
    intro T s2 hs2 hd2
    rw [hL, if_neg (hneF T)] at hs2
    exact hinv.pdo T s2 hs2 hd2
  · -- cdep
    intro T s2 hs2 hd2
    rw [hL] at hs2
    by_cases hTt : task.mk T true = t
    · rw [if_pos hTt] at hs2
      cases hs2
      simp at hd2
    · rw [if_neg hTt] at hs2
      exact hinv.cdep T s2 hs2 hd2
  · -- clr
    intro u s2 hs2 hd2
    rw [hL] at hs2
    by_cases hut : u = t
    · rw [if_pos hut] at hs2
      cases hs2
      exact ⟨rfl, rfl⟩
    · rw [if_neg hut] at hs2
      exact hinv.clr u s2 hs2 hd2
  · -- pair
    intro T
    rw [hL, hL]
    by_cases h1 : task.mk T true = t
    · rw [if_pos h1, if_neg (hneF T)]
      have h3 := hinv.pair T
      rw [h1, hlk] at h3
      simp at h3 ⊢
      exact h3
    · rw [if_neg h1, if_neg (hneF T)]
      exact hinv.pair T
  · -- inst
    intro r2 rule2 hr2
    rw [h1r] at hr2
    refine ⟨(hinv.inst r2 rule2 hr2).1, ?_⟩
    intro T hT
    obtain ⟨s2, hs2, hdisj⟩ := (hinv.inst r2 rule2 hr2).2 T hT
    refine ⟨s2, by rw [hL, if_neg (hneF T)]; exact hs2, ?_⟩
    rcases hdisj with h1 | ⟨h1, h2, h3⟩
    · exact Or.inl h1
    · exact Or.inr ⟨h1, h2, by rw [h1l]; exact h3⟩
  · -- sto
    intro T
    have hcs : countE σ1.trace (Event.storeV T) = countE σ.trace (Event.storeV T) := by
      rw [h1tr, countE_append, hlts T]
      omega
    have hps : pendingStore σ1 T = pendingStore σ T := by
      unfold pendingStore
      rw [hL, if_neg (hneF T), h1l]
    rw [hcs, hps]
    exact hinv.sto T
  · -- str
    intro T
    have hcs : countE σ1.trace (Event.storeV T) = countE σ.trace (Event.storeV T) := by
      rw [h1tr, countE_append, hlts T]
      omega
    rw [hcs, h1v]
    exact hinv.str T
  · -- tr4
    intro T hd
    rw [hDn T] at hd
    rw [h1v]
    exact hinv.tr4 T hd
  · -- tr5
    intro r2 rule2 hl2 hr2 T hT
    rw [h1l] at hl2
    rw [h1r] at hr2
    rw [h1v]
    exact hinv.tr5 r2 rule2 hl2 hr2 T hT
  · -- ci
    intro T
    by_cases hTt : T = t.typ
    · subst hTt
      have hps0 : pendingInit σ1 t.typ = 0 := by
        unfold pendingInit
        rw [hkeyT, hL, if_pos rfl]
        simp
      have hcc : countE σ1.trace (Event.callInit t.typ)
          = countE σ.trace (Event.callInit t.typ) + countE ltail (Event.callInit t.typ) := by
        rw [h1tr, countE_append]
      have hps : pendingInit σ t.typ = if b then 1 else 0 := by
        unfold pendingInit
        rw [hkeyT, hlk]
        simp [hD, hdo]
      have h0 := hinv.ci t.typ
      rw [hps] at h0
      rw [hcc, hps0]
      rcases hb : b
      · rw [hb] at h0
        simp at h0
        have hz : countE ltail (Event.callInit t.typ) = 0 := by
          by_contra hc
          have h1 : 1 ≤ countE ltail (Event.callInit t.typ) := Nat.one_le_iff_ne_zero.mpr hc
          rw [hltib h1] at hb
          cases hb
        omega
      · rw [hb] at h0
        simp at h0
        omega
    · have hpi : pendingInit σ1 T = pendingInit σ T := by
        unfold pendingInit
        rw [hL, if_neg (hneT T hTt)]
      have hcc : countE σ1.trace (Event.callInit T) = countE σ.trace (Event.callInit T) := by
        rw [h1tr, countE_append, hltio T hTt]
        omega
      rw [hcc, hpi]
      exact hinv.ci T
  · -- ranOk
    intro u hmem
    rw [h1tr] at hmem
    rcases List.mem_append.mp hmem with h1 | h1
    · exact hinv.ranOk u h1
    · exact hltr u false false h1
  · -- rwf
    intro r2 rule2 hr2
    rw [h1r] at hr2
    exact hinv.rwf r2 rule2 hr2

theorem runBranch2_none (env : TEnv) (σ : PState) (t : task) (s : state)
    (nd0 : List task) (h : s.Do = none) :
    runBranch2 env σ t s nd0 =
      ({ σ with tasks := ainsert σ.tasks t { s with Done := true, DependsOn := [], Do := none } }, nd0, none) := by
  rw [runBranch2, h]

theorem runBranch2_some (env : TEnv) (σ : PState) (t : task) (s : state)
    (nd0 : List task) (a : ActionD) (h : s.Do = some a) :
    runBranch2 env σ t s nd0 =
      (match runAction env a { σ with trace := σ.trace ++
          [.ranAct t (s.DependsOn.contains t) (s.DependsOn.all (fun d => isDoneB σ d))] } with
       | (σa, some e) => (σa, nd0, some e)
       | (σa, none) =>
         ({ σa with tasks := ainsert σa.tasks t { s with Done := true, DependsOn := [], Do := none } }, nd0 ++ [t], none)) := by
  rw [runBranch2, h]

/-- Before a rule's latch is set, none of its declared non-error outputs has
been stored: the shared action still owns each output's pending store. -/
theorem rule_output_pending (env : TEnv) (σ : PState) (r : Nat) (rule : Rule)
    (hinv : InvCore env σ) (hgr : σ.rules.get? r = some rule) (hlch : r ∉ σ.latches) :
    ∀ T ∈ nonErrOuts env rule,
      (∃ sT, alookup σ.tasks (task.mk T false) = some sT ∧
        sT.Do = some (.customDo r) ∧ sT.Done = false) ∧
      countE σ.trace (.storeV T) = 0 ∧ alookup σ.values T = none := by
  intro T hT
  obtain ⟨sT, hsT, hdisj⟩ := (hinv.inst r rule hgr).2 T hT
  have hdoT : sT.Do = some (.customDo r) := by
    rcases hdisj with h1 | ⟨_, _, h3⟩
    · exact h1
    · exact absurd h3 hlch
  have hdnT : sT.Done = false := by
    rcases hdn : sT.Done
    · rfl
    · exfalso
      have h2 := (hinv.clr _ sT hsT hdn).1
      rw [hdoT] at h2
      cases h2
  have hps : pendingStore σ T = 1 := by
    unfold pendingStore
    rw [hsT]
    simp [hdnT, hdoT, hlch]
  have h1 := hinv.sto T
  rw [hps] at h1
  have hc0 : countE σ.trace (.storeV T) = 0 := by omega
  refine ⟨⟨sT, hsT, hdoT, hdnT⟩, hc0, ?_⟩
  have h2 := hinv.str T
  rcases hl2 : alookup σ.values T with _ | v
  · rfl
  · exfalso
    rw [hl2] at h2
    simp at h2
    omega

theorem runBranch2_some_err (env : TEnv) (σ : PState) (t : task) (s : state)
    (nd0 : List task) (a : ActionD) (σa : PState) (e : Err) (h : s.Do = some a)
    (hra : runAction env a { σ with trace := σ.trace ++
        [.ranAct t (s.DependsOn.contains t) (s.DependsOn.all (fun d => isDoneB σ d))] }
      = (σa, some e)) :
    runBranch2 env σ t s nd0 = (σa, nd0, some e) := by
  have h0 := runBranch2_some env σ t s nd0 a h
  rw [hra] at h0
  exact h0

theorem runBranch2_some_ok (env : TEnv) (σ : PState) (t : task) (s : state)
    (nd0 : List task) (a : ActionD) (σa : PState) (h : s.Do = some a)
    (hra : runAction env a { σ with trace := σ.trace ++
        [.ranAct t (s.DependsOn.contains t) (s.DependsOn.all (fun d => isDoneB σ d))] }
      = (σa, none)) :
    runBranch2 env σ t s nd0 =
      ({ σa with tasks := ainsert σa.tasks t { s with Done := true, DependsOn := [], Do := none } }, nd0 ++ [t], none) := by
  have h0 := runBranch2_some env σ t s nd0 a h
  rw [hra] at h0
  exact h0

/-- Marking a task InProgress preserves the core invariant and every
Done/dependency observation. -/
theorem markInProg_spec (env : TEnv) (σ : PState) (t : task) (s : state)
    (hinv : InvCore env σ)
    (hlk : alookup σ.tasks t = some s) :
    InvCore env { σ with tasks := ainsert σ.tasks t { s with InProgress := true } } ∧
    (∀ u, isDoneB { σ with tasks := ainsert σ.tasks t { s with InProgress := true } } u = isDoneB σ u) ∧
    (∀ u, u ≠ t → inProg { σ with tasks := ainsert σ.tasks t { s with InProgress := true } } u = inProg σ u) ∧
    (inProg { σ with tasks := ainsert σ.tasks t { s with InProgress := true } } t = !s.Done) ∧
    (∀ u, depsOf { σ with tasks := ainsert σ.tasks t { s with InProgress := true } } u = depsOf σ u) ∧
    (alookup { σ with tasks := ainsert σ.tasks t { s with InProgress := true } }.tasks t
      = some { s with InProgress := true }) := by
  have hL : ∀ u, alookup { σ with tasks := ainsert σ.tasks t { s with InProgress := true } }.tasks u
      = if u = t then some { s with InProgress := true } else alookup σ.tasks u := by
    intro u
    show alookup (ainsert σ.tasks t _) u = _
    exact alookup_ainsert σ.tasks t u _
  have hDn : ∀ u, isDoneB { σ with tasks := ainsert σ.tasks t { s with InProgress := true } } u
      = isDoneB σ u := by
    intro u
    unfold isDoneB
    rw [hL]
    by_cases hut : u = t
    · rw [if_pos hut, hut, hlk]
    · rw [if_neg hut]
  have hPS : ∀ T, pendingStore { σ with tasks := ainsert σ.tasks t { s with InProgress := true } } T
      = pendingStore σ T := by
    intro T
    unfold pendingStore
    rw [hL]
    by_cases hTt : task.mk T false = t
    · rw [if_pos hTt, hTt, hlk]
    · rw [if_neg hTt]
  have hPI : ∀ T, pendingInit { σ with tasks := ainsert σ.tasks t { s with InProgress := true } } T
      = pendingInit σ T := by
    intro T
    unfold pendingInit
    rw [hL]
    by_cases hTt : task.mk T true = t
    · rw [if_pos hTt, hTt, hlk]
    · rw [if_neg hTt]
  refine ⟨⟨hinv.tr1, hinv.lrange, ?_, ?_, ?_, ?_, ?_, ?_, ?_, ?_, hinv.str, ?_, hinv.tr5, ?_,
      hinv.ranOk, hinv.rwf⟩, hDn, ?_, ?_, ?_, by rw [hL, if_pos rfl]⟩
  · -- ownP
    intro T s2 hs2
    rw [hL] at hs2
    by_cases hTt : task.mk T false = t
    · rw [if_pos hTt] at hs2
      cases hs2
      exact hinv.ownP T s (by rw [hTt]; exact hlk)
    · rw [if_neg hTt] at hs2
      exact hinv.ownP T s2 hs2
  · -- ownC
    intro T s2 hs2
    rw [hL] at hs2
    by_cases hTt : task.mk T true = t
    · rw [if_pos hTt] at hs2
      cases hs2
      exact hinv.ownC T s (by rw [hTt]; exact hlk)
    · rw [if_neg hTt] at hs2
      exact hinv.ownC T s2 hs2
  · -- pdo
    intro T s2 hs2 hd2
    rw [hL] at hs2
    by_cases hTt : task.mk T false = t
    · rw [if_pos hTt] at hs2
      cases hs2
      exact hinv.pdo T s (by rw [hTt]; exact hlk) hd2
    · rw [if_neg hTt] at hs2
      exact hinv.pdo T s2 hs2 hd2
  · -- cdep
    intro T s2 hs2 hd2
    rw [hL] at hs2
    by_cases hTt : task.mk T true = t
    · rw [if_pos hTt] at hs2
      cases hs2
      exact hinv.cdep T s (by rw [hTt]; exact hlk) hd2
    · rw [if_neg hTt] at hs2
      exact hinv.cdep T s2 hs2 hd2
  · -- clr
    intro u s2 hs2 hd2
    rw [hL] at hs2
    by_cases hut : u = t
    · rw [if_pos hut] at hs2
      cases hs2
      exact hinv.clr u s (by rw [hut]; exact hlk) hd2
    · rw [if_neg hut] at hs2
      exact hinv.clr u s2 hs2 hd2
  · -- pair
    intro T
    rw [hL, hL]
    by_cases h1 : task.mk T false = t
    · rw [if_pos h1]
      have h2 : task.mk T true ≠ t := by
        intro hh
        rw [← h1] at hh
        cases hh
      rw [if_neg h2]
      have h3 := hinv.pair T
      rw [h1, hlk] at h3
      simp at h3 ⊢
      exact h3
    · rw [if_neg h1]
      by_cases h2 : task.mk T true = t
      · rw [if_pos h2]
        have h3 := hinv.pair T
        rw [h2, hlk] at h3
        simp at h3 ⊢
        exact h3
      · rw [if_neg h2]
        exact hinv.pair T
  · -- inst
    intro r2 rule2 hr2
    refine ⟨(hinv.inst r2 rule2 hr2).1, ?_⟩
    intro T hT
    obtain ⟨s2, hs2, hdisj⟩ := (hinv.inst r2 rule2 hr2).2 T hT
    by_cases hTt : task.mk T false = t
    · have hs2t : s2 = s := by
        rw [hTt, hlk] at hs2
        injection hs2 with hh
        exact hh.symm
      subst hs2t
      exact ⟨{ s2 with InProgress := true }, by rw [hL, if_pos hTt], hdisj⟩
    · exact ⟨s2, by rw [hL, if_neg hTt]; exact hs2, hdisj⟩
  · -- sto
    intro T
    rw [hPS]
    exact hinv.sto T
  · -- tr4
    intro T hd
    rw [hDn] at hd
    exact hinv.tr4 T hd
  · -- ci
    intro T
    rw [hPI]
    exact hinv.ci T
  · -- inProg frame off t
    intro u hu
    unfold inProg
    rw [hL, if_neg hu]
  · -- inProg at t
    unfold inProg
    rw [hL, if_pos rfl]
    simp
  · -- depsOf frame
    intro u
    unfold depsOf
    rw [hL]
    by_cases hut : u = t
    · rw [if_pos hut, hut, hlk]
    · rw [if_neg hut]

/-- A block of stack entries that are each either not InProgress or
self-dependent contributes only vacuous ordering clauses. -/
theorem SIa_vacuous_front (σ : PState) :
    ∀ (P : List task) (above rest2 : List task),
    (∀ d ∈ P, inProg σ d = false ∨ d ∈ depsOf σ d) →
    SIa σ (P ++ above) rest2 →
    SIa σ above (P ++ rest2) := by
  intro P
  induction P with
  | nil =>
    intro above rest2 _ h
    exact h
  | cons d P2 ih =>
    intro above rest2 hP h
    refine ⟨?_, ?_⟩
    · intro hg d2 hd2
      exfalso
      obtain ⟨h1, h2⟩ := hg
      rcases hP d (by simp) with h3 | h3
      · rw [h1] at h3
        cases h3
      · exact h2 h3
    · refine ih (d :: above) rest2 (fun d2 hd2 => hP d2 (by simp [hd2])) ?_
      refine SIa_above_subsume _ _ ?_ rest2 h
      intro d2 hd2
      right
      rcases List.mem_append.mp hd2 with h3 | h3
      · rcases List.mem_cons.mp h3 with h4 | h4
        · simp [h4]
        · simp [h4]
      · simp [h3]

/-- Transporting the stack ordering invariant across a state change that
leaves Done, InProgress and dependency observations unchanged except possibly
at one task `t`, whose dependencies are separately covered. -/
theorem SIa_transport_special (σ σ4 : PState) (t : task) (A0 : List task)
    (hDone : ∀ u, isDoneB σ4 u = isDoneB σ u)
    (hIp : ∀ u, u ≠ t → inProg σ4 u = inProg σ u)
    (hdeps : ∀ u, u ≠ t → inProg σ4 u = true → depsOf σ4 u = depsOf σ u)
    (htc : ∀ d ∈ depsOf σ4 t, isDoneB σ4 d = true ∨ d ∈ A0) :
    ∀ (l above : List task), (∀ d ∈ A0, d ∈ above) → SIa σ above l → SIa σ4 above l := by
  intro l
  induction l with
  | nil =>
    intro above _ _
    trivial
  | cons u below ih =>
    intro above hA h
    refine ⟨?_, ih (u :: above) (fun d hd => List.mem_cons_of_mem u (hA d hd)) h.2⟩
    intro hg d hd
    obtain ⟨hip4, hsd4⟩ := hg
    by_cases hut : u = t
    · subst hut
      rcases htc d hd with h1 | h1
      · exact Or.inl h1
      · exact Or.inr (hA d h1)
    · have hip : inProg σ u = true := by rw [← hIp u hut]; exact hip4
      have hd0 : d ∈ depsOf σ u := by rw [← hdeps u hut hip4]; exact hd
      have hsd : u ∉ depsOf σ u := by rw [← hdeps u hut hip4]; exact hsd4
      rcases h.1 ⟨hip, hsd⟩ d hd0 with h1 | h1
      · exact Or.inl (by rw [hDone d]; exact h1)
      · exact Or.inr h1

/-- After a task at the top of the stack has been run and marked Done, the
walk invariants hold for the popped stack. -/
theorem afterRun_invs (env : TEnv) (σB σ5 : PState) (t : task) (rest : List task)
    (hinv5 : InvCore env σ5)
    (d2 : isDoneB σ5 t = true)
    (d3 : ∀ u, u ≠ t → alookup σ5.tasks u = alookup σB.tasks u)
    (d4 : ∀ u, isDoneB σB u = true → isDoneB σ5 u = true)
    (d5 : ∀ u, u ≠ t → inProg σ5 u = inProg σB u)
    (d6 : inProg σ5 t = false)
    (d7 : ∀ T v, alookup σB.values T = some v → alookup σ5.values T = some v)
    (d11 : t.Complete = true → isDoneB σB (task.mk t.typ false) = true →
      (alookup σ5.values t.typ).isSome = true)
    (hipB : inProg σB t = true)
    (hIPSB : IPS σB (t :: rest))
    (hCDSB : CDS σB (t :: rest))
    (hCDVB : CDV σB (t :: rest))
    (hSIaB : SIa σB [] (t :: rest)) :
    IPS σ5 rest ∧ CDS σ5 rest ∧ CDV σ5 rest ∧ SIa σ5 [] rest := by
  have hDone5 : ∀ u, u ≠ t → isDoneB σ5 u = isDoneB σB u := by
    intro u hu
    unfold isDoneB
    rw [d3 u hu]
  have hdeps5 : ∀ u, u ≠ t → depsOf σ5 u = depsOf σB u := by
    intro u hu
    unfold depsOf
    rw [d3 u hu]
  refine ⟨?_, ?_, ?_, ?_⟩
  · -- IPS
    intro u hu
    by_cases hut : u = t
    · rw [hut, d6] at hu
      cases hu
    · rcases List.mem_cons.mp (hIPSB u (by rw [← d5 u hut]; exact hu)) with h1 | h1
      · exact absurd h1 hut
      · exact h1
  · -- CDS
    intro T hT
    by_cases hut : task.mk T true = t
    · rw [hut, d6] at hT
      cases hT
    · rcases hCDSB T (by rw [← d5 _ hut]; exact hT) with h1 | h1
      · exact Or.inl (d4 _ h1)
      · rcases List.mem_cons.mp h1 with h2 | h2
        · exact Or.inl (by rw [h2]; exact d2)
        · exact Or.inr h2
  · -- CDV
    intro T hT
    by_cases hut : task.mk T true = t
    · have hC : t.Complete = true := by rw [← hut]
      have hTy : t.typ = T := by rw [← hut]
      rcases hCDSB T (by rw [hut]; exact hipB) with h1 | h1
      · refine Or.inl ?_
        have := d11 hC (by rw [hTy]; exact h1)
        rw [hTy] at this
        exact this
      · rcases List.mem_cons.mp h1 with h2 | h2
        · exfalso
          rw [← hut] at h2
          injection h2 with h2a h2b
          cases h2b
        · exact Or.inr h2
    · rcases hCDVB T (by rw [← hDone5 _ hut]; exact hT) with h1 | h1
      · rcases Option.isSome_iff_exists.mp h1 with ⟨v, hv⟩
        refine Or.inl ?_
        rw [d7 T v hv]
        rfl
      · rcases List.mem_cons.mp h1 with h2 | h2
        · exact Or.inl (hinv5.tr4 T (by rw [h2]; exact d2))
        · exact Or.inr h2
  · -- SIa
    have hTExt : TExt σB σ5 := by
      refine ⟨d4, ?_⟩
      intro u hu
      by_cases hut : u = t
      · rw [hut, d6] at hu
        cases hu
      · exact ⟨by rw [← d5 u hut]; exact hu, hdeps5 u hut⟩
    have h1 : SIa σ5 [t] rest := SIa_transport hTExt rest [t] hSIaB.2
    refine SIa_above_subsume [t] [] ?_ rest h1
    intro d hd
    left
    rw [List.mem_singleton.mp hd]
    exact d2

theorem doLoop_zero (env : TEnv) (σ : PState) (stack nd0 : List task) :
    doLoop env 0 σ stack nd0 = (σ, .timeout) := rfl

theorem doLoop_nil (env : TEnv) (fuel : Nat) (σ : PState) (nd0 : List task) :
    doLoop env (Nat.succ fuel) σ [] nd0 = (σ, .done nd0) := rfl

theorem doLoop_cons_err (env : TEnv) (fuel : Nat) (σ σ2 : PState) (t : task)
    (rest nd0 : List task) (e : Err)
    (hg : getTaskState env σ t = (σ2, .error e)) :
    doLoop env (Nat.succ fuel) σ (t :: rest) nd0 = (σ2, .fail e) := by
  rw [doLoop, hg]

theorem doLoop_cons_ok (env : TEnv) (fuel : Nat) (σ σ2 : PState) (t : task)
    (rest nd0 : List task) (s : state)
    (hg : getTaskState env σ t = (σ2, .ok s)) :
    doLoop env (Nat.succ fuel) σ (t :: rest) nd0 =
      (if !s.Done && !s.InProgress then
        match scheduleDeps env t σ2 (t :: rest) s.DependsOn false with
        | (σ3, .error e) => (σ3, .fail e)
        | (σ3, .ok (stack1, hd1)) =>
          let s1 := { s with InProgress := true }
          let σ4 := { σ3 with tasks := ainsert σ3.tasks t s1 }
          if hd1 then doLoop env fuel σ4 stack1 nd0
          else
            match runBranch2 env σ4 t s1 nd0 with
            | (σ5, _, some e) => (σ5, .fail e)
            | (σ5, nd, none) => doLoop env fuel σ5 rest nd
      else if !s.Done && s.InProgress then
        match runBranch2 env σ2 t s nd0 with
        | (σ5, _, some e) => (σ5, .fail e)
        | (σ5, nd, none) => doLoop env fuel σ5 rest nd
      else doLoop env fuel σ2 rest nd0) := by
  rw [doLoop, hg]

theorem doLoop_b3 (env : TEnv) (fuel : Nat) (σ σ2 : PState) (t : task)
    (rest nd0 : List task) (s : state)
    (hg : getTaskState env σ t = (σ2, .ok s))
    (hDone : s.Done = true) :
    doLoop env (Nat.succ fuel) σ (t :: rest) nd0 = doLoop env fuel σ2 rest nd0 := by
  rw [doLoop_cons_ok env fuel σ σ2 t rest nd0 s hg]
  simp [hDone]

theorem doLoop_b2_err (env : TEnv) (fuel : Nat) (σ σ2 σ5 : PState) (t : task)
    (rest nd0 nd5 : List task) (s : state) (e : Err)
    (hg : getTaskState env σ t = (σ2, .ok s))
    (hDone : s.Done = false) (hIp : s.InProgress = true)
    (hrb : runBranch2 env σ2 t s nd0 = (σ5, nd5, some e)) :
    doLoop env (Nat.succ fuel) σ (t :: rest) nd0 = (σ5, .fail e) := by
  rw [doLoop_cons_ok env fuel σ σ2 t rest nd0 s hg]
  rw [if_neg (show ¬((!s.Done && !s.InProgress) = true) from by rw [hDone, hIp]; simp),
    if_pos (show (!s.Done && s.InProgress) = true from by rw [hDone, hIp]; rfl)]
  rw [hrb]

theorem doLoop_b2_ok (env : TEnv) (fuel : Nat) (σ σ2 σ5 : PState) (t : task)
    (rest nd0 nd5 : List task) (s : state)
    (hg : getTaskState env σ t = (σ2, .ok s))
    (hDone : s.Done = false) (hIp : s.InProgress = true)
    (hrb : runBranch2 env σ2 t s nd0 = (σ5, nd5, none)) :
    doLoop env (Nat.succ fuel) σ (t :: rest) nd0 = doLoop env fuel σ5 rest nd5 := by
  rw [doLoop_cons_ok env fuel σ σ2 t rest nd0 s hg]
  rw [if_neg (show ¬((!s.Done && !s.InProgress) = true) from by rw [hDone, hIp]; simp),
    if_pos (show (!s.Done && s.InProgress) = true from by rw [hDone, hIp]; rfl)]
  rw [hrb]

theorem doLoop_b1_err (env : TEnv) (fuel : Nat) (σ σ2 σ3 : PState) (t : task)
    (rest nd0 : List task) (s : state) (e : Err)
    (hg : getTaskState env σ t = (σ2, .ok s))
    (hDone : s.Done = false) (hIp : s.InProgress = false)
    (hsch : scheduleDeps env t σ2 (t :: rest) s.DependsOn false = (σ3, .error e)) :
    doLoop env (Nat.succ fuel) σ (t :: rest) nd0 = (σ3, .fail e) := by
  rw [doLoop_cons_ok env fuel σ σ2 t rest nd0 s hg]
  rw [if_pos (show (!s.Done && !s.InProgress) = true from by rw [hDone, hIp]; rfl)]
  rw [hsch]

theorem doLoop_b1_deps (env : TEnv) (fuel : Nat) (σ σ2 σ3 : PState) (t : task)
    (rest nd0 stack1 : List task) (s : state)
    (hg : getTaskState env σ t = (σ2, .ok s))
    (hDone : s.Done = false) (hIp : s.InProgress = false)
    (hsch : scheduleDeps env t σ2 (t :: rest) s.DependsOn false = (σ3, .ok (stack1, true))) :
    doLoop env (Nat.succ fuel) σ (t :: rest) nd0 =
      doLoop env fuel { σ3 with tasks := ainsert σ3.tasks t { s with InProgress := true } } stack1 nd0 := by
  rw [doLoop_cons_ok env fuel σ σ2 t rest nd0 s hg]
  rw [if_pos (show (!s.Done && !s.InProgress) = true from by rw [hDone, hIp]; rfl)]
  rw [hsch]
  simp only []
  rw [if_true]

theorem doLoop_b1_run_err (env : TEnv) (fuel : Nat) (σ σ2 σ3 σ5 : PState) (t : task)
    (rest nd0 stack1 nd5 : List task) (s : state) (e : Err)
    (hg : getTaskState env σ t = (σ2, .ok s))
    (hDone : s.Done = false) (hIp : s.InProgress = false)
    (hsch : scheduleDeps env t σ2 (t :: rest) s.DependsOn false = (σ3, .ok (stack1, false)))
    (hrb : runBranch2 env { σ3 with tasks := ainsert σ3.tasks t { s with InProgress := true } }
        t { s with InProgress := true } nd0 = (σ5, nd5, some e)) :
    doLoop env (Nat.succ fuel) σ (t :: rest) nd0 = (σ5, .fail e) := by
  rw [doLoop_cons_ok env fuel σ σ2 t rest nd0 s hg]
  rw [if_pos (show (!s.Done && !s.InProgress) = true from by rw [hDone, hIp]; rfl)]
  rw [hsch]
  simp only [Bool.false_eq_true, if_false]
  rw [hrb]

theorem doLoop_b1_run_ok (env : TEnv) (fuel : Nat) (σ σ2 σ3 σ5 : PState) (t : task)
    (rest nd0 stack1 nd5 : List task) (s : state)
    (hg : getTaskState env σ t = (σ2, .ok s))
    (hDone : s.Done = false) (hIp : s.InProgress = false)
    (hsch : scheduleDeps env t σ2 (t :: rest) s.DependsOn false = (σ3, .ok (stack1, false)))
    (hrb : runBranch2 env { σ3 with tasks := ainsert σ3.tasks t { s with InProgress := true } }
        t { s with InProgress := true } nd0 = (σ5, nd5, none)) :
    doLoop env (Nat.succ fuel) σ (t :: rest) nd0 = doLoop env fuel σ5 rest nd5 := by
  rw [doLoop_cons_ok env fuel σ σ2 t rest nd0 s hg]
  rw [if_pos (show (!s.Done && !s.InProgress) = true from by rw [hDone, hIp]; rfl)]
  rw [hsch]
  simp only [Bool.false_eq_true, if_false]
  rw [hrb]

/-! ### Claim C1 — cycle reporting (code bug) -/

/-- C1: evaluating the code at the failing input.  With rule `func(b B) A` and
rule `func(a A) B` (a two-type cycle at Complete level), requesting `A`
produces the error `"cycle: B"`: the report names only `B`, not both `A` and
`B`, because `p.do` searches the walk stack for the task currently being
processed (which is the top of the stack) instead of for the offending
dependency. -/
theorem C1_cycle_report_eval :
    (runOps envAB 50 emptyProvider
      [.addRuleOp ruleAofB, .addRuleOp ruleBofA, .provideOp [.req (.base 0)]]).2.2
      = some (.msg "cycle: B") := by
  rfl

/-! ### Claim C2 — error outputs abort the rule action (corrected) -/

/-- C2 counterexample: for rule `func() (X, E)` returning a non-nil error, the
failed invocation aborts with that error but the value store is NOT unchanged:
the non-error output `X`, declared before the error output, has been stored. -/
theorem C2_counterexample :
    (runOps envXE 50 emptyProvider [.addRuleOp ruleXerr, .provideOp [.req (.base 0)]]).2.2
      = some (.val (.ifaceV 3)) ∧
    alookup (runOps envXE 50 emptyProvider
      [.addRuleOp ruleXerr, .provideOp [.req (.base 0)]]).1.values (.base 0)
      = some (.prim 7) := by
  exact ⟨rfl, rfl⟩

/-- C2 amended: when the shared rule action runs the constructor and some
error-kind output is non-nil, the action aborts and propagates the first such
value (in declaration order) as the terminal error; the non-error outputs
declared before that position have been stored into the value store, and no
output after it is stored. -/
theorem C2_amended (env : TEnv) (σ : PState) (r : Nat) (rule : Rule)
    (pre post : List ((GoType × Bool) × Value)) (tE : GoType) (vE : Value)
    (hr : σ.rules.get? r = some rule)
    (hl : r ∉ σ.latches)
    (hsplit : ((rule.outs.map (fun t => (t, isErrorType env t))).zip
        (rule.fn (readInputs σ.values rule.ins))) = pre ++ ((tE, true), vE) :: post)
    (hE : vE.isNil = false)
    (hpre : ∀ p ∈ pre, p.1.2 = true → p.2.isNil = true) :
    (runAction env (.customDo r) σ).2 = some (.val vE) ∧
    (runAction env (.customDo r) σ).1.trace
      = (σ.trace ++ [Event.callCtor r])
        ++ (pre.filter (fun p => !p.1.2)).map (fun p => Event.storeV p.1.1) := by
  rw [runAction_customDo_unlatched env σ r rule hr hl, hsplit]
  have := processOuts_first_err tE vE post pre
    { σ with latches := r :: σ.latches, trace := σ.trace ++ [.callCtor r] }
    hpre hE
  exact ⟨this.1, by rw [this.2]⟩

/-! ### Claim C6 — slot validation (corrected) -/

/-- C6 counterexample: `Provide(&x, nil)` is not rejected before resolution
starts — the malformed second slot is only detected after the first slot has
been fully resolved, so the call errors AND the rule's constructor has
executed AND tasks have been scheduled. -/
theorem C6_counterexample :
    (runOps envXY 50 emptyProvider opsBadSlot).2.2
      = some (.msg "arguments to Provide must be non-nil pointers (that Provide will set)") ∧
    countE (runOps envXY 50 emptyProvider opsBadSlot).1.trace (.callCtor 0) = 1 ∧
    (runOps envXY 50 emptyProvider opsBadSlot).1.tasks.length = 2 := by
  exact ⟨rfl, rfl, rfl⟩

/-- C6 amended: slot validation is interleaved with resolution, one slot at a
time.  A malformed (non-pointer or nil) slot, or a slot requesting an
error-kind type, aborts the call at the point it is reached, before any
resolution work for THAT slot, leaving the state exactly as the preceding
slots' resolution left it; but slots listed before the malformed one have
already been fully resolved (their constructors may have executed). -/
theorem C6_amended :
    (∀ (env : TEnv) (fuel : Nat) (σ : PState) (rest : List Slot) (acc : List Value),
      provideLoop env fuel σ (.bad :: rest) acc
        = (σ, acc, some (.msg "arguments to Provide must be non-nil pointers (that Provide will set)"))) ∧
    (∀ (env : TEnv) (fuel : Nat) (σ : PState) (t : GoType) (rest : List Slot) (acc : List Value),
      isErrorType env t = true →
      provideLoop env fuel σ (.req t :: rest) acc
        = (σ, acc, some (.msg ("since " ++ typeName env t
            ++ " implements error, it is considered an error and cannot be provided")))) ∧
    countE (runOps envXY 50 emptyProvider opsBadSlot).1.trace (.callCtor 0) = 1 := by
  refine ⟨fun env fuel σ rest acc => rfl, fun env fuel σ t rest acc ht => ?_, rfl⟩
  simp [provideLoop, ht]

/-- Witness for `C6_amended`: instantiating the error-kind rejection at the
concrete error interface type `E` of `envXE`. -/
theorem C6_amended_witness :
    provideLoop envXE 5 emptyProvider [.req (.base 1)] []
      = (emptyProvider, [], some (.msg
          "since E implements error, it is considered an error and cannot be provided")) := by
  exact C6_amended.2.1 envXE 5 emptyProvider (.base 1) [] [] rfl

/-! ### Claim C8 — tag validation (confirmed) -/

/-- C8: auto-derivation of a pointer-to-struct type fails with a definition
error (no initializer is produced) whenever some field carries a provide tag
that is neither empty nor "circular", or a field tagged "circular" whose type
is not reference-kind. -/
theorem C8_tag_validation (env : TEnv) (n : Nat) (f : GoType × Option String)
    (hk : kindOf env (.base n) = .structK)
    (hf : f ∈ fieldsOf env (.base n))
    (hbad : badProvideTag env f) :
    ∃ e, autoProvide env (.ptr (.base n)) = .error e := by
  rcases collectFields_bad_errors env (typeName env (.base n))
      (fieldsOf env (.base n)) 0 ⟨f, hf, hbad⟩ with ⟨e, he⟩
  refine ⟨e, ?_⟩
  have hk2 : (env.info n).kind = .structK := hk
  simp [autoProvide, kindOf, hk2, he]

/-- Witness for `C2_amended`: rule `func() (X, E)` of `envXE` registered as
rule 0, never latched, returning a non-nil error after its value output. -/
theorem C2_amended_witness :
    (runAction envXE (.customDo 0) { emptyProvider with rules := [ruleXerr] }).2
      = some (.val (.ifaceV 3)) ∧
    (runAction envXE (.customDo 0) { emptyProvider with rules := [ruleXerr] }).1.trace
      = [Event.callCtor 0, Event.storeV (.base 0)] := by
  have h := C2_amended envXE { emptyProvider with rules := [ruleXerr] } 0 ruleXerr
    [((.base 0, false), .prim 7)] [] (.base 1) (.ifaceV 3)
    rfl (by simp [emptyProvider]) rfl rfl
    (by
      intro p hp
      simp at hp
      subst hp
      intro hq
      simp at hq)
  exact ⟨h.1, by rw [h.2]; rfl⟩

/-- Witness for `C8_tag_validation`: a struct with the unrecognized tag
`"weird"`, and one with `"circular"` on a plain (non-reference) field, are
both rejected. -/
theorem C8_tag_validation_witness :
    (∃ e, autoProvide envBadTag (.ptr (.base 0)) = .error e) ∧
    (∃ e, autoProvide envBadCirc (.ptr (.base 0)) = .error e) := by
  constructor
  · exact C8_tag_validation envBadTag 0 (.base 1, some "weird") rfl (by decide)
      (by unfold badProvideTag; decide)
  · exact C8_tag_validation envBadCirc 0 (.base 1, some "circular") rfl (by decide)
      (by unfold badProvideTag; decide)

/-! ### Claim C9 — fields are set before the initializer runs (confirmed) -/

theorem setFields_spec (typ : GoType) (v : Value) :
    ∀ (fs : List pfield) (σ : PState),
    (setFields typ v fs σ).rules = σ.rules ∧
    (setFields typ v fs σ).tasks = σ.tasks ∧
    (setFields typ v fs σ).values = σ.values ∧
    (setFields typ v fs σ).latches = σ.latches ∧
    (setFields typ v fs σ).trace
      = σ.trace ++ fs.map (fun f => Event.setFieldE typ f.Index) := by
  intro fs
  induction fs with
  | nil => intro σ; simp [setFields]
  | cons f rest ih =>
    intro σ
    match v with
    | .ptrv addr =>
      have := ih { σ with heap := heapSet σ.heap addr (fun c => setStructField c f.Index ((alookup σ.values f.typ).getD .invalid)), trace := σ.trace ++ [.setFieldE typ f.Index] }
      simpa [setFields, List.append_assoc] using this
    | .invalid =>
      have := ih { σ with trace := σ.trace ++ [.setFieldE typ f.Index] }
      simpa [setFields, List.append_assoc] using this
    | .prim n =>
      have := ih { σ with trace := σ.trace ++ [.setFieldE typ f.Index] }
      simpa [setFields, List.append_assoc] using this
    | .nilPtr =>
      have := ih { σ with trace := σ.trace ++ [.setFieldE typ f.Index] }
      simpa [setFields, List.append_assoc] using this
    | .nilIface =>
      have := ih { σ with trace := σ.trace ++ [.setFieldE typ f.Index] }
      simpa [setFields, List.append_assoc] using this
    | .ifaceV n =>
      have := ih { σ with trace := σ.trace ++ [.setFieldE typ f.Index] }
      simpa [setFields, List.append_assoc] using this
    | .structV l =>
      have := ih { σ with trace := σ.trace ++ [.setFieldE typ f.Index] }
      simpa [setFields, List.append_assoc] using this

set_option maxHeartbeats 1000000 in
/-- The full accounting of one `runBranch2` step: on success the task is
marked Done with the invariant preserved; on failure the weak trace invariant
holds and the error is not the defensive message. -/
theorem runBranch2_spec (env : TEnv) (σ : PState) (t : task) (s : state) (nd0 : List task)
    (hinv : InvCore env σ)
    (hlk : alookup σ.tasks t = some s)
    (hD : s.Done = false)
    (hok : s.DependsOn.contains t = true ∨ s.DependsOn.all (fun d => isDoneB σ d) = true) :
    (∀ σ1 nd1 e, runBranch2 env σ t s nd0 = (σ1, nd1, some e) →
      WTr σ1 ∧ e ≠ .msg snhMsg) ∧
    (∀ σ1 nd1, runBranch2 env σ t s nd0 = (σ1, nd1, none) →
      InvCore env σ1 ∧
      isDoneB σ1 t = true ∧
      (∀ u, u ≠ t → alookup σ1.tasks u = alookup σ.tasks u) ∧
      (∀ u, isDoneB σ u = true → isDoneB σ1 u = true) ∧
      (∀ u, u ≠ t → inProg σ1 u = inProg σ u) ∧
      inProg σ1 t = false ∧
      (∀ T v, alookup σ.values T = some v → alookup σ1.values T = some v) ∧
      σ1.rules = σ.rules ∧
      (nd1 = nd0 ∨ nd1 = nd0 ++ [t]) ∧
      (t.Complete = false → nd1 = nd0 ++ [t]) ∧
      (t.Complete = true → isDoneB σ (task.mk t.typ false) = true →
        (alookup σ1.values t.typ).isSome = true)) := by
  rcases hsdo : s.Do with _ | a
  · -- no action: mark Done directly
    rw [runBranch2_none env σ t s nd0 hsdo]
    constructor
    · intro σ1 nd1 e h
      simp at h
    · intro σ1 nd1 h
      simp only [Prod.mk.injEq] at h
      obtain ⟨h1, h2, -⟩ := h
      subst h1
      subst h2
      have htC : t.Complete = true := by
        rcases hc : t.Complete
        · exfalso
          have hkey : task.mk t.typ false = t := by rw [← hc]
          exact hinv.pdo t.typ s (by rw [hkey]; exact hlk) hD hsdo
        · rfl
      have hval : t.Complete = false → (alookup σ.values t.typ).isSome = true := by
        intro hc
        rw [htC] at hc
        cases hc
      have hlat : ∀ r2, s.Do = some (.customDo r2) → r2 ∈ σ.latches := by
        intro r2 hr2
        rw [hsdo] at hr2
        cases hr2
      have hL : ∀ u, alookup { σ with tasks := ainsert σ.tasks t { s with Done := true, DependsOn := [], Do := none } }.tasks u
          = if u = t then some { s with Done := true, DependsOn := [], Do := none }
            else alookup σ.tasks u := by
        intro u
        show alookup (ainsert σ.tasks t _) u = _
        exact alookup_ainsert σ.tasks t u _
      refine ⟨markDone_InvCore env σ t s hinv hlk hval hlat, ?_, ?_, ?_, ?_, ?_, ?_, rfl,
        Or.inl rfl, ?_, ?_⟩
      · unfold isDoneB
        rw [hL, if_pos rfl]
      · intro u hu
        rw [hL, if_neg hu]
      · intro u hu
        unfold isDoneB
        rw [hL]
        by_cases hut : u = t
        · rw [if_pos hut]
        · rw [if_neg hut]
          unfold isDoneB at hu
          exact hu
      · intro u hu
        unfold inProg
        rw [hL, if_neg hu]
      · unfold inProg
        rw [hL, if_pos rfl]
        simp
      · intro T v hv
        exact hv
      · intro hc
        rw [htC] at hc
        cases hc
      · intro _ hpd
        exact hinv.tr4 t.typ hpd
  · -- an action to run
    have hinvp : InvCore env { σ with trace := σ.trace ++
        [Event.ranAct t (s.DependsOn.contains t) (s.DependsOn.all (fun d => isDoneB σ d))] } := by
      refine InvCore_trace_append env σ _ ?_ ?_ ?_ ?_ hinv
      · intro r2
        exact countE_single_ne _ _ (by intro hh; cases hh)
      · intro T
        exact countE_single_ne _ _ (by intro hh; cases hh)
      · intro T
        exact countE_single_ne _ _ (by intro hh; cases hh)
      · intro u hu
        simp only [List.mem_singleton] at hu
        injection hu with hu1 hu2 hu3
        rcases hok with hk | hk
        · rw [hk] at hu2
          cases hu2
        · rw [hk] at hu3
          cases hu3
    have hfin : ∀ σa : PState, σa.tasks = σ.tasks → σa.rules = σ.rules →
        (∀ T v, alookup σ.values T = some v → alookup σa.values T = some v) →
        (t.Complete = true → σa.values = σ.values) →
        InvCore env { σa with tasks := ainsert σa.tasks t { s with Done := true, DependsOn := [], Do := none } } →
        InvCore env { σa with tasks := ainsert σa.tasks t { s with Done := true, DependsOn := [], Do := none } } ∧
        isDoneB { σa with tasks := ainsert σa.tasks t { s with Done := true, DependsOn := [], Do := none } } t = true ∧
        (∀ u, u ≠ t → alookup { σa with tasks := ainsert σa.tasks t { s with Done := true, DependsOn := [], Do := none } }.tasks u = alookup σ.tasks u) ∧
        (∀ u, isDoneB σ u = true → isDoneB { σa with tasks := ainsert σa.tasks t { s with Done := true, DependsOn := [], Do := none } } u = true) ∧
        (∀ u, u ≠ t → inProg { σa with tasks := ainsert σa.tasks t { s with Done := true, DependsOn := [], Do := none } } u = inProg σ u) ∧
        inProg { σa with tasks := ainsert σa.tasks t { s with Done := true, DependsOn := [], Do := none } } t = false ∧
        (∀ T v, alookup σ.values T = some v → alookup { σa with tasks := ainsert σa.tasks t { s with Done := true, DependsOn := [], Do := none } }.values T = some v) ∧
        ({ σa with tasks := ainsert σa.tasks t { s with Done := true, DependsOn := [], Do := none } }).rules = σ.rules ∧
        (nd0 ++ [t] = nd0 ∨ nd0 ++ [t] = nd0 ++ [t]) ∧
        (t.Complete = false → nd0 ++ [t] = nd0 ++ [t]) ∧
        (t.Complete = true → isDoneB σ (task.mk t.typ false) = true →
          (alookup { σa with tasks := ainsert σa.tasks t { s with Done := true, DependsOn := [], Do := none } }.values t.typ).isSome = true) := by
      intro σa hta hrr hvm hve hminv
      have hL : ∀ u, alookup { σa with tasks := ainsert σa.tasks t { s with Done := true, DependsOn := [], Do := none } }.tasks u
          = if u = t then some { s with Done := true, DependsOn := [], Do := none }
            else alookup σa.tasks u := by
        intro u
        show alookup (ainsert σa.tasks t _) u = _
        exact alookup_ainsert σa.tasks t u _
      refine ⟨hminv, ?_, ?_, ?_, ?_, ?_, ?_, hrr, Or.inr rfl, fun _ => rfl, ?_⟩
      · unfold isDoneB
        rw [hL, if_pos rfl]
      · intro u hu
        rw [hL, if_neg hu, hta]
      · intro u hu
        unfold isDoneB
        rw [hL]
        by_cases hut : u = t
        · rw [if_pos hut]
        · rw [if_neg hut, hta]
          unfold isDoneB at hu
          exact hu
      · intro u hu
        unfold inProg
        rw [hL, if_neg hu, hta]
      · unfold inProg
        rw [hL, if_pos rfl]
        simp
      · intro T v hv
        exact hvm T v hv
      · intro hc hpd
        show (alookup σa.values t.typ).isSome = true
        rw [hve hc]
        exact hinv.tr4 t.typ hpd
    rcases a with r | typ | ⟨typ, pfl, insl, b⟩ | typ
    · -- customDo r
      have htC : t.Complete = false := by
        rcases hc : t.Complete
        · rfl
        · exfalso
          have hkey : task.mk t.typ true = t := by rw [← hc]
          rcases hinv.ownC t.typ s (by rw [hkey]; exact hlk) with hd | ⟨pfl2, insl2, b2, hd⟩
          · rw [hsdo] at hd
            cases hd
          · rw [hsdo] at hd
            injection hd with hd
            cases hd
      have hkeyF : task.mk t.typ false = t := by rw [← htC]
      obtain ⟨rule, hgr, hmemT⟩ : ∃ rule, σ.rules.get? r = some rule ∧ t.typ ∈ nonErrOuts env rule := by
        rcases hinv.ownP t.typ s (by rw [hkeyF]; exact hlk) with hd | hd | hd | ⟨r2, rule, hd, hgr2, hmem⟩
        · rw [hsdo] at hd
          cases hd
        · rw [hsdo] at hd
          injection hd with hd
          cases hd
        · rw [hsdo] at hd
          injection hd with hd
          cases hd
        · rw [hsdo] at hd
          injection hd with hd
          injection hd with hd
          subst hd
          exact ⟨rule, hgr2, hmem⟩
      by_cases hlch : r ∈ σ.latches
      · -- already latched: the action is a no-op
        have hra : runAction env (.customDo r) { σ with trace := σ.trace ++
            [Event.ranAct t (s.DependsOn.contains t) (s.DependsOn.all (fun d => isDoneB σ d))] }
            = ({ σ with trace := σ.trace ++
              [Event.ranAct t (s.DependsOn.contains t) (s.DependsOn.all (fun d => isDoneB σ d))] }, none) :=
          runAction_customDo_latched env _ r rule hgr hlch
        rw [runBranch2_some_ok env σ t s nd0 _ _ hsdo hra]
        constructor
        · intro σ1 nd1 e h
          simp at h
        · intro σ1 nd1 h
          simp only [Prod.mk.injEq] at h
          obtain ⟨h1, h2, -⟩ := h
          subst h1
          subst h2
          refine hfin { σ with trace := σ.trace ++
              [Event.ranAct t (s.DependsOn.contains t) (s.DependsOn.all (fun d => isDoneB σ d))] }
            rfl rfl (fun T v hv => hv) (fun _ => rfl) ?_
          refine markDone_InvCore env { σ with trace := σ.trace ++
              [Event.ranAct t (s.DependsOn.contains t) (s.DependsOn.all (fun d => isDoneB σ d))] }
            t s hinvp hlk ?_ ?_
          · intro _
            exact hinv.tr5 r rule hlch hgr t.typ hmemT
          · intro r2 hr2
            rw [hsdo] at hr2
            injection hr2 with hr2
            injection hr2 with hr2
            show r2 ∈ σ.latches
            rw [← hr2]
            exact hlch
      · -- not latched: latch, call the constructor, process its outputs
        have hsplit := runAction_customDo_unlatched env { σ with trace := σ.trace ++
            [Event.ranAct t (s.DependsOn.contains t) (s.DependsOn.all (fun d => isDoneB σ d))] }
          r rule hgr hlch
        set ZS := (rule.outs.map (fun t2 => (t2, isErrorType env t2))).zip
          (rule.fn (readInputs { σ with trace := σ.trace ++
            [Event.ranAct t (s.DependsOn.contains t) (s.DependsOn.all (fun d => isDoneB σ d))] }.values rule.ins)) with hZS
        set SQ := { { σ with trace := σ.trace ++
            [Event.ranAct t (s.DependsOn.contains t) (s.DependsOn.all (fun d => isDoneB σ d))] } with
          latches := r :: { σ with trace := σ.trace ++
            [Event.ranAct t (s.DependsOn.contains t) (s.DependsOn.all (fun d => isDoneB σ d))] }.latches,
          trace := { σ with trace := σ.trace ++
            [Event.ranAct t (s.DependsOn.contains t) (s.DependsOn.all (fun d => isDoneB σ d))] }.trace ++ [Event.callCtor r] } with hSQ
        have hqtr : SQ.trace = (σ.trace ++
            [Event.ranAct t (s.DependsOn.contains t) (s.DependsOn.all (fun d => isDoneB σ d))]) ++ [Event.callCtor r] := by
          rw [hSQ]
        have hqv : SQ.values = σ.values := by rw [hSQ]
        have hqt : SQ.tasks = σ.tasks := by rw [hSQ]
        have hql : SQ.latches = r :: σ.latches := by rw [hSQ]
        have hqr : SQ.rules = σ.rules := by rw [hSQ]
        have hlen : rule.outs.length = (rule.fn (readInputs σ.values rule.ins)).length :=
          (hinv.rwf r rule hgr (readInputs σ.values rule.ins)).symm
        have hnodup : ((ZS.filter (fun p => !p.1.2)).map (fun p => p.1.1)).Nodup := by
          rw [hZS, zip_outs_filter env rule.outs _ hlen]
          exact (hinv.inst r rule hgr).1
        have hmemZ : ∀ p ∈ ZS, p.1.2 = false → p.1.1 ∈ nonErrOuts env rule := by
          intro p hp hpe
          rw [hZS] at hp
          exact zip_outs_mem env rule.outs _ hlen p hp hpe
        have hcovZ : ∀ T ∈ nonErrOuts env rule, ∃ p, p ∈ ZS ∧ p.1.2 = false ∧ p.1.1 = T := by
          intro T hT
          obtain ⟨p, hp, h2, h3⟩ := zip_outs_cover env rule.outs
            (rule.fn (readInputs σ.values rule.ins)) hlen T hT
          refine ⟨p, ?_, h2, h3⟩
          rw [hZS]
          exact hp
        have hcntq : ∀ T, countE SQ.trace (Event.storeV T) = countE σ.trace (Event.storeV T) := by
          intro T
          rw [hqtr, countE_append, countE_append,
            countE_single_ne _ _ (by intro hh; cases hh),
            countE_single_ne _ _ (by intro hh; cases hh)]
          omega
        have hfresh : ∀ p ∈ ZS, p.1.2 = false →
            countE SQ.trace (Event.storeV p.1.1) = 0 ∧ alookup SQ.values p.1.1 = none := by
          intro p hp hpe
          obtain ⟨-, hc0, hn0⟩ := rule_output_pending env σ r rule hinv hgr hlch p.1.1 (hmemZ p hp hpe)
          refine ⟨by rw [hcntq]; exact hc0, ?_⟩
          rw [hqv]
          exact hn0
        have hstrq : ∀ T, 1 ≤ countE SQ.trace (Event.storeV T) ↔ (alookup SQ.values T).isSome = true := by
          intro T
          rw [hcntq, hqv]
          exact hinv.str T
        obtain ⟨a1, a2, a3, a4, ⟨l, hl1, hl2, hl3, hl4⟩, a6, a7, a8, a9, a10, a11⟩ :=
          processOuts_spec ZS SQ hnodup hfresh hstrq
        rcases hpo : processOuts ZS SQ with ⟨σa, res⟩
        rw [hpo] at a1 a2 a3 a4 hl1 a6 a7 a8 a9 a10 a11
        have hra : runAction env (.customDo r) { σ with trace := σ.trace ++
            [Event.ranAct t (s.DependsOn.contains t) (s.DependsOn.all (fun d => isDoneB σ d))] }
            = (σa, res) := by
          rw [hsplit, hpo]
        have hal : σa.latches = r :: σ.latches := by rw [a2, hql]
        have hctorA : ∀ r2, countE σa.trace (Event.callCtor r2)
            = countE σ.trace (Event.callCtor r2) + (if r2 = r then 1 else 0) := by
          intro r2
          rw [hl1, hqtr, countE_append, countE_append, countE_append, hl2 r2,
            countE_single_ne _ _ (by intro hh; cases hh)]
          by_cases h2 : r2 = r
          · rw [if_pos h2, h2, countE_single, if_pos rfl]
          · rw [if_neg h2, countE_single_ne _ _
              (by intro hh; injection hh with hh; exact h2 hh.symm)]
        have hcia : ∀ T, countE σa.trace (Event.callInit T) = countE σ.trace (Event.callInit T) := by
          intro T
          rw [hl1, hqtr, countE_append, countE_append, countE_append, hl3 T,
            countE_single_ne _ _ (by intro hh; cases hh),
            countE_single_ne _ _ (by intro hh; cases hh)]
          omega
        have hranA : ∀ u, Event.ranAct u false false ∉ σa.trace := by
          intro u hmem
          rw [hl1, hqtr] at hmem
          rcases List.mem_append.mp hmem with h1 | h1
          · rcases List.mem_append.mp h1 with h2 | h2
            · rcases List.mem_append.mp h2 with h3 | h3
              · exact hinv.ranOk u h3
              · simp only [List.mem_singleton] at h3
                injection h3 with hu1 hu2 hu3
                rcases hok with hk | hk
                · rw [hk] at hu2
                  cases hu2
                · rw [hk] at hu3
                  cases hu3
            · simp at h2
          · exact hl4 u false false h1
        have hconv : ∀ T, T ∉ nonErrOuts env rule → ∀ p ∈ ZS, p.1.2 = true ∨ p.1.1 ≠ T := by
          intro T hTo p hp
          rcases hpe : p.1.2
          · refine Or.inr ?_
            intro hq
            exact hTo (hq ▸ hmemZ p hp hpe)
          · exact Or.inl rfl
        have hstoNon : ∀ T, T ∉ nonErrOuts env rule →
            countE σa.trace (Event.storeV T) = countE σ.trace (Event.storeV T) ∧
            alookup σa.values T = alookup σ.values T := by
          intro T hTo
          obtain ⟨h7c, h7v⟩ := a7 T (hconv T hTo)
          constructor
          · rw [h7c, hcntq]
          · rw [h7v, hqv]
        have hstoOut : ∀ T ∈ nonErrOuts env rule, countE σa.trace (Event.storeV T) ≤ 1 := by
          intro T hTo
          obtain ⟨p, hp, hpe, hpt⟩ := hcovZ T hTo
          have h8 := a8 p hp hpe
          rw [hpt] at h8
          exact h8
        rcases res with _ | e
        · -- the constructor succeeded: mark the task Done
          rw [runBranch2_some_ok env σ t s nd0 _ _ hsdo hra]
          constructor
          · intro σ1 nd1 e h
            simp at h
          · intro σ1 nd1 h
            simp only [Prod.mk.injEq] at h
            obtain ⟨h1, h2, -⟩ := h
            subst h1
            subst h2
            have hta : σa.tasks = σ.tasks := by rw [a1, hqt]
            have hrr : σa.rules = σ.rules := by rw [a3, hqr]
            have hinva : InvCore env σa := by
              refine ⟨?_, ?_, ?_, ?_, ?_, ?_, ?_, ?_, ?_, ?_, a9, ?_, ?_, ?_, hranA, ?_⟩
              · -- tr1
                intro r2
                rw [hctorA r2, a2, hql]
                by_cases h2 : r2 = r
                · rw [if_pos h2, if_pos (by rw [h2]; exact List.mem_cons_self r σ.latches)]
                  have hc := hinv.tr1 r2
                  rw [if_neg (by rw [h2]; exact hlch)] at hc
                  omega
                · rw [if_neg h2]
                  have hc := hinv.tr1 r2
                  by_cases hm : r2 ∈ σ.latches
                  · rw [if_pos hm] at hc
                    rw [if_pos (List.mem_cons_of_mem r hm)]
                    omega
                  · rw [if_neg hm] at hc
                    rw [if_neg (by
                      intro hx
                      rcases List.mem_cons.mp hx with hy | hy
                      · exact h2 hy
                      · exact hm hy)]
                    omega
              · -- lrange
                intro r2 h2
                rw [a2, hql] at h2
                rw [a3, hqr]
                rcases List.mem_cons.mp h2 with hx | hx
                · subst hx
                  rcases List.get?_eq_some.mp hgr with ⟨hlt, -⟩
                  exact hlt
                · exact hinv.lrange r2 hx
              · -- ownP
                intro T s2 hs2
                rw [hta] at hs2
                rw [a3, hqr]
                exact hinv.ownP T s2 hs2
              · -- ownC
                intro T s2 hs2
                rw [hta] at hs2
                exact hinv.ownC T s2 hs2
              · -- pdo
                intro T s2 hs2 hd2
                rw [hta] at hs2
                exact hinv.pdo T s2 hs2 hd2
              · -- cdep
                intro T s2 hs2 hd2
                rw [hta] at hs2
                exact hinv.cdep T s2 hs2 hd2
              · -- clr
                intro u s2 hs2 hd2
                rw [hta] at hs2
                exact hinv.clr u s2 hs2 hd2
              · -- pair
                intro T
                rw [hta]
                exact hinv.pair T
              · -- inst
                intro r2 rule2 hr2
                rw [a3, hqr] at hr2
                refine ⟨(hinv.inst r2 rule2 hr2).1, ?_⟩
                intro T hT
                obtain ⟨s2, hs2, hdisj⟩ := (hinv.inst r2 rule2 hr2).2 T hT
                refine ⟨s2, by rw [hta]; exact hs2, ?_⟩
                rcases hdisj with h1 | ⟨h1, h2, h3⟩
                · exact Or.inl h1
                · exact Or.inr ⟨h1, h2, by rw [a2, hql]; exact List.mem_cons_of_mem r h3⟩
              · -- sto
                intro T
                by_cases hTo : T ∈ nonErrOuts env rule
                · have h8 := hstoOut T hTo
                  obtain ⟨⟨sT, hsT, hdoT, hdnT⟩, -, -⟩ :=
                    rule_output_pending env σ r rule hinv hgr hlch T hTo
                  have hps0 : pendingStore σa T = 0 := by
                    unfold pendingStore
                    rw [hta, hsT]
                    simp [hdnT, hdoT, hal]
                  rw [hps0]
                  omega
                · obtain ⟨h7c, -⟩ := hstoNon T hTo
                  have hps : pendingStore σa T ≤ pendingStore σ T := by
                    unfold pendingStore
                    rw [hta]
                    rcases hsT : alookup σ.tasks (task.mk T false) with _ | sT
                    · exact Nat.le_refl _
                    · rcases hdn : sT.Done
                      · rcases hdo3 : sT.Do with _ | a3x
                        · simp [hdn, hdo3]
                        · rcases a3x with r3 | typ3 | q3 | typ3
                          · by_cases hm : r3 ∈ σ.latches
                            · simp [hdn, hdo3, hal, hm]
                            · by_cases hm2 : r3 = r
                              · simp [hdn, hdo3, hal, hm2, hm]
                              · simp [hdn, hdo3, hal, hm2, hm]
                          · simp [hdn, hdo3]
                          · simp [hdn, hdo3]
                          · simp [hdn, hdo3]
                      · simp [hdn]
                  have h0 := hinv.sto T
                  rw [h7c]
                  omega
              · -- tr4
                intro T hd
                have hdb : isDoneB σa (task.mk T false) = isDoneB σ (task.mk T false) := by
                  unfold isDoneB
                  rw [hta]
                rw [hdb] at hd
                rcases Option.isSome_iff_exists.mp (hinv.tr4 T hd) with ⟨v, hv⟩
                rw [a6 T v (by rw [hqv]; exact hv)]
                rfl
              · -- tr5
                intro r2 rule2 hl2 hr2 T hT
                rw [a2, hql] at hl2
                rw [a3, hqr] at hr2
                rcases List.mem_cons.mp hl2 with hx | hx
                · subst hx
                  have hre : rule2 = rule := by
                    rw [hgr] at hr2
                    injection hr2 with hh
                    exact hh.symm
                  subst hre
                  obtain ⟨p, hp, hpe, hpt⟩ := hcovZ T hT
                  have h5 := a10 rfl p hp hpe
                  rw [hpt] at h5
                  exact h5
                · rcases Option.isSome_iff_exists.mp (hinv.tr5 r2 rule2 hx hr2 T hT) with ⟨v, hv⟩
                  rw [a6 T v (by rw [hqv]; exact hv)]
                  rfl
              · -- ci
                intro T
                have hpia : pendingInit σa T = pendingInit σ T := by
                  unfold pendingInit
                  rw [hta]
                rw [hcia T, hpia]
                exact hinv.ci T
              · -- rwf
                intro r2 rule2 hr2
                rw [a3, hqr] at hr2
                exact hinv.rwf r2 rule2 hr2
            refine hfin σa hta hrr (fun T v hv => a6 T v (by rw [hqv]; exact hv))
              (fun hc => by rw [htC] at hc; cases hc) ?_
            refine markDone_InvCore env σa t s hinva (by rw [hta]; exact hlk) ?_ ?_
            · intro _
              obtain ⟨p, hp, hpe, hpt⟩ := hcovZ t.typ hmemT
              have h5 := a10 rfl p hp hpe
              rw [hpt] at h5
              exact h5
            · intro r2 hr2
              rw [hsdo] at hr2
              injection hr2 with hr2
              injection hr2 with hr2
              rw [a2, hql, ← hr2]
              exact List.mem_cons_self r σ.latches
        · -- the constructor aborted with an error output
          rw [runBranch2_some_err env σ t s nd0 _ _ e hsdo hra]
          constructor
          · intro σ1 nd1 e2 h
            simp only [Prod.mk.injEq] at h
            obtain ⟨h1, -, h3⟩ := h
            injection h3 with h3
            subst h1
            subst h3
            refine ⟨⟨?_, ?_, ?_, hranA⟩, a11 e rfl⟩
            · intro r2
              rw [hctorA r2]
              have hc := hinv.tr1 r2
              by_cases h2 : r2 = r
              · rw [if_pos h2]
                rw [if_neg (by rw [h2]; exact hlch)] at hc
                omega
              · rw [if_neg h2]
                by_cases hm : r2 ∈ σ.latches
                · rw [if_pos hm] at hc
                  omega
                · rw [if_neg hm] at hc
                  omega
            · intro T
              by_cases hTo : T ∈ nonErrOuts env rule
              · exact hstoOut T hTo
              · obtain ⟨h7c, -⟩ := hstoNon T hTo
                rw [h7c]
                have := hinv.sto T
                omega
            · intro T
              rw [hcia T]
              have := hinv.ci T
              omega
          · intro σ1 nd1 h
            simp at h
    · -- autoPtrPartialDo
      have htC : t.Complete = false := by
        rcases hc : t.Complete
        · rfl
        · exfalso
          have hkey : task.mk t.typ true = t := by rw [← hc]
          rcases hinv.ownC t.typ s (by rw [hkey]; exact hlk) with hd | ⟨pfl2, insl2, b2, hd⟩
          · rw [hsdo] at hd
            cases hd
          · rw [hsdo] at hd
            injection hd with hd
            cases hd
      have hkeyF : task.mk t.typ false = t := by rw [← htC]
      have htyp : typ = t.typ := by
        rcases hinv.ownP t.typ s (by rw [hkeyF]; exact hlk) with hd | hd | hd | ⟨r2, rule2, hd, -, -⟩
        · rw [hsdo] at hd
          cases hd
        · rw [hsdo] at hd
          injection hd with hd
          injection hd with hd
        · rw [hsdo] at hd
          injection hd with hd
          cases hd
        · rw [hsdo] at hd
          injection hd with hd
          cases hd
      subst htyp
      have hra : runAction env (.autoPtrPartialDo t.typ) { σ with trace := σ.trace ++ [Event.ranAct t (s.DependsOn.contains t) (s.DependsOn.all (fun d => isDoneB σ d))] }
          = ({ σ with heap := σ.heap ++ [zeroOf env (elemT t.typ)], values := ainsert σ.values t.typ (.ptrv σ.heap.length), trace := (σ.trace ++ [Event.ranAct t (s.DependsOn.contains t) (s.DependsOn.all (fun d => isDoneB σ d))]) ++ [Event.storeV t.typ] }, none) := rfl
      rw [runBranch2_some_ok env σ t s nd0 _ _ hsdo hra]
      constructor
      · intro σ1 nd1 e h
        simp at h
      · intro σ1 nd1 h
        simp only [Prod.mk.injEq] at h
        obtain ⟨h1, h2, -⟩ := h
        subst h1
        subst h2
        have hn0 : alookup σ.values t.typ = none := by
          have hps1 : pendingStore σ t.typ = 1 := by
            unfold pendingStore
            rw [hkeyF, hlk]
            simp [hD, hsdo]
          have hsto := hinv.sto t.typ
          have hc0 : countE σ.trace (Event.storeV t.typ) = 0 := by omega
          have h2 := hinv.str t.typ
          rcases hl2 : alookup σ.values t.typ with _ | v2
          · rfl
          · exfalso
            rw [hl2] at h2
            simp at h2
            omega
        refine hfin { σ with heap := σ.heap ++ [zeroOf env (elemT t.typ)], values := ainsert σ.values t.typ (.ptrv σ.heap.length), trace := (σ.trace ++ [Event.ranAct t (s.DependsOn.contains t) (s.DependsOn.all (fun d => isDoneB σ d))]) ++ [Event.storeV t.typ] } ?_ ?_ ?_ ?_ ?_
        · rfl
        · rfl
        · intro T v hv
          show alookup (ainsert σ.values t.typ (Value.ptrv σ.heap.length)) T = some v
          rw [alookup_ainsert]
          by_cases hTt : T = t.typ
          · rw [hTt, hn0] at hv
            cases hv
          · rw [if_neg hTt]
            exact hv
        · intro hc
          rw [htC] at hc
          cases hc
        · exact storeCommit_InvCore env { σ with trace := σ.trace ++ [Event.ranAct t (s.DependsOn.contains t) (s.DependsOn.all (fun d => isDoneB σ d))] }
            t s (Value.ptrv σ.heap.length) _ hinvp hlk hD htC (Or.inl hsdo) rfl rfl rfl rfl rfl
    · -- autoPtrCompleteDo
      have htC : t.Complete = true := by
        rcases hc : t.Complete
        · exfalso
          have hkey : task.mk t.typ false = t := by rw [← hc]
          rcases hinv.ownP t.typ s (by rw [hkey]; exact hlk) with hd | hd | hd | ⟨r2, rule2, hd, -, -⟩
          · rw [hsdo] at hd
            cases hd
          · rw [hsdo] at hd
            injection hd with hd
            cases hd
          · rw [hsdo] at hd
            injection hd with hd
            cases hd
          · rw [hsdo] at hd
            injection hd with hd
            cases hd
        · rfl
      have hkeyT : task.mk t.typ true = t := by rw [← htC]
      have htyp : typ = t.typ := by
        rcases hinv.ownC t.typ s (by rw [hkeyT]; exact hlk) with hd | ⟨pfl2, insl2, b2, hd⟩
        · rw [hsdo] at hd
          cases hd
        · rw [hsdo] at hd
          injection hd with hd
          injection hd with h1 h2 h3 h4
      subst htyp
      obtain ⟨hsr, hst, hsv, hsl, hstr⟩ := setFields_spec t.typ ((alookup σ.values t.typ).getD Value.invalid) pfl { σ with trace := σ.trace ++ [Event.ranAct t (s.DependsOn.contains t) (s.DependsOn.all (fun d => isDoneB σ d))] }
      have hz : ∀ ev, (∀ T2 i, Event.setFieldE T2 i ≠ ev) → countE (pfl.map (fun f => Event.setFieldE t.typ f.Index)) ev = 0 := by
        intro ev hne
        apply countE_zero
        intro e he
        rcases List.mem_map.mp he with ⟨f, -, hfe⟩
        rw [← hfe]
        exact hne t.typ f.Index
      rcases hb : b
      · -- no initializer capability requested
        subst hb
        have hra : runAction env (.autoPtrCompleteDo t.typ pfl insl false) { σ with trace := σ.trace ++ [Event.ranAct t (s.DependsOn.contains t) (s.DependsOn.all (fun d => isDoneB σ d))] }
            = ((setFields t.typ ((alookup σ.values t.typ).getD Value.invalid) pfl { σ with trace := σ.trace ++ [Event.ranAct t (s.DependsOn.contains t) (s.DependsOn.all (fun d => isDoneB σ d))] }), none) := rfl
        rw [runBranch2_some_ok env σ t s nd0 _ _ hsdo hra]
        constructor
        · intro σ1 nd1 e h
          simp at h
        · intro σ1 nd1 h
          simp only [Prod.mk.injEq] at h
          obtain ⟨h1, h2, -⟩ := h
          subst h1
          subst h2
          have h1trX : (setFields t.typ ((alookup σ.values t.typ).getD Value.invalid) pfl { σ with trace := σ.trace ++ [Event.ranAct t (s.DependsOn.contains t) (s.DependsOn.all (fun d => isDoneB σ d))] }).trace = { σ with trace := σ.trace ++ [Event.ranAct t (s.DependsOn.contains t) (s.DependsOn.all (fun d => isDoneB σ d))] }.trace ++ (pfl.map (fun f => Event.setFieldE t.typ f.Index)) := hstr
          have hltcX : ∀ r2, countE (pfl.map (fun f => Event.setFieldE t.typ f.Index)) (Event.callCtor r2) = 0 := fun r2 => hz _ (fun T2 i hh => by cases hh)
          have hltsX : ∀ T, countE (pfl.map (fun f => Event.setFieldE t.typ f.Index)) (Event.storeV T) = 0 := fun T => hz _ (fun T2 i hh => by cases hh)
          have hltrX : ∀ u b1 b2, Event.ranAct u b1 b2 ∉ (pfl.map (fun f => Event.setFieldE t.typ f.Index)) := by
            intro u b1 b2 hmem
            rcases List.mem_map.mp hmem with ⟨f, -, hfe⟩
            cases hfe
          have hltiX : countE (pfl.map (fun f => Event.setFieldE t.typ f.Index)) (Event.callInit t.typ) ≤ 1 := by
            rw [hz _ (fun T2 i hh => by cases hh)]
            omega
          have hltioX : ∀ T, T ≠ t.typ → countE (pfl.map (fun f => Event.setFieldE t.typ f.Index)) (Event.callInit T) = 0 := fun T _ => hz _ (fun T2 i hh => by cases hh)
          have hltibX : 1 ≤ countE (pfl.map (fun f => Event.setFieldE t.typ f.Index)) (Event.callInit t.typ) → false = true := by
            intro h1
            rw [hz _ (fun T2 i hh => by cases hh)] at h1
            exact absurd h1 (by decide)
          refine hfin (setFields t.typ ((alookup σ.values t.typ).getD Value.invalid) pfl { σ with trace := σ.trace ++ [Event.ranAct t (s.DependsOn.contains t) (s.DependsOn.all (fun d => isDoneB σ d))] }) hst hsr ?_ (fun _ => hsv) ?_
          · intro T v hv
            have h9 : alookup (setFields t.typ ((alookup σ.values t.typ).getD Value.invalid) pfl { σ with trace := σ.trace ++ [Event.ranAct t (s.DependsOn.contains t) (s.DependsOn.all (fun d => isDoneB σ d))] }).values T = some v := by
              rw [hsv]
              exact hv
            exact h9
          · refine completeCommit_InvCore env { σ with trace := σ.trace ++ [Event.ranAct t (s.DependsOn.contains t) (s.DependsOn.all (fun d => isDoneB σ d))] } t s _ (pfl.map (fun f => Event.setFieldE t.typ f.Index)) pfl insl false hinvp hlk hD htC hsdo ?_ ?_ ?_ ?_ ?_ ?_ ?_ ?_ ?_ ?_ ?_
            · -- h1t
              rw [hst]
            · -- h1v
              exact hsv
            · -- h1tr
              exact h1trX
            · -- counts: no constructor events among the appended ones
              intro r2
              exact hltcX r2
            · intro T
              exact hltsX T
            · intro u b1 b2 hmem
              exact hltrX u b1 b2 hmem
            · exact hltiX
            · intro T hTt
              exact hltioX T hTt
            · exact hltibX
            · exact hsl
            · exact hsr
      · -- initializer capability requested
        subst hb
        rcases hcap : initCapOf env t.typ with _ | cap
        · -- the capability has vanished: nothing to call
          have hra : runAction env (.autoPtrCompleteDo t.typ pfl insl true) { σ with trace := σ.trace ++ [Event.ranAct t (s.DependsOn.contains t) (s.DependsOn.all (fun d => isDoneB σ d))] }
              = ((setFields t.typ ((alookup σ.values t.typ).getD Value.invalid) pfl { σ with trace := σ.trace ++ [Event.ranAct t (s.DependsOn.contains t) (s.DependsOn.all (fun d => isDoneB σ d))] }), none) := by
            show (match initCapOf env t.typ with | none => (((setFields t.typ ((alookup σ.values t.typ).getD Value.invalid) pfl { σ with trace := σ.trace ++ [Event.ranAct t (s.DependsOn.contains t) (s.DependsOn.all (fun d => isDoneB σ d))] }), (none : Option Err)) : PState × Option Err) | some cap2 => (match firstNonNil (cap2.sem (match ((alookup σ.values t.typ).getD Value.invalid) with | Value.ptrv a3 => (setFields t.typ ((alookup σ.values t.typ).getD Value.invalid) pfl { σ with trace := σ.trace ++ [Event.ranAct t (s.DependsOn.contains t) (s.DependsOn.all (fun d => isDoneB σ d))] }).heap.getD a3 Value.invalid | _ => Value.invalid) (readInputs (setFields t.typ ((alookup σ.values t.typ).getD Value.invalid) pfl { σ with trace := σ.trace ++ [Event.ranAct t (s.DependsOn.contains t) (s.DependsOn.all (fun d => isDoneB σ d))] }).values insl)).2 with | some e2 => ({ (setFields t.typ ((alookup σ.values t.typ).getD Value.invalid) pfl { σ with trace := σ.trace ++ [Event.ranAct t (s.DependsOn.contains t) (s.DependsOn.all (fun d => isDoneB σ d))] }) with heap := (match ((alookup σ.values t.typ).getD Value.invalid) with | Value.ptrv a2 => (setFields t.typ ((alookup σ.values t.typ).getD Value.invalid) pfl { σ with trace := σ.trace ++ [Event.ranAct t (s.DependsOn.contains t) (s.DependsOn.all (fun d => isDoneB σ d))] }).heap.set a2 (cap2.sem (match ((alookup σ.values t.typ).getD Value.invalid) with | Value.ptrv a3 => (setFields t.typ ((alookup σ.values t.typ).getD Value.invalid) pfl { σ with trace := σ.trace ++ [Event.ranAct t (s.DependsOn.contains t) (s.DependsOn.all (fun d => isDoneB σ d))] }).heap.getD a3 Value.invalid | _ => Value.invalid) (readInputs (setFields t.typ ((alookup σ.values t.typ).getD Value.invalid) pfl { σ with trace := σ.trace ++ [Event.ranAct t (s.DependsOn.contains t) (s.DependsOn.all (fun d => isDoneB σ d))] }).values insl)).1 | _ => (setFields t.typ ((alookup σ.values t.typ).getD Value.invalid) pfl { σ with trace := σ.trace ++ [Event.ranAct t (s.DependsOn.contains t) (s.DependsOn.all (fun d => isDoneB σ d))] }).heap), trace := (setFields t.typ ((alookup σ.values t.typ).getD Value.invalid) pfl { σ with trace := σ.trace ++ [Event.ranAct t (s.DependsOn.contains t) (s.DependsOn.all (fun d => isDoneB σ d))] }).trace ++ [Event.callInit t.typ] }, some (Err.val e2)) | none => ({ (setFields t.typ ((alookup σ.values t.typ).getD Value.invalid) pfl { σ with trace := σ.trace ++ [Event.ranAct t (s.DependsOn.contains t) (s.DependsOn.all (fun d => isDoneB σ d))] }) with heap := (match ((alookup σ.values t.typ).getD Value.invalid) with | Value.ptrv a2 => (setFields t.typ ((alookup σ.values t.typ).getD Value.invalid) pfl { σ with trace := σ.trace ++ [Event.ranAct t (s.DependsOn.contains t) (s.DependsOn.all (fun d => isDoneB σ d))] }).heap.set a2 (cap2.sem (match ((alookup σ.values t.typ).getD Value.invalid) with | Value.ptrv a3 => (setFields t.typ ((alookup σ.values t.typ).getD Value.invalid) pfl { σ with trace := σ.trace ++ [Event.ranAct t (s.DependsOn.contains t) (s.DependsOn.all (fun d => isDoneB σ d))] }).heap.getD a3 Value.invalid | _ => Value.invalid) (readInputs (setFields t.typ ((alookup σ.values t.typ).getD Value.invalid) pfl { σ with trace := σ.trace ++ [Event.ranAct t (s.DependsOn.contains t) (s.DependsOn.all (fun d => isDoneB σ d))] }).values insl)).1 | _ => (setFields t.typ ((alookup σ.values t.typ).getD Value.invalid) pfl { σ with trace := σ.trace ++ [Event.ranAct t (s.DependsOn.contains t) (s.DependsOn.all (fun d => isDoneB σ d))] }).heap), trace := (setFields t.typ ((alookup σ.values t.typ).getD Value.invalid) pfl { σ with trace := σ.trace ++ [Event.ranAct t (s.DependsOn.contains t) (s.DependsOn.all (fun d => isDoneB σ d))] }).trace ++ [Event.callInit t.typ] }, (none : Option Err)))) = ((setFields t.typ ((alookup σ.values t.typ).getD Value.invalid) pfl { σ with trace := σ.trace ++ [Event.ranAct t (s.DependsOn.contains t) (s.DependsOn.all (fun d => isDoneB σ d))] }), (none : Option Err))
            rw [hcap]
          rw [runBranch2_some_ok env σ t s nd0 _ _ hsdo hra]
          constructor
          · intro σ1 nd1 e h
            simp at h
          · intro σ1 nd1 h
            simp only [Prod.mk.injEq] at h
            obtain ⟨h1, h2, -⟩ := h
            subst h1
            subst h2
            have h1trX : (setFields t.typ ((alookup σ.values t.typ).getD Value.invalid) pfl { σ with trace := σ.trace ++ [Event.ranAct t (s.DependsOn.contains t) (s.DependsOn.all (fun d => isDoneB σ d))] }).trace = { σ with trace := σ.trace ++ [Event.ranAct t (s.DependsOn.contains t) (s.DependsOn.all (fun d => isDoneB σ d))] }.trace ++ (pfl.map (fun f => Event.setFieldE t.typ f.Index)) := hstr
            have hltcX : ∀ r2, countE (pfl.map (fun f => Event.setFieldE t.typ f.Index)) (Event.callCtor r2) = 0 := fun r2 => hz _ (fun T2 i hh => by cases hh)
            have hltsX : ∀ T, countE (pfl.map (fun f => Event.setFieldE t.typ f.Index)) (Event.storeV T) = 0 := fun T => hz _ (fun T2 i hh => by cases hh)
            have hltrX : ∀ u b1 b2, Event.ranAct u b1 b2 ∉ (pfl.map (fun f => Event.setFieldE t.typ f.Index)) := by
              intro u b1 b2 hmem
              rcases List.mem_map.mp hmem with ⟨f, -, hfe⟩
              cases hfe
            have hltiX : countE (pfl.map (fun f => Event.setFieldE t.typ f.Index)) (Event.callInit t.typ) ≤ 1 := by
              rw [hz _ (fun T2 i hh => by cases hh)]
              omega
            have hltioX : ∀ T, T ≠ t.typ → countE (pfl.map (fun f => Event.setFieldE t.typ f.Index)) (Event.callInit T) = 0 := fun T _ => hz _ (fun T2 i hh => by cases hh)
            have hltibX : 1 ≤ countE (pfl.map (fun f => Event.setFieldE t.typ f.Index)) (Event.callInit t.typ) → true = true := fun _ => rfl
            refine hfin (setFields t.typ ((alookup σ.values t.typ).getD Value.invalid) pfl { σ with trace := σ.trace ++ [Event.ranAct t (s.DependsOn.contains t) (s.DependsOn.all (fun d => isDoneB σ d))] }) hst hsr ?_ (fun _ => hsv) ?_
            · intro T v hv
              have h9 : alookup (setFields t.typ ((alookup σ.values t.typ).getD Value.invalid) pfl { σ with trace := σ.trace ++ [Event.ranAct t (s.DependsOn.contains t) (s.DependsOn.all (fun d => isDoneB σ d))] }).values T = some v := by
                rw [hsv]
                exact hv
              exact h9
            · refine completeCommit_InvCore env { σ with trace := σ.trace ++ [Event.ranAct t (s.DependsOn.contains t) (s.DependsOn.all (fun d => isDoneB σ d))] } t s _ (pfl.map (fun f => Event.setFieldE t.typ f.Index)) pfl insl true hinvp hlk hD htC hsdo ?_ ?_ ?_ ?_ ?_ ?_ ?_ ?_ ?_ ?_ ?_
              · -- h1t
                rw [hst]
              · -- h1v
                exact hsv
              · -- h1tr
                exact h1trX
              · -- counts: no constructor events among the appended ones
                intro r2
                exact hltcX r2
              · intro T
                exact hltsX T
              · intro u b1 b2 hmem
                exact hltrX u b1 b2 hmem
              · exact hltiX
              · intro T hTt
                exact hltioX T hTt
              · exact hltibX
              · exact hsl
              · exact hsr
        · -- call the initializer and inspect its returned values
          rcases hfn : firstNonNil (cap.sem (match ((alookup σ.values t.typ).getD Value.invalid) with | Value.ptrv a3 => (setFields t.typ ((alookup σ.values t.typ).getD Value.invalid) pfl { σ with trace := σ.trace ++ [Event.ranAct t (s.DependsOn.contains t) (s.DependsOn.all (fun d => isDoneB σ d))] }).heap.getD a3 Value.invalid | _ => Value.invalid) (readInputs (setFields t.typ ((alookup σ.values t.typ).getD Value.invalid) pfl { σ with trace := σ.trace ++ [Event.ranAct t (s.DependsOn.contains t) (s.DependsOn.all (fun d => isDoneB σ d))] }).values insl)).2 with _ | e
          · -- initializer succeeded
            have hra : runAction env (.autoPtrCompleteDo t.typ pfl insl true) { σ with trace := σ.trace ++ [Event.ranAct t (s.DependsOn.contains t) (s.DependsOn.all (fun d => isDoneB σ d))] }
                = ({ (setFields t.typ ((alookup σ.values t.typ).getD Value.invalid) pfl { σ with trace := σ.trace ++ [Event.ranAct t (s.DependsOn.contains t) (s.DependsOn.all (fun d => isDoneB σ d))] }) with heap := (match ((alookup σ.values t.typ).getD Value.invalid) with | Value.ptrv a2 => (setFields t.typ ((alookup σ.values t.typ).getD Value.invalid) pfl { σ with trace := σ.trace ++ [Event.ranAct t (s.DependsOn.contains t) (s.DependsOn.all (fun d => isDoneB σ d))] }).heap.set a2 (cap.sem (match ((alookup σ.values t.typ).getD Value.invalid) with | Value.ptrv a3 => (setFields t.typ ((alookup σ.values t.typ).getD Value.invalid) pfl { σ with trace := σ.trace ++ [Event.ranAct t (s.DependsOn.contains t) (s.DependsOn.all (fun d => isDoneB σ d))] }).heap.getD a3 Value.invalid | _ => Value.invalid) (readInputs (setFields t.typ ((alookup σ.values t.typ).getD Value.invalid) pfl { σ with trace := σ.trace ++ [Event.ranAct t (s.DependsOn.contains t) (s.DependsOn.all (fun d => isDoneB σ d))] }).values insl)).1 | _ => (setFields t.typ ((alookup σ.values t.typ).getD Value.invalid) pfl { σ with trace := σ.trace ++ [Event.ranAct t (s.DependsOn.contains t) (s.DependsOn.all (fun d => isDoneB σ d))] }).heap), trace := (setFields t.typ ((alookup σ.values t.typ).getD Value.invalid) pfl { σ with trace := σ.trace ++ [Event.ranAct t (s.DependsOn.contains t) (s.DependsOn.all (fun d => isDoneB σ d))] }).trace ++ [Event.callInit t.typ] }, none) := by
              show (match initCapOf env t.typ with | none => (((setFields t.typ ((alookup σ.values t.typ).getD Value.invalid) pfl { σ with trace := σ.trace ++ [Event.ranAct t (s.DependsOn.contains t) (s.DependsOn.all (fun d => isDoneB σ d))] }), (none : Option Err)) : PState × Option Err) | some cap2 => (match firstNonNil (cap2.sem (match ((alookup σ.values t.typ).getD Value.invalid) with | Value.ptrv a3 => (setFields t.typ ((alookup σ.values t.typ).getD Value.invalid) pfl { σ with trace := σ.trace ++ [Event.ranAct t (s.DependsOn.contains t) (s.DependsOn.all (fun d => isDoneB σ d))] }).heap.getD a3 Value.invalid | _ => Value.invalid) (readInputs (setFields t.typ ((alookup σ.values t.typ).getD Value.invalid) pfl { σ with trace := σ.trace ++ [Event.ranAct t (s.DependsOn.contains t) (s.DependsOn.all (fun d => isDoneB σ d))] }).values insl)).2 with | some e2 => ({ (setFields t.typ ((alookup σ.values t.typ).getD Value.invalid) pfl { σ with trace := σ.trace ++ [Event.ranAct t (s.DependsOn.contains t) (s.DependsOn.all (fun d => isDoneB σ d))] }) with heap := (match ((alookup σ.values t.typ).getD Value.invalid) with | Value.ptrv a2 => (setFields t.typ ((alookup σ.values t.typ).getD Value.invalid) pfl { σ with trace := σ.trace ++ [Event.ranAct t (s.DependsOn.contains t) (s.DependsOn.all (fun d => isDoneB σ d))] }).heap.set a2 (cap2.sem (match ((alookup σ.values t.typ).getD Value.invalid) with | Value.ptrv a3 => (setFields t.typ ((alookup σ.values t.typ).getD Value.invalid) pfl { σ with trace := σ.trace ++ [Event.ranAct t (s.DependsOn.contains t) (s.DependsOn.all (fun d => isDoneB σ d))] }).heap.getD a3 Value.invalid | _ => Value.invalid) (readInputs (setFields t.typ ((alookup σ.values t.typ).getD Value.invalid) pfl { σ with trace := σ.trace ++ [Event.ranAct t (s.DependsOn.contains t) (s.DependsOn.all (fun d => isDoneB σ d))] }).values insl)).1 | _ => (setFields t.typ ((alookup σ.values t.typ).getD Value.invalid) pfl { σ with trace := σ.trace ++ [Event.ranAct t (s.DependsOn.contains t) (s.DependsOn.all (fun d => isDoneB σ d))] }).heap), trace := (setFields t.typ ((alookup σ.values t.typ).getD Value.invalid) pfl { σ with trace := σ.trace ++ [Event.ranAct t (s.DependsOn.contains t) (s.DependsOn.all (fun d => isDoneB σ d))] }).trace ++ [Event.callInit t.typ] }, some (Err.val e2)) | none => ({ (setFields t.typ ((alookup σ.values t.typ).getD Value.invalid) pfl { σ with trace := σ.trace ++ [Event.ranAct t (s.DependsOn.contains t) (s.DependsOn.all (fun d => isDoneB σ d))] }) with heap := (match ((alookup σ.values t.typ).getD Value.invalid) with | Value.ptrv a2 => (setFields t.typ ((alookup σ.values t.typ).getD Value.invalid) pfl { σ with trace := σ.trace ++ [Event.ranAct t (s.DependsOn.contains t) (s.DependsOn.all (fun d => isDoneB σ d))] }).heap.set a2 (cap2.sem (match ((alookup σ.values t.typ).getD Value.invalid) with | Value.ptrv a3 => (setFields t.typ ((alookup σ.values t.typ).getD Value.invalid) pfl { σ with trace := σ.trace ++ [Event.ranAct t (s.DependsOn.contains t) (s.DependsOn.all (fun d => isDoneB σ d))] }).heap.getD a3 Value.invalid | _ => Value.invalid) (readInputs (setFields t.typ ((alookup σ.values t.typ).getD Value.invalid) pfl { σ with trace := σ.trace ++ [Event.ranAct t (s.DependsOn.contains t) (s.DependsOn.all (fun d => isDoneB σ d))] }).values insl)).1 | _ => (setFields t.typ ((alookup σ.values t.typ).getD Value.invalid) pfl { σ with trace := σ.trace ++ [Event.ranAct t (s.DependsOn.contains t) (s.DependsOn.all (fun d => isDoneB σ d))] }).heap), trace := (setFields t.typ ((alookup σ.values t.typ).getD Value.invalid) pfl { σ with trace := σ.trace ++ [Event.ranAct t (s.DependsOn.contains t) (s.DependsOn.all (fun d => isDoneB σ d))] }).trace ++ [Event.callInit t.typ] }, (none : Option Err)))) = ({ (setFields t.typ ((alookup σ.values t.typ).getD Value.invalid) pfl { σ with trace := σ.trace ++ [Event.ranAct t (s.DependsOn.contains t) (s.DependsOn.all (fun d => isDoneB σ d))] }) with heap := (match ((alookup σ.values t.typ).getD Value.invalid) with | Value.ptrv a2 => (setFields t.typ ((alookup σ.values t.typ).getD Value.invalid) pfl { σ with trace := σ.trace ++ [Event.ranAct t (s.DependsOn.contains t) (s.DependsOn.all (fun d => isDoneB σ d))] }).heap.set a2 (cap.sem (match ((alookup σ.values t.typ).getD Value.invalid) with | Value.ptrv a3 => (setFields t.typ ((alookup σ.values t.typ).getD Value.invalid) pfl { σ with trace := σ.trace ++ [Event.ranAct t (s.DependsOn.contains t) (s.DependsOn.all (fun d => isDoneB σ d))] }).heap.getD a3 Value.invalid | _ => Value.invalid) (readInputs (setFields t.typ ((alookup σ.values t.typ).getD Value.invalid) pfl { σ with trace := σ.trace ++ [Event.ranAct t (s.DependsOn.contains t) (s.DependsOn.all (fun d => isDoneB σ d))] }).values insl)).1 | _ => (setFields t.typ ((alookup σ.values t.typ).getD Value.invalid) pfl { σ with trace := σ.trace ++ [Event.ranAct t (s.DependsOn.contains t) (s.DependsOn.all (fun d => isDoneB σ d))] }).heap), trace := (setFields t.typ ((alookup σ.values t.typ).getD Value.invalid) pfl { σ with trace := σ.trace ++ [Event.ranAct t (s.DependsOn.contains t) (s.DependsOn.all (fun d => isDoneB σ d))] }).trace ++ [Event.callInit t.typ] }, (none : Option Err))
              rw [hcap]
              show (match firstNonNil (cap.sem (match ((alookup σ.values t.typ).getD Value.invalid) with | Value.ptrv a3 => (setFields t.typ ((alookup σ.values t.typ).getD Value.invalid) pfl { σ with trace := σ.trace ++ [Event.ranAct t (s.DependsOn.contains t) (s.DependsOn.all (fun d => isDoneB σ d))] }).heap.getD a3 Value.invalid | _ => Value.invalid) (readInputs (setFields t.typ ((alookup σ.values t.typ).getD Value.invalid) pfl { σ with trace := σ.trace ++ [Event.ranAct t (s.DependsOn.contains t) (s.DependsOn.all (fun d => isDoneB σ d))] }).values insl)).2 with | some e2 => ({ (setFields t.typ ((alookup σ.values t.typ).getD Value.invalid) pfl { σ with trace := σ.trace ++ [Event.ranAct t (s.DependsOn.contains t) (s.DependsOn.all (fun d => isDoneB σ d))] }) with heap := (match ((alookup σ.values t.typ).getD Value.invalid) with | Value.ptrv a2 => (setFields t.typ ((alookup σ.values t.typ).getD Value.invalid) pfl { σ with trace := σ.trace ++ [Event.ranAct t (s.DependsOn.contains t) (s.DependsOn.all (fun d => isDoneB σ d))] }).heap.set a2 (cap.sem (match ((alookup σ.values t.typ).getD Value.invalid) with | Value.ptrv a3 => (setFields t.typ ((alookup σ.values t.typ).getD Value.invalid) pfl { σ with trace := σ.trace ++ [Event.ranAct t (s.DependsOn.contains t) (s.DependsOn.all (fun d => isDoneB σ d))] }).heap.getD a3 Value.invalid | _ => Value.invalid) (readInputs (setFields t.typ ((alookup σ.values t.typ).getD Value.invalid) pfl { σ with trace := σ.trace ++ [Event.ranAct t (s.DependsOn.contains t) (s.DependsOn.all (fun d => isDoneB σ d))] }).values insl)).1 | _ => (setFields t.typ ((alookup σ.values t.typ).getD Value.invalid) pfl { σ with trace := σ.trace ++ [Event.ranAct t (s.DependsOn.contains t) (s.DependsOn.all (fun d => isDoneB σ d))] }).heap), trace := (setFields t.typ ((alookup σ.values t.typ).getD Value.invalid) pfl { σ with trace := σ.trace ++ [Event.ranAct t (s.DependsOn.contains t) (s.DependsOn.all (fun d => isDoneB σ d))] }).trace ++ [Event.callInit t.typ] }, some (Err.val e2)) | none => ({ (setFields t.typ ((alookup σ.values t.typ).getD Value.invalid) pfl { σ with trace := σ.trace ++ [Event.ranAct t (s.DependsOn.contains t) (s.DependsOn.all (fun d => isDoneB σ d))] }) with heap := (match ((alookup σ.values t.typ).getD Value.invalid) with | Value.ptrv a2 => (setFields t.typ ((alookup σ.values t.typ).getD Value.invalid) pfl { σ with trace := σ.trace ++ [Event.ranAct t (s.DependsOn.contains t) (s.DependsOn.all (fun d => isDoneB σ d))] }).heap.set a2 (cap.sem (match ((alookup σ.values t.typ).getD Value.invalid) with | Value.ptrv a3 => (setFields t.typ ((alookup σ.values t.typ).getD Value.invalid) pfl { σ with trace := σ.trace ++ [Event.ranAct t (s.DependsOn.contains t) (s.DependsOn.all (fun d => isDoneB σ d))] }).heap.getD a3 Value.invalid | _ => Value.invalid) (readInputs (setFields t.typ ((alookup σ.values t.typ).getD Value.invalid) pfl { σ with trace := σ.trace ++ [Event.ranAct t (s.DependsOn.contains t) (s.DependsOn.all (fun d => isDoneB σ d))] }).values insl)).1 | _ => (setFields t.typ ((alookup σ.values t.typ).getD Value.invalid) pfl { σ with trace := σ.trace ++ [Event.ranAct t (s.DependsOn.contains t) (s.DependsOn.all (fun d => isDoneB σ d))] }).heap), trace := (setFields t.typ ((alookup σ.values t.typ).getD Value.invalid) pfl { σ with trace := σ.trace ++ [Event.ranAct t (s.DependsOn.contains t) (s.DependsOn.all (fun d => isDoneB σ d))] }).trace ++ [Event.callInit t.typ] }, (none : Option Err))) = ({ (setFields t.typ ((alookup σ.values t.typ).getD Value.invalid) pfl { σ with trace := σ.trace ++ [Event.ranAct t (s.DependsOn.contains t) (s.DependsOn.all (fun d => isDoneB σ d))] }) with heap := (match ((alookup σ.values t.typ).getD Value.invalid) with | Value.ptrv a2 => (setFields t.typ ((alookup σ.values t.typ).getD Value.invalid) pfl { σ with trace := σ.trace ++ [Event.ranAct t (s.DependsOn.contains t) (s.DependsOn.all (fun d => isDoneB σ d))] }).heap.set a2 (cap.sem (match ((alookup σ.values t.typ).getD Value.invalid) with | Value.ptrv a3 => (setFields t.typ ((alookup σ.values t.typ).getD Value.invalid) pfl { σ with trace := σ.trace ++ [Event.ranAct t (s.DependsOn.contains t) (s.DependsOn.all (fun d => isDoneB σ d))] }).heap.getD a3 Value.invalid | _ => Value.invalid) (readInputs (setFields t.typ ((alookup σ.values t.typ).getD Value.invalid) pfl { σ with trace := σ.trace ++ [Event.ranAct t (s.DependsOn.contains t) (s.DependsOn.all (fun d => isDoneB σ d))] }).values insl)).1 | _ => (setFields t.typ ((alookup σ.values t.typ).getD Value.invalid) pfl { σ with trace := σ.trace ++ [Event.ranAct t (s.DependsOn.contains t) (s.DependsOn.all (fun d => isDoneB σ d))] }).heap), trace := (setFields t.typ ((alookup σ.values t.typ).getD Value.invalid) pfl { σ with trace := σ.trace ++ [Event.ranAct t (s.DependsOn.contains t) (s.DependsOn.all (fun d => isDoneB σ d))] }).trace ++ [Event.callInit t.typ] }, (none : Option Err))
              rw [hfn]
            rw [runBranch2_some_ok env σ t s nd0 _ _ hsdo hra]
            constructor
            · intro σ1 nd1 e h
              simp at h
            · intro σ1 nd1 h
              simp only [Prod.mk.injEq] at h
              obtain ⟨h1, h2, -⟩ := h
              subst h1
              subst h2
              have h1trX : { (setFields t.typ ((alookup σ.values t.typ).getD Value.invalid) pfl { σ with trace := σ.trace ++ [Event.ranAct t (s.DependsOn.contains t) (s.DependsOn.all (fun d => isDoneB σ d))] }) with heap := (match ((alookup σ.values t.typ).getD Value.invalid) with | Value.ptrv a2 => (setFields t.typ ((alookup σ.values t.typ).getD Value.invalid) pfl { σ with trace := σ.trace ++ [Event.ranAct t (s.DependsOn.contains t) (s.DependsOn.all (fun d => isDoneB σ d))] }).heap.set a2 (cap.sem (match ((alookup σ.values t.typ).getD Value.invalid) with | Value.ptrv a3 => (setFields t.typ ((alookup σ.values t.typ).getD Value.invalid) pfl { σ with trace := σ.trace ++ [Event.ranAct t (s.DependsOn.contains t) (s.DependsOn.all (fun d => isDoneB σ d))] }).heap.getD a3 Value.invalid | _ => Value.invalid) (readInputs (setFields t.typ ((alookup σ.values t.typ).getD Value.invalid) pfl { σ with trace := σ.trace ++ [Event.ranAct t (s.DependsOn.contains t) (s.DependsOn.all (fun d => isDoneB σ d))] }).values insl)).1 | _ => (setFields t.typ ((alookup σ.values t.typ).getD Value.invalid) pfl { σ with trace := σ.trace ++ [Event.ranAct t (s.DependsOn.contains t) (s.DependsOn.all (fun d => isDoneB σ d))] }).heap), trace := (setFields t.typ ((alookup σ.values t.typ).getD Value.invalid) pfl { σ with trace := σ.trace ++ [Event.ranAct t (s.DependsOn.contains t) (s.DependsOn.all (fun d => isDoneB σ d))] }).trace ++ [Event.callInit t.typ] }.trace = { σ with trace := σ.trace ++ [Event.ranAct t (s.DependsOn.contains t) (s.DependsOn.all (fun d => isDoneB σ d))] }.trace ++ ((pfl.map (fun f => Event.setFieldE t.typ f.Index)) ++ [Event.callInit t.typ]) := by
                show (setFields t.typ ((alookup σ.values t.typ).getD Value.invalid) pfl { σ with trace := σ.trace ++ [Event.ranAct t (s.DependsOn.contains t) (s.DependsOn.all (fun d => isDoneB σ d))] }).trace ++ [Event.callInit t.typ] = _
                rw [hstr, List.append_assoc]
              have hltcX : ∀ r2, countE ((pfl.map (fun f => Event.setFieldE t.typ f.Index)) ++ [Event.callInit t.typ]) (Event.callCtor r2) = 0 := by
                intro r2
                rw [countE_append, hz _ (fun T2 i hh => by cases hh), countE_single_ne _ _ (by intro hh; cases hh)]
              have hltsX : ∀ T, countE ((pfl.map (fun f => Event.setFieldE t.typ f.Index)) ++ [Event.callInit t.typ]) (Event.storeV T) = 0 := by
                intro T
                rw [countE_append, hz _ (fun T2 i hh => by cases hh), countE_single_ne _ _ (by intro hh; cases hh)]
              have hltrX : ∀ u b1 b2, Event.ranAct u b1 b2 ∉ ((pfl.map (fun f => Event.setFieldE t.typ f.Index)) ++ [Event.callInit t.typ]) := by
                intro u b1 b2 hmem
                rcases List.mem_append.mp hmem with h1 | h1
                · rcases List.mem_map.mp h1 with ⟨f, -, hfe⟩
                  cases hfe
                · simp only [List.mem_singleton] at h1
                  cases h1
              have hltiX : countE ((pfl.map (fun f => Event.setFieldE t.typ f.Index)) ++ [Event.callInit t.typ]) (Event.callInit t.typ) ≤ 1 := by
                rw [countE_append, hz _ (fun T2 i hh => by cases hh), countE_single, if_pos rfl]
              have hltioX : ∀ T, T ≠ t.typ → countE ((pfl.map (fun f => Event.setFieldE t.typ f.Index)) ++ [Event.callInit t.typ]) (Event.callInit T) = 0 := by
                intro T hTt
                rw [countE_append, hz _ (fun T2 i hh => by cases hh), countE_single_ne _ _
                  (by intro hh; injection hh with hh; exact hTt hh.symm)]
              have hltibX : 1 ≤ countE ((pfl.map (fun f => Event.setFieldE t.typ f.Index)) ++ [Event.callInit t.typ]) (Event.callInit t.typ) → true = true := fun _ => rfl
              refine hfin { (setFields t.typ ((alookup σ.values t.typ).getD Value.invalid) pfl { σ with trace := σ.trace ++ [Event.ranAct t (s.DependsOn.contains t) (s.DependsOn.all (fun d => isDoneB σ d))] }) with heap := (match ((alookup σ.values t.typ).getD Value.invalid) with | Value.ptrv a2 => (setFields t.typ ((alookup σ.values t.typ).getD Value.invalid) pfl { σ with trace := σ.trace ++ [Event.ranAct t (s.DependsOn.contains t) (s.DependsOn.all (fun d => isDoneB σ d))] }).heap.set a2 (cap.sem (match ((alookup σ.values t.typ).getD Value.invalid) with | Value.ptrv a3 => (setFields t.typ ((alookup σ.values t.typ).getD Value.invalid) pfl { σ with trace := σ.trace ++ [Event.ranAct t (s.DependsOn.contains t) (s.DependsOn.all (fun d => isDoneB σ d))] }).heap.getD a3 Value.invalid | _ => Value.invalid) (readInputs (setFields t.typ ((alookup σ.values t.typ).getD Value.invalid) pfl { σ with trace := σ.trace ++ [Event.ranAct t (s.DependsOn.contains t) (s.DependsOn.all (fun d => isDoneB σ d))] }).values insl)).1 | _ => (setFields t.typ ((alookup σ.values t.typ).getD Value.invalid) pfl { σ with trace := σ.trace ++ [Event.ranAct t (s.DependsOn.contains t) (s.DependsOn.all (fun d => isDoneB σ d))] }).heap), trace := (setFields t.typ ((alookup σ.values t.typ).getD Value.invalid) pfl { σ with trace := σ.trace ++ [Event.ranAct t (s.DependsOn.contains t) (s.DependsOn.all (fun d => isDoneB σ d))] }).trace ++ [Event.callInit t.typ] } hst hsr ?_ (fun _ => hsv) ?_
              · intro T v hv
                have h9 : alookup (setFields t.typ ((alookup σ.values t.typ).getD Value.invalid) pfl { σ with trace := σ.trace ++ [Event.ranAct t (s.DependsOn.contains t) (s.DependsOn.all (fun d => isDoneB σ d))] }).values T = some v := by
                  rw [hsv]
                  exact hv
                exact h9
              · refine completeCommit_InvCore env { σ with trace := σ.trace ++ [Event.ranAct t (s.DependsOn.contains t) (s.DependsOn.all (fun d => isDoneB σ d))] } t s _ ((pfl.map (fun f => Event.setFieldE t.typ f.Index)) ++ [Event.callInit t.typ]) pfl insl true hinvp hlk hD htC hsdo ?_ ?_ ?_ ?_ ?_ ?_ ?_ ?_ ?_ ?_ ?_
                · -- h1t
                  rw [hst]
                · -- h1v
                  exact hsv
                · -- h1tr
                  exact h1trX
                · -- counts: no constructor events among the appended ones
                  intro r2
                  exact hltcX r2
                · intro T
                  exact hltsX T
                · intro u b1 b2 hmem
                  exact hltrX u b1 b2 hmem
                · exact hltiX
                · intro T hTt
                  exact hltioX T hTt
                · exact hltibX
                · exact hsl
                · exact hsr
          · -- initializer returned a non-nil error value
            have hra : runAction env (.autoPtrCompleteDo t.typ pfl insl true) { σ with trace := σ.trace ++ [Event.ranAct t (s.DependsOn.contains t) (s.DependsOn.all (fun d => isDoneB σ d))] }
                = ({ (setFields t.typ ((alookup σ.values t.typ).getD Value.invalid) pfl { σ with trace := σ.trace ++ [Event.ranAct t (s.DependsOn.contains t) (s.DependsOn.all (fun d => isDoneB σ d))] }) with heap := (match ((alookup σ.values t.typ).getD Value.invalid) with | Value.ptrv a2 => (setFields t.typ ((alookup σ.values t.typ).getD Value.invalid) pfl { σ with trace := σ.trace ++ [Event.ranAct t (s.DependsOn.contains t) (s.DependsOn.all (fun d => isDoneB σ d))] }).heap.set a2 (cap.sem (match ((alookup σ.values t.typ).getD Value.invalid) with | Value.ptrv a3 => (setFields t.typ ((alookup σ.values t.typ).getD Value.invalid) pfl { σ with trace := σ.trace ++ [Event.ranAct t (s.DependsOn.contains t) (s.DependsOn.all (fun d => isDoneB σ d))] }).heap.getD a3 Value.invalid | _ => Value.invalid) (readInputs (setFields t.typ ((alookup σ.values t.typ).getD Value.invalid) pfl { σ with trace := σ.trace ++ [Event.ranAct t (s.DependsOn.contains t) (s.DependsOn.all (fun d => isDoneB σ d))] }).values insl)).1 | _ => (setFields t.typ ((alookup σ.values t.typ).getD Value.invalid) pfl { σ with trace := σ.trace ++ [Event.ranAct t (s.DependsOn.contains t) (s.DependsOn.all (fun d => isDoneB σ d))] }).heap), trace := (setFields t.typ ((alookup σ.values t.typ).getD Value.invalid) pfl { σ with trace := σ.trace ++ [Event.ranAct t (s.DependsOn.contains t) (s.DependsOn.all (fun d => isDoneB σ d))] }).trace ++ [Event.callInit t.typ] }, some (Err.val e)) := by
              show (match initCapOf env t.typ with | none => (((setFields t.typ ((alookup σ.values t.typ).getD Value.invalid) pfl { σ with trace := σ.trace ++ [Event.ranAct t (s.DependsOn.contains t) (s.DependsOn.all (fun d => isDoneB σ d))] }), (none : Option Err)) : PState × Option Err) | some cap2 => (match firstNonNil (cap2.sem (match ((alookup σ.values t.typ).getD Value.invalid) with | Value.ptrv a3 => (setFields t.typ ((alookup σ.values t.typ).getD Value.invalid) pfl { σ with trace := σ.trace ++ [Event.ranAct t (s.DependsOn.contains t) (s.DependsOn.all (fun d => isDoneB σ d))] }).heap.getD a3 Value.invalid | _ => Value.invalid) (readInputs (setFields t.typ ((alookup σ.values t.typ).getD Value.invalid) pfl { σ with trace := σ.trace ++ [Event.ranAct t (s.DependsOn.contains t) (s.DependsOn.all (fun d => isDoneB σ d))] }).values insl)).2 with | some e2 => ({ (setFields t.typ ((alookup σ.values t.typ).getD Value.invalid) pfl { σ with trace := σ.trace ++ [Event.ranAct t (s.DependsOn.contains t) (s.DependsOn.all (fun d => isDoneB σ d))] }) with heap := (match ((alookup σ.values t.typ).getD Value.invalid) with | Value.ptrv a2 => (setFields t.typ ((alookup σ.values t.typ).getD Value.invalid) pfl { σ with trace := σ.trace ++ [Event.ranAct t (s.DependsOn.contains t) (s.DependsOn.all (fun d => isDoneB σ d))] }).heap.set a2 (cap2.sem (match ((alookup σ.values t.typ).getD Value.invalid) with | Value.ptrv a3 => (setFields t.typ ((alookup σ.values t.typ).getD Value.invalid) pfl { σ with trace := σ.trace ++ [Event.ranAct t (s.DependsOn.contains t) (s.DependsOn.all (fun d => isDoneB σ d))] }).heap.getD a3 Value.invalid | _ => Value.invalid) (readInputs (setFields t.typ ((alookup σ.values t.typ).getD Value.invalid) pfl { σ with trace := σ.trace ++ [Event.ranAct t (s.DependsOn.contains t) (s.DependsOn.all (fun d => isDoneB σ d))] }).values insl)).1 | _ => (setFields t.typ ((alookup σ.values t.typ).getD Value.invalid) pfl { σ with trace := σ.trace ++ [Event.ranAct t (s.DependsOn.contains t) (s.DependsOn.all (fun d => isDoneB σ d))] }).heap), trace := (setFields t.typ ((alookup σ.values t.typ).getD Value.invalid) pfl { σ with trace := σ.trace ++ [Event.ranAct t (s.DependsOn.contains t) (s.DependsOn.all (fun d => isDoneB σ d))] }).trace ++ [Event.callInit t.typ] }, some (Err.val e2)) | none => ({ (setFields t.typ ((alookup σ.values t.typ).getD Value.invalid) pfl { σ with trace := σ.trace ++ [Event.ranAct t (s.DependsOn.contains t) (s.DependsOn.all (fun d => isDoneB σ d))] }) with heap := (match ((alookup σ.values t.typ).getD Value.invalid) with | Value.ptrv a2 => (setFields t.typ ((alookup σ.values t.typ).getD Value.invalid) pfl { σ with trace := σ.trace ++ [Event.ranAct t (s.DependsOn.contains t) (s.DependsOn.all (fun d => isDoneB σ d))] }).heap.set a2 (cap2.sem (match ((alookup σ.values t.typ).getD Value.invalid) with | Value.ptrv a3 => (setFields t.typ ((alookup σ.values t.typ).getD Value.invalid) pfl { σ with trace := σ.trace ++ [Event.ranAct t (s.DependsOn.contains t) (s.DependsOn.all (fun d => isDoneB σ d))] }).heap.getD a3 Value.invalid | _ => Value.invalid) (readInputs (setFields t.typ ((alookup σ.values t.typ).getD Value.invalid) pfl { σ with trace := σ.trace ++ [Event.ranAct t (s.DependsOn.contains t) (s.DependsOn.all (fun d => isDoneB σ d))] }).values insl)).1 | _ => (setFields t.typ ((alookup σ.values t.typ).getD Value.invalid) pfl { σ with trace := σ.trace ++ [Event.ranAct t (s.DependsOn.contains t) (s.DependsOn.all (fun d => isDoneB σ d))] }).heap), trace := (setFields t.typ ((alookup σ.values t.typ).getD Value.invalid) pfl { σ with trace := σ.trace ++ [Event.ranAct t (s.DependsOn.contains t) (s.DependsOn.all (fun d => isDoneB σ d))] }).trace ++ [Event.callInit t.typ] }, (none : Option Err)))) = ({ (setFields t.typ ((alookup σ.values t.typ).getD Value.invalid) pfl { σ with trace := σ.trace ++ [Event.ranAct t (s.DependsOn.contains t) (s.DependsOn.all (fun d => isDoneB σ d))] }) with heap := (match ((alookup σ.values t.typ).getD Value.invalid) with | Value.ptrv a2 => (setFields t.typ ((alookup σ.values t.typ).getD Value.invalid) pfl { σ with trace := σ.trace ++ [Event.ranAct t (s.DependsOn.contains t) (s.DependsOn.all (fun d => isDoneB σ d))] }).heap.set a2 (cap.sem (match ((alookup σ.values t.typ).getD Value.invalid) with | Value.ptrv a3 => (setFields t.typ ((alookup σ.values t.typ).getD Value.invalid) pfl { σ with trace := σ.trace ++ [Event.ranAct t (s.DependsOn.contains t) (s.DependsOn.all (fun d => isDoneB σ d))] }).heap.getD a3 Value.invalid | _ => Value.invalid) (readInputs (setFields t.typ ((alookup σ.values t.typ).getD Value.invalid) pfl { σ with trace := σ.trace ++ [Event.ranAct t (s.DependsOn.contains t) (s.DependsOn.all (fun d => isDoneB σ d))] }).values insl)).1 | _ => (setFields t.typ ((alookup σ.values t.typ).getD Value.invalid) pfl { σ with trace := σ.trace ++ [Event.ranAct t (s.DependsOn.contains t) (s.DependsOn.all (fun d => isDoneB σ d))] }).heap), trace := (setFields t.typ ((alookup σ.values t.typ).getD Value.invalid) pfl { σ with trace := σ.trace ++ [Event.ranAct t (s.DependsOn.contains t) (s.DependsOn.all (fun d => isDoneB σ d))] }).trace ++ [Event.callInit t.typ] }, some (Err.val e))
              rw [hcap]
              show (match firstNonNil (cap.sem (match ((alookup σ.values t.typ).getD Value.invalid) with | Value.ptrv a3 => (setFields t.typ ((alookup σ.values t.typ).getD Value.invalid) pfl { σ with trace := σ.trace ++ [Event.ranAct t (s.DependsOn.contains t) (s.DependsOn.all (fun d => isDoneB σ d))] }).heap.getD a3 Value.invalid | _ => Value.invalid) (readInputs (setFields t.typ ((alookup σ.values t.typ).getD Value.invalid) pfl { σ with trace := σ.trace ++ [Event.ranAct t (s.DependsOn.contains t) (s.DependsOn.all (fun d => isDoneB σ d))] }).values insl)).2 with | some e2 => ({ (setFields t.typ ((alookup σ.values t.typ).getD Value.invalid) pfl { σ with trace := σ.trace ++ [Event.ranAct t (s.DependsOn.contains t) (s.DependsOn.all (fun d => isDoneB σ d))] }) with heap := (match ((alookup σ.values t.typ).getD Value.invalid) with | Value.ptrv a2 => (setFields t.typ ((alookup σ.values t.typ).getD Value.invalid) pfl { σ with trace := σ.trace ++ [Event.ranAct t (s.DependsOn.contains t) (s.DependsOn.all (fun d => isDoneB σ d))] }).heap.set a2 (cap.sem (match ((alookup σ.values t.typ).getD Value.invalid) with | Value.ptrv a3 => (setFields t.typ ((alookup σ.values t.typ).getD Value.invalid) pfl { σ with trace := σ.trace ++ [Event.ranAct t (s.DependsOn.contains t) (s.DependsOn.all (fun d => isDoneB σ d))] }).heap.getD a3 Value.invalid | _ => Value.invalid) (readInputs (setFields t.typ ((alookup σ.values t.typ).getD Value.invalid) pfl { σ with trace := σ.trace ++ [Event.ranAct t (s.DependsOn.contains t) (s.DependsOn.all (fun d => isDoneB σ d))] }).values insl)).1 | _ => (setFields t.typ ((alookup σ.values t.typ).getD Value.invalid) pfl { σ with trace := σ.trace ++ [Event.ranAct t (s.DependsOn.contains t) (s.DependsOn.all (fun d => isDoneB σ d))] }).heap), trace := (setFields t.typ ((alookup σ.values t.typ).getD Value.invalid) pfl { σ with trace := σ.trace ++ [Event.ranAct t (s.DependsOn.contains t) (s.DependsOn.all (fun d => isDoneB σ d))] }).trace ++ [Event.callInit t.typ] }, some (Err.val e2)) | none => ({ (setFields t.typ ((alookup σ.values t.typ).getD Value.invalid) pfl { σ with trace := σ.trace ++ [Event.ranAct t (s.DependsOn.contains t) (s.DependsOn.all (fun d => isDoneB σ d))] }) with heap := (match ((alookup σ.values t.typ).getD Value.invalid) with | Value.ptrv a2 => (setFields t.typ ((alookup σ.values t.typ).getD Value.invalid) pfl { σ with trace := σ.trace ++ [Event.ranAct t (s.DependsOn.contains t) (s.DependsOn.all (fun d => isDoneB σ d))] }).heap.set a2 (cap.sem (match ((alookup σ.values t.typ).getD Value.invalid) with | Value.ptrv a3 => (setFields t.typ ((alookup σ.values t.typ).getD Value.invalid) pfl { σ with trace := σ.trace ++ [Event.ranAct t (s.DependsOn.contains t) (s.DependsOn.all (fun d => isDoneB σ d))] }).heap.getD a3 Value.invalid | _ => Value.invalid) (readInputs (setFields t.typ ((alookup σ.values t.typ).getD Value.invalid) pfl { σ with trace := σ.trace ++ [Event.ranAct t (s.DependsOn.contains t) (s.DependsOn.all (fun d => isDoneB σ d))] }).values insl)).1 | _ => (setFields t.typ ((alookup σ.values t.typ).getD Value.invalid) pfl { σ with trace := σ.trace ++ [Event.ranAct t (s.DependsOn.contains t) (s.DependsOn.all (fun d => isDoneB σ d))] }).heap), trace := (setFields t.typ ((alookup σ.values t.typ).getD Value.invalid) pfl { σ with trace := σ.trace ++ [Event.ranAct t (s.DependsOn.contains t) (s.DependsOn.all (fun d => isDoneB σ d))] }).trace ++ [Event.callInit t.typ] }, (none : Option Err))) = ({ (setFields t.typ ((alookup σ.values t.typ).getD Value.invalid) pfl { σ with trace := σ.trace ++ [Event.ranAct t (s.DependsOn.contains t) (s.DependsOn.all (fun d => isDoneB σ d))] }) with heap := (match ((alookup σ.values t.typ).getD Value.invalid) with | Value.ptrv a2 => (setFields t.typ ((alookup σ.values t.typ).getD Value.invalid) pfl { σ with trace := σ.trace ++ [Event.ranAct t (s.DependsOn.contains t) (s.DependsOn.all (fun d => isDoneB σ d))] }).heap.set a2 (cap.sem (match ((alookup σ.values t.typ).getD Value.invalid) with | Value.ptrv a3 => (setFields t.typ ((alookup σ.values t.typ).getD Value.invalid) pfl { σ with trace := σ.trace ++ [Event.ranAct t (s.DependsOn.contains t) (s.DependsOn.all (fun d => isDoneB σ d))] }).heap.getD a3 Value.invalid | _ => Value.invalid) (readInputs (setFields t.typ ((alookup σ.values t.typ).getD Value.invalid) pfl { σ with trace := σ.trace ++ [Event.ranAct t (s.DependsOn.contains t) (s.DependsOn.all (fun d => isDoneB σ d))] }).values insl)).1 | _ => (setFields t.typ ((alookup σ.values t.typ).getD Value.invalid) pfl { σ with trace := σ.trace ++ [Event.ranAct t (s.DependsOn.contains t) (s.DependsOn.all (fun d => isDoneB σ d))] }).heap), trace := (setFields t.typ ((alookup σ.values t.typ).getD Value.invalid) pfl { σ with trace := σ.trace ++ [Event.ranAct t (s.DependsOn.contains t) (s.DependsOn.all (fun d => isDoneB σ d))] }).trace ++ [Event.callInit t.typ] }, some (Err.val e))
              rw [hfn]
            rw [runBranch2_some_err env σ t s nd0 _ _ _ hsdo hra]
            constructor
            · intro σ1 nd1 e2 h
              simp only [Prod.mk.injEq] at h
              obtain ⟨h1, -, h3⟩ := h
              injection h3 with h3
              subst h1
              subst h3
              have htrc : { (setFields t.typ ((alookup σ.values t.typ).getD Value.invalid) pfl { σ with trace := σ.trace ++ [Event.ranAct t (s.DependsOn.contains t) (s.DependsOn.all (fun d => isDoneB σ d))] }) with heap := (match ((alookup σ.values t.typ).getD Value.invalid) with | Value.ptrv a2 => (setFields t.typ ((alookup σ.values t.typ).getD Value.invalid) pfl { σ with trace := σ.trace ++ [Event.ranAct t (s.DependsOn.contains t) (s.DependsOn.all (fun d => isDoneB σ d))] }).heap.set a2 (cap.sem (match ((alookup σ.values t.typ).getD Value.invalid) with | Value.ptrv a3 => (setFields t.typ ((alookup σ.values t.typ).getD Value.invalid) pfl { σ with trace := σ.trace ++ [Event.ranAct t (s.DependsOn.contains t) (s.DependsOn.all (fun d => isDoneB σ d))] }).heap.getD a3 Value.invalid | _ => Value.invalid) (readInputs (setFields t.typ ((alookup σ.values t.typ).getD Value.invalid) pfl { σ with trace := σ.trace ++ [Event.ranAct t (s.DependsOn.contains t) (s.DependsOn.all (fun d => isDoneB σ d))] }).values insl)).1 | _ => (setFields t.typ ((alookup σ.values t.typ).getD Value.invalid) pfl { σ with trace := σ.trace ++ [Event.ranAct t (s.DependsOn.contains t) (s.DependsOn.all (fun d => isDoneB σ d))] }).heap), trace := (setFields t.typ ((alookup σ.values t.typ).getD Value.invalid) pfl { σ with trace := σ.trace ++ [Event.ranAct t (s.DependsOn.contains t) (s.DependsOn.all (fun d => isDoneB σ d))] }).trace ++ [Event.callInit t.typ] }.trace = (({ σ with trace := σ.trace ++ [Event.ranAct t (s.DependsOn.contains t) (s.DependsOn.all (fun d => isDoneB σ d))] }.trace ++ (pfl.map (fun f => Event.setFieldE t.typ f.Index))) ++ [Event.callInit t.typ]) := by
                show (setFields t.typ ((alookup σ.values t.typ).getD Value.invalid) pfl { σ with trace := σ.trace ++ [Event.ranAct t (s.DependsOn.contains t) (s.DependsOn.all (fun d => isDoneB σ d))] }).trace ++ [Event.callInit t.typ] = _
                rw [hstr]
              constructor
              · refine ⟨?_, ?_, ?_, ?_⟩
                · intro r2
                  rw [htrc, countE_append, countE_append, countE_append, hz _ (fun T2 i hh => by cases hh),
                    countE_single_ne _ _ (by intro hh; cases hh),
                    countE_single_ne _ _ (by intro hh; cases hh)]
                  have h0 := (InvCore_WTr env σ hinv).1 r2
                  omega
                · intro T
                  rw [htrc, countE_append, countE_append, countE_append, hz _ (fun T2 i hh => by cases hh),
                    countE_single_ne _ _ (by intro hh; cases hh),
                    countE_single_ne _ _ (by intro hh; cases hh)]
                  have h0 := (InvCore_WTr env σ hinv).2.1 T
                  omega
                · intro T
                  by_cases hTt : T = t.typ
                  · subst hTt
                    have hpi1 : pendingInit σ t.typ = 1 := by
                      unfold pendingInit
                      rw [hkeyT, hlk]
                      simp [hD, hsdo]
                    have h0 := hinv.ci t.typ
                    rw [hpi1] at h0
                    rw [htrc, countE_append, countE_append, countE_append, hz _ (fun T2 i hh => by cases hh),
                      countE_single_ne _ _ (by intro hh; cases hh), countE_single, if_pos rfl]
                    omega
                  · rw [htrc, countE_append, countE_append, countE_append, hz _ (fun T2 i hh => by cases hh),
                      countE_single_ne _ _ (by intro hh; cases hh),
                      countE_single_ne _ _ (by intro hh; injection hh with hh; exact hTt hh.symm)]
                    have h0 := (InvCore_WTr env σ hinv).2.2.1 T
                    omega
                · intro u hmem
                  rw [htrc] at hmem
                  rcases List.mem_append.mp hmem with h1 | h1
                  · rcases List.mem_append.mp h1 with h2 | h2
                    · rcases List.mem_append.mp h2 with h3 | h3
                      · exact hinv.ranOk u h3
                      · simp only [List.mem_singleton] at h3
                        injection h3 with hu1 hu2 hu3
                        rcases hok with hk | hk
                        · rw [hk] at hu2
                          cases hu2
                        · rw [hk] at hu3
                          cases hu3
                    · rcases List.mem_map.mp h2 with ⟨f, -, hfe⟩
                      cases hfe
                  · simp only [List.mem_singleton] at h1
                    cases h1
              · exact errval_ne_msg e snhMsg
            · intro σ1 nd1 h
              simp at h
    · -- autoDerefPartialDo
      have htC : t.Complete = false := by
        rcases hc : t.Complete
        · rfl
        · exfalso
          have hkey : task.mk t.typ true = t := by rw [← hc]
          rcases hinv.ownC t.typ s (by rw [hkey]; exact hlk) with hd | ⟨pfl2, insl2, b2, hd⟩
          · rw [hsdo] at hd
            cases hd
          · rw [hsdo] at hd
            injection hd with hd
            cases hd
      have hkeyF : task.mk t.typ false = t := by rw [← htC]
      have htyp : typ = t.typ := by
        rcases hinv.ownP t.typ s (by rw [hkeyF]; exact hlk) with hd | hd | hd | ⟨r2, rule2, hd, -, -⟩
        · rw [hsdo] at hd
          cases hd
        · rw [hsdo] at hd
          injection hd with hd
          cases hd
        · rw [hsdo] at hd
          injection hd with hd
          injection hd with hd
        · rw [hsdo] at hd
          injection hd with hd
          cases hd
      subst htyp
      rcases hnil : ((alookup σ.values (GoType.ptr t.typ)).getD Value.invalid).isNil
      · -- pointer present: dereference and store
        have hra : runAction env (.autoDerefPartialDo t.typ) { σ with trace := σ.trace ++ [Event.ranAct t (s.DependsOn.contains t) (s.DependsOn.all (fun d => isDoneB σ d))] }
            = ({ σ with values := ainsert σ.values t.typ (match (alookup σ.values (GoType.ptr t.typ)).getD Value.invalid with | Value.ptrv a2 => σ.heap.getD a2 Value.invalid | _ => Value.invalid), trace := (σ.trace ++ [Event.ranAct t (s.DependsOn.contains t) (s.DependsOn.all (fun d => isDoneB σ d))]) ++ [Event.storeV t.typ] }, none) := by
          simp only [runAction]
          rw [hnil]
          rfl
        rw [runBranch2_some_ok env σ t s nd0 _ _ hsdo hra]
        constructor
        · intro σ1 nd1 e h
          simp at h
        · intro σ1 nd1 h
          simp only [Prod.mk.injEq] at h
          obtain ⟨h1, h2, -⟩ := h
          subst h1
          subst h2
          have hn0 : alookup σ.values t.typ = none := by
            have hps1 : pendingStore σ t.typ = 1 := by
              unfold pendingStore
              rw [hkeyF, hlk]
              simp [hD, hsdo]
            have hsto := hinv.sto t.typ
            have hc0 : countE σ.trace (Event.storeV t.typ) = 0 := by omega
            have h2 := hinv.str t.typ
            rcases hl2 : alookup σ.values t.typ with _ | v2
            · rfl
            · exfalso
              rw [hl2] at h2
              simp at h2
              omega
          refine hfin { σ with values := ainsert σ.values t.typ (match (alookup σ.values (GoType.ptr t.typ)).getD Value.invalid with | Value.ptrv a2 => σ.heap.getD a2 Value.invalid | _ => Value.invalid), trace := (σ.trace ++ [Event.ranAct t (s.DependsOn.contains t) (s.DependsOn.all (fun d => isDoneB σ d))]) ++ [Event.storeV t.typ] } ?_ ?_ ?_ ?_ ?_
          · rfl
          · rfl
          · intro T v hv
            show alookup (ainsert σ.values t.typ _) T = some v
            rw [alookup_ainsert]
            by_cases hTt : T = t.typ
            · rw [hTt, hn0] at hv
              cases hv
            · rw [if_neg hTt]
              exact hv
          · intro hc
            rw [htC] at hc
            cases hc
          · exact storeCommit_InvCore env { σ with trace := σ.trace ++ [Event.ranAct t (s.DependsOn.contains t) (s.DependsOn.all (fun d => isDoneB σ d))] }
              t s (match (alookup σ.values (GoType.ptr t.typ)).getD Value.invalid with | Value.ptrv a2 => σ.heap.getD a2 Value.invalid | _ => Value.invalid)
              _ hinvp hlk hD htC (Or.inr hsdo) rfl rfl rfl rfl rfl
      · -- nil pointer: the action fails
        have hra : runAction env (.autoDerefPartialDo t.typ) { σ with trace := σ.trace ++ [Event.ranAct t (s.DependsOn.contains t) (s.DependsOn.all (fun d => isDoneB σ d))] }
            = ({ σ with trace := σ.trace ++ [Event.ranAct t (s.DependsOn.contains t) (s.DependsOn.all (fun d => isDoneB σ d))] }, some (.msg ("can't use nil pointer to automatically provide value for "
                ++ typeName env t.typ))) := by
          simp only [runAction]
          rw [hnil]
          rfl
        rw [runBranch2_some_err env σ t s nd0 _ _ _ hsdo hra]
        constructor
        · intro σ1 nd1 e2 h
          simp only [Prod.mk.injEq] at h
          obtain ⟨h1, -, h3⟩ := h
          injection h3 with h3
          subst h1
          subst h3
          refine ⟨InvCore_WTr env _ hinvp, ?_⟩
          exact errmsg_ne_snh_of_prefix
            "can't use nil pointer to automatically provide value for " _ (by decide)
        · intro σ1 nd1 h
          simp at h

set_option maxHeartbeats 1600000 in
/-- The master lemma for the stack walk: under the walk invariants, `doLoop`
on failure leaves the weak trace invariant and never reports the defensive
message, and on success finishes every stacked task with the invariant
restored and no task left InProgress. -/
theorem doLoop_spec (env : TEnv) :
    ∀ (fuel : Nat) (σ : PState) (stack nd0 : List task),
    InvCore env σ →
    IPS σ stack →
    CDS σ stack →
    CDV σ stack →
    SIa σ [] stack →
    (∀ σ1 e, doLoop env fuel σ stack nd0 = (σ1, .fail e) → WTr σ1 ∧ e ≠ .msg snhMsg) ∧
    (∀ σ1, doLoop env fuel σ stack nd0 = (σ1, .timeout) → WTr σ1) ∧
    (∀ σ1 nd1, doLoop env fuel σ stack nd0 = (σ1, .done nd1) →
      InvCore env σ1 ∧
      (∀ u, isDoneB σ u = true → isDoneB σ1 u = true) ∧
      (∀ T v, alookup σ.values T = some v → alookup σ1.values T = some v) ∧
      σ1.rules = σ.rules ∧
      (∀ u, inProg σ1 u = false) ∧
      (∀ u ∈ stack, isDoneB σ1 u = true) ∧
      (∀ T, isDoneB σ1 (task.mk T false) = true →
        isDoneB σ (task.mk T false) = true ∨ task.mk T false ∈ nd1) ∧
      (∀ u ∈ nd1, u ∈ nd0 ∨ isDoneB σ1 u = true) ∧
      (∃ suf, nd1 = nd0 ++ suf) ∧
      CDV σ1 []) := by
  intro fuel
  induction fuel with
  | zero =>
    intro σ stack nd0 hinv _ _ _ _
    refine ⟨?_, ?_, ?_⟩
    · intro σ1 e h
      rw [doLoop_zero] at h
      injection h with h1 h2
      cases h2
    · intro σ1 h
      rw [doLoop_zero] at h
      injection h with h1 h2
      subst h1
      exact InvCore_WTr env σ hinv
    · intro σ1 nd1 h
      rw [doLoop_zero] at h
      injection h with h1 h2
      cases h2
  | succ fuel ih =>
    intro σ stack nd0 hinv hIPS hCDS hCDV hSIa
    rcases stack with _ | ⟨t, rest⟩
    · refine ⟨?_, ?_, ?_⟩
      · intro σ1 e h
        rw [doLoop_nil] at h
        injection h with h1 h2
        cases h2
      · intro σ1 h
        rw [doLoop_nil] at h
        injection h with h1 h2
        cases h2
      · intro σ1 nd1 h
        rw [doLoop_nil] at h
        injection h with h1 h2
        injection h2 with h2
        subst h1
        subst h2
        refine ⟨hinv, fun u hu => hu, fun T v hv => hv, rfl, ?_, ?_, ?_, ?_, ⟨[], (List.append_nil nd0).symm⟩, hCDV⟩
        · intro u
          rcases hq : inProg σ u
          · rfl
          · exact absurd (hIPS u hq) (by simp)
        · intro u hu
          simp at hu
        · intro T hT
          exact Or.inl hT
        · intro u hu
          exact Or.inl hu
    · rcases hg : getTaskState env σ t with ⟨σ2, res2⟩
      rcases res2 with e2 | s
      · -- task lookup / auto-derivation failed
        obtain ⟨hσ2, hne⟩ := getTaskState_err env σ σ2 t e2 hg
        subst hσ2
        refine ⟨?_, ?_, ?_⟩
        · intro σ1 e h
          rw [doLoop_cons_err env fuel σ2 σ2 t rest nd0 e2 hg] at h
          injection h with h1 h2
          injection h2 with h2
          subst h1
          subst h2
          exact ⟨InvCore_WTr env σ2 hinv, hne⟩
        · intro σ1 h
          rw [doLoop_cons_err env fuel σ2 σ2 t rest nd0 e2 hg] at h
          injection h with h1 h2
          cases h2
        · intro σ1 nd1 h
          rw [doLoop_cons_err env fuel σ2 σ2 t rest nd0 e2 hg] at h
          injection h with h1 h2
          cases h2
      · -- task state found
        obtain ⟨hinv2, hv2, htr2, hl2, hr2, hh2, hDone2, hIp2, hlk2, hold2⟩ :=
          getTaskState_ok env σ σ2 t s hinv hg
        have hdeps2 : ∀ u, inProg σ2 u = true → depsOf σ2 u = depsOf σ u := by
          intro u hu
          have hu0 : inProg σ u = true := by rw [← hIp2]; exact hu
          unfold inProg at hu0
          rcases hlu : alookup σ.tasks u with _ | su
          · rw [hlu] at hu0
            simp at hu0
          · unfold depsOf
            rw [hold2 u su hlu, hlu]
        have hIPS2 : IPS σ2 (t :: rest) := fun u hu => hIPS u (by rw [← hIp2]; exact hu)
        have hCDS2 : CDS σ2 (t :: rest) := by
          intro T hT
          rcases hCDS T (by rw [← hIp2]; exact hT) with h1 | h1
          · exact Or.inl (by rw [hDone2]; exact h1)
          · exact Or.inr h1
        have hCDV2 : CDV σ2 (t :: rest) := by
          intro T hT
          rcases hCDV T (by rw [← hDone2]; exact hT) with h1 | h1
          · exact Or.inl (by rw [hv2]; exact h1)
          · exact Or.inr h1
        have hSIa2 : SIa σ2 [] (t :: rest) :=
          SIa_transport ⟨fun u hu => by rw [hDone2]; exact hu,
            fun u hu => ⟨by rw [← hIp2]; exact hu, hdeps2 u hu⟩⟩ (t :: rest) [] hSIa
        rcases hsD : s.Done
        · -- s not Done yet
          rcases hsIP : s.InProgress
          · -- first visit: schedule the dependencies
            obtain ⟨schF, schS⟩ := scheduleDeps_spec env t s.DependsOn σ2 (t :: rest) false hinv2
            rcases hsch : scheduleDeps env t σ2 (t :: rest) s.DependsOn false with ⟨σ3, res3⟩
            rcases res3 with e3 | st3
            · obtain ⟨hinv3e, hne3, -, -⟩ := schF σ3 e3 hsch
              have heq := doLoop_b1_err env fuel σ σ2 σ3 t rest nd0 s e3 hg hsD hsIP hsch
              refine ⟨?_, ?_, ?_⟩
              · intro σ1 e h
                rw [heq] at h
                injection h with h1 h2
                injection h2 with h2
                subst h1
                subst h2
                exact ⟨InvCore_WTr env σ3 hinv3e, hne3⟩
              · intro σ1 h
                rw [heq] at h
                injection h with h1 h2
                cases h2
              · intro σ1 nd1 h
                rw [heq] at h
                injection h with h1 h2
                cases h2
            · rcases st3 with ⟨stack1, hd1⟩
              obtain ⟨hinv3, hv3, htr3, hl3, hr3, hh3, hDone3, hIp3, hold3, P, hP1, hP2, hP3, hP4⟩ :=
                schS σ3 stack1 hd1 hsch
              obtain ⟨hinv4, hDone4, hIp4, hIpT4, hdeps4, hlk4⟩ :=
                markInProg_spec env σ3 t s hinv3 (hold3 t s hlk2)
              set σ4 := { σ3 with tasks := ainsert σ3.tasks t { s with InProgress := true } } with hσ4
              have hv4 : σ4.values = σ2.values := by rw [hσ4]; exact hv3
              have hr4 : σ4.rules = σ2.rules := by rw [hσ4]; exact hr3
              have hDone40 : ∀ u, isDoneB σ4 u = isDoneB σ u := by
                intro u
                rw [hDone4, hDone3, hDone2 u]
              have hv40 : σ4.values = σ.values := by rw [hv4, hv2]
              have hr40 : σ4.rules = σ.rules := by rw [hr4, hr2]
              have hdepsT4 : depsOf σ4 t = s.DependsOn := by
                unfold depsOf
                rw [hlk4]
              have hcov4 : ∀ d ∈ depsOf σ4 t, isDoneB σ4 d = true ∨ d ∈ P := by
                intro d hd
                rw [hdepsT4] at hd
                rcases hP3 d hd with h1 | h1
                · exact Or.inl (by rw [hDone4]; exact h1)
                · exact Or.inr h1
              have hIPS3 : IPS σ3 (t :: rest) := fun u hu => hIPS2 u (by rw [← hIp3]; exact hu)
              have hIPS4 : IPS σ4 stack1 := by
                intro u hu
                by_cases hut : u = t
                · rw [hP1, hut]
                  exact List.mem_append_right P (List.mem_cons_self t rest)
                · rw [hP1]
                  exact List.mem_append_right P (hIPS3 u (by rw [← hIp4 u hut]; exact hu))
              have hCDS4 : CDS σ4 stack1 := by
                intro T hT
                by_cases hut : task.mk T true = t
                · have hmem : task.mk T false ∈ depsOf σ4 t := by
                    rw [hdepsT4]
                    exact hinv2.cdep T s (by rw [hut]; exact hlk2) hsD
                  rcases hcov4 _ hmem with h1 | h1
                  · exact Or.inl h1
                  · exact Or.inr (by rw [hP1]; exact List.mem_append_left _ h1)
                · have hT2 : inProg σ2 (task.mk T true) = true := by
                    rw [← hIp3, ← hIp4 _ hut]
                    exact hT
                  rcases hCDS2 T hT2 with h1 | h1
                  · exact Or.inl (by rw [hDone4, hDone3]; exact h1)
                  · exact Or.inr (by rw [hP1]; exact List.mem_append_right _ h1)
              have hCDV4 : CDV σ4 stack1 := by
                intro T hT
                have hT2 : isDoneB σ2 (task.mk T true) = true := by
                  rw [← hDone3, ← hDone4]
                  exact hT
                rcases hCDV2 T hT2 with h1 | h1
                · exact Or.inl (by rw [hv4]; exact h1)
                · exact Or.inr (by rw [hP1]; exact List.mem_append_right _ h1)
              have hfrontP : ∀ d ∈ P, inProg σ4 d = false ∨ d ∈ depsOf σ4 d := by
                intro d hd
                by_cases hdt : d = t
                · right
                  rw [hdt, hdepsT4]
                  obtain ⟨-, -, hdm⟩ := hP2 d hd
                  rw [← hdt]
                  exact hdm
                · left
                  rw [hIp4 d hdt]
                  exact (hP2 d hd).1
              have hdeps42 : ∀ u, u ≠ t → inProg σ4 u = true → depsOf σ4 u = depsOf σ2 u := by
                intro u hu hp
                have hp2 : inProg σ2 u = true := by rw [← hIp3, ← hIp4 u hu]; exact hp
                unfold inProg at hp2
                rcases hlu : alookup σ2.tasks u with _ | su
                · rw [hlu] at hp2
                  simp at hp2
                · rw [hdeps4 u]
                  unfold depsOf
                  rw [hold3 u su hlu, hlu]
              have hDoneEq42 : ∀ u, isDoneB σ4 u = isDoneB σ2 u := by
                intro u
                rw [hDone4, hDone3]
              have hIpEq42 : ∀ u, u ≠ t → inProg σ4 u = inProg σ2 u := by
                intro u hu
                rw [hIp4 u hu, hIp3]
              have hS2a : SIa σ2 (t :: (P ++ [])) rest :=
                SIa_above_subsume [t] (t :: (P ++ []))
                  (fun d hd => Or.inr (by rw [List.mem_singleton.mp hd]; exact List.mem_cons_self t _))
                  rest hSIa2.2
              have hS4rest : SIa σ4 (t :: (P ++ [])) rest :=
                SIa_transport_special σ2 σ4 t P hDoneEq42 hIpEq42 hdeps42 hcov4 rest (t :: (P ++ []))
                  (fun d hd => List.mem_cons_of_mem t (List.mem_append_left [] hd)) hS2a
              have hSIa4 : SIa σ4 [] stack1 := by
                rw [hP1]
                refine SIa_vacuous_front σ4 P [] (t :: rest) hfrontP ⟨?_, hS4rest⟩
                intro hg2 d hd
                rcases hcov4 d hd with h1 | h1
                · exact Or.inl h1
                · exact Or.inr (List.mem_append_left [] h1)
              cases hd1
              · -- all dependencies were already Done: run the action now
                obtain ⟨hPnil, -⟩ := hP4 rfl
                subst hPnil
                rw [List.nil_append] at hP1
                subst hP1
                have hsD1 : ({ s with InProgress := true } : state).Done = false := hsD
                have hok4 : ({ s with InProgress := true } : state).DependsOn.contains t = true ∨
                    ({ s with InProgress := true } : state).DependsOn.all (fun d => isDoneB σ4 d) = true := by
                  right
                  refine List.all_eq_true.mpr ?_
                  intro d hd
                  rcases hcov4 d (by rw [hdepsT4]; exact hd) with h1 | h1
                  · exact h1
                  · simp at h1
                obtain ⟨rbF, rbS⟩ :=
                  runBranch2_spec env σ4 t { s with InProgress := true } nd0 hinv4 hlk4 hsD1 hok4
                rcases hrb : runBranch2 env σ4 t { s with InProgress := true } nd0 with ⟨σ5, nd5, res5⟩
                have hrb2 := hrb
                rw [hσ4] at hrb2
                rcases res5 with _ | e5
                · -- action succeeded
                  have heq := doLoop_b1_run_ok env fuel σ σ2 σ3 σ5 t rest nd0 (t :: rest) nd5 s
                    hg hsD hsIP hsch hrb2
                  obtain ⟨d1, d2, d3, d4, d5, d6, d7, d8, d9, d10, d11⟩ := rbS σ5 nd5 hrb
                  have hip4t : inProg σ4 t = true := by rw [hIpT4, hsD]; rfl
                  obtain ⟨hIPS5, hCDS5, hCDV5, hSIa5⟩ :=
                    afterRun_invs env σ4 σ5 t rest d1 d2 d3 d4 d5 d6 d7 d11 hip4t hIPS4 hCDS4 hCDV4 hSIa4
                  obtain ⟨ihF, ihT, ihD⟩ := ih σ5 rest nd5 d1 hIPS5 hCDS5 hCDV5 hSIa5
                  have hDone5ne : ∀ u, u ≠ t → isDoneB σ5 u = isDoneB σ4 u := by
                    intro u hu
                    unfold isDoneB
                    rw [d3 u hu]
                  refine ⟨?_, ?_, ?_⟩
                  · intro σ1 e h
                    rw [heq] at h
                    exact ihF σ1 e h
                  · intro σ1 h
                    rw [heq] at h
                    exact ihT σ1 h
                  · intro σ1 nd1 h
                    rw [heq] at h
                    obtain ⟨c1, c2, c3, c4, c5, c6, c7, c8, c9, c10⟩ := ihD σ1 nd1 h
                    obtain ⟨suf, hsuf⟩ := c9
                    refine ⟨c1, ?_, ?_, ?_, c5, ?_, ?_, ?_, ?_, c10⟩
                    · intro u hu
                      exact c2 u (d4 u (by rw [hDone40]; exact hu))
                    · intro T v hv
                      exact c3 T v (d7 T v (by rw [hv40]; exact hv))
                    · rw [c4, d8, hr40]
                    · intro u hu
                      rcases List.mem_cons.mp hu with h1 | h1
                      · exact c2 u (by rw [h1]; exact d2)
                      · exact c6 u h1
                    · intro T hT
                      rcases c7 T hT with h1 | h1
                      · by_cases hut : task.mk T false = t
                        · right
                          have hC : t.Complete = false := by rw [← hut]
                          rw [hsuf, d10 hC, hut]
                          simp
                        · left
                          rw [← hDone40, ← hDone5ne _ hut]
                          exact h1
                      · exact Or.inr h1
                    · intro u hu
                      rcases c8 u hu with h1 | h1
                      · rcases d9 with h2 | h2
                        · rw [h2] at h1
                          exact Or.inl h1
                        · rw [h2] at h1
                          rcases List.mem_append.mp h1 with h3 | h3
                          · exact Or.inl h3
                          · right
                            rw [List.mem_singleton.mp h3]
                            exact c2 t d2
                      · exact Or.inr h1
                    · rcases d9 with h2 | h2
                      · exact ⟨suf, by rw [hsuf, h2]⟩
                      · exact ⟨t :: suf, by rw [hsuf, h2]; simp⟩
                · -- action failed
                  have heq := doLoop_b1_run_err env fuel σ σ2 σ3 σ5 t rest nd0 (t :: rest) nd5 s e5
                    hg hsD hsIP hsch hrb2
                  refine ⟨?_, ?_, ?_⟩
                  · intro σ1 e h
                    rw [heq] at h
                    injection h with h1 h2
                    injection h2 with h2
                    subst h1
                    subst h2
                    exact rbF σ5 nd5 e5 hrb
                  · intro σ1 h
                    rw [heq] at h
                    injection h with h1 h2
                    cases h2
                  · intro σ1 nd1 h
                    rw [heq] at h
                    injection h with h1 h2
                    cases h2
              · -- new dependencies were pushed: keep walking
                have heq := doLoop_b1_deps env fuel σ σ2 σ3 t rest nd0 stack1 s hg hsD hsIP hsch
                rw [← hσ4] at heq
                obtain ⟨ihF, ihT, ihD⟩ := ih σ4 stack1 nd0 hinv4 hIPS4 hCDS4 hCDV4 hSIa4
                refine ⟨?_, ?_, ?_⟩
                · intro σ1 e h
                  rw [heq] at h
                  exact ihF σ1 e h
                · intro σ1 h
                  rw [heq] at h
                  exact ihT σ1 h
                · intro σ1 nd1 h
                  rw [heq] at h
                  obtain ⟨c1, c2, c3, c4, c5, c6, c7, c8, c9, c10⟩ := ihD σ1 nd1 h
                  refine ⟨c1, ?_, ?_, ?_, c5, ?_, ?_, c8, c9, c10⟩
                  · intro u hu
                    exact c2 u (by rw [hDone40]; exact hu)
                  · intro T v hv
                    exact c3 T v (by rw [hv40]; exact hv)
                  · rw [c4, hr40]
                  · intro u hu
                    exact c6 u (by rw [hP1]; exact List.mem_append_right P hu)
                  · intro T hT
                    rcases c7 T hT with h1 | h1
                    · exact Or.inl (by rw [← hDone40]; exact h1)
                    · exact Or.inr h1
          · -- second visit: dependencies handled, run the action
            have hipt : inProg σ2 t = true := by
              unfold inProg
              rw [hlk2]
              show (s.InProgress && !s.Done) = true
              rw [hsIP, hsD]
              rfl
            have hlkdeps : depsOf σ2 t = s.DependsOn := by
              unfold depsOf
              rw [hlk2]
            have hok2 : s.DependsOn.contains t = true ∨
                s.DependsOn.all (fun d => isDoneB σ2 d) = true := by
              by_cases hself : t ∈ s.DependsOn
              · exact Or.inl (List.elem_eq_true_of_mem hself)
              · right
                refine List.all_eq_true.mpr ?_
                intro d hd
                have hns : t ∉ depsOf σ2 t := by rw [hlkdeps]; exact hself
                rcases hSIa2.1 ⟨hipt, hns⟩ d (by rw [hlkdeps]; exact hd) with h1 | h1
                · exact h1
                · simp at h1
            obtain ⟨rbF, rbS⟩ := runBranch2_spec env σ2 t s nd0 hinv2 hlk2 hsD hok2
            rcases hrb : runBranch2 env σ2 t s nd0 with ⟨σ5, nd5, res5⟩
            rcases res5 with _ | e5
            · -- action succeeded
              have heq := doLoop_b2_ok env fuel σ σ2 σ5 t rest nd0 nd5 s hg hsD hsIP hrb
              obtain ⟨d1, d2, d3, d4, d5, d6, d7, d8, d9, d10, d11⟩ := rbS σ5 nd5 hrb
              obtain ⟨hIPS5, hCDS5, hCDV5, hSIa5⟩ :=
                afterRun_invs env σ2 σ5 t rest d1 d2 d3 d4 d5 d6 d7 d11 hipt hIPS2 hCDS2 hCDV2 hSIa2
              obtain ⟨ihF, ihT, ihD⟩ := ih σ5 rest nd5 d1 hIPS5 hCDS5 hCDV5 hSIa5
              have hDone5ne : ∀ u, u ≠ t → isDoneB σ5 u = isDoneB σ2 u := by
                intro u hu
                unfold isDoneB
                rw [d3 u hu]
              refine ⟨?_, ?_, ?_⟩
              · intro σ1 e h
                rw [heq] at h
                exact ihF σ1 e h
              · intro σ1 h
                rw [heq] at h
                exact ihT σ1 h
              · intro σ1 nd1 h
                rw [heq] at h
                obtain ⟨c1, c2, c3, c4, c5, c6, c7, c8, c9, c10⟩ := ihD σ1 nd1 h
                obtain ⟨suf, hsuf⟩ := c9
                refine ⟨c1, ?_, ?_, ?_, c5, ?_, ?_, ?_, ?_, c10⟩
                · intro u hu
                  exact c2 u (d4 u (by rw [hDone2]; exact hu))
                · intro T v hv
                  exact c3 T v (d7 T v (by rw [hv2]; exact hv))
                · rw [c4, d8, hr2]
                · intro u hu
                  rcases List.mem_cons.mp hu with h1 | h1
                  · exact c2 u (by rw [h1]; exact d2)
                  · exact c6 u h1
                · intro T hT
                  rcases c7 T hT with h1 | h1
                  · by_cases hut : task.mk T false = t
                    · right
                      have hC : t.Complete = false := by rw [← hut]
                      rw [hsuf, d10 hC, hut]
                      simp
                    · left
                      rw [← hDone2, ← hDone5ne _ hut]
                      exact h1
                  · exact Or.inr h1
                · intro u hu
                  rcases c8 u hu with h1 | h1
                  · rcases d9 with h2 | h2
                    · rw [h2] at h1
                      exact Or.inl h1
                    · rw [h2] at h1
                      rcases List.mem_append.mp h1 with h3 | h3
                      · exact Or.inl h3
                      · right
                        rw [List.mem_singleton.mp h3]
                        exact c2 t d2
                  · exact Or.inr h1
                · rcases d9 with h2 | h2
                  · exact ⟨suf, by rw [hsuf, h2]⟩
                  · exact ⟨t :: suf, by rw [hsuf, h2]; simp⟩
            · -- action failed
              have heq := doLoop_b2_err env fuel σ σ2 σ5 t rest nd0 nd5 s e5 hg hsD hsIP hrb
              refine ⟨?_, ?_, ?_⟩
              · intro σ1 e h
                rw [heq] at h
                injection h with h1 h2
                injection h2 with h2
                subst h1
                subst h2
                exact rbF σ5 nd5 e5 hrb
              · intro σ1 h
                rw [heq] at h
                injection h with h1 h2
                cases h2
              · intro σ1 nd1 h
                rw [heq] at h
                injection h with h1 h2
                cases h2
        · -- s already Done: skip it
          have hDt : isDoneB σ2 t = true := by
            unfold isDoneB
            rw [hlk2]
            exact hsD
          have heq := doLoop_b3 env fuel σ σ2 t rest nd0 s hg hsD
          have hIPSr : IPS σ2 rest := by
            intro u hu
            rcases List.mem_cons.mp (hIPS2 u hu) with h1 | h1
            · exfalso
              subst h1
              unfold inProg at hu
              rw [hlk2] at hu
              rw [show (match some s with | some s2 => s2.InProgress && !s2.Done | none => false) = (s.InProgress && !s.Done) from rfl, hsD] at hu
              simp at hu
            · exact h1
          have hCDSr : CDS σ2 rest := by
            intro T hT
            rcases hCDS2 T hT with h1 | h1
            · exact Or.inl h1
            · rcases List.mem_cons.mp h1 with h2 | h2
              · exact Or.inl (by rw [h2]; exact hDt)
              · exact Or.inr h2
          have hCDVr : CDV σ2 rest := by
            intro T hT
            rcases hCDV2 T hT with h1 | h1
            · exact Or.inl h1
            · rcases List.mem_cons.mp h1 with h2 | h2
              · exact Or.inl (hinv2.tr4 T (by rw [h2]; exact hDt))
              · exact Or.inr h2
          have hSIar : SIa σ2 [] rest := by
            refine SIa_above_subsume [t] [] ?_ rest hSIa2.2
            intro d hd
            left
            rw [List.mem_singleton.mp hd]
            exact hDt
          obtain ⟨ihF, ihT, ihD⟩ := ih σ2 rest nd0 hinv2 hIPSr hCDSr hCDVr hSIar
          refine ⟨?_, ?_, ?_⟩
          · intro σ1 e h
            rw [heq] at h
            exact ihF σ1 e h
          · intro σ1 h
            rw [heq] at h
            exact ihT σ1 h
          · intro σ1 nd1 h
            rw [heq] at h
            obtain ⟨c1, c2, c3, c4, c5, c6, c7, c8, c9, c10⟩ := ihD σ1 nd1 h
            refine ⟨c1, ?_, ?_, ?_, c5, ?_, ?_, c8, c9, c10⟩
            · intro u hu
              exact c2 u (by rw [hDone2]; exact hu)
            · intro T v hv
              exact c3 T v (by rw [hv2]; exact hv)
            · rw [c4, hr2]
            · intro u hu
              rcases List.mem_cons.mp hu with h1 | h1
              · exact c2 u (by rw [h1]; exact hDt)
              · exact c6 u h1
            · intro T hT
              rcases c7 T hT with h1 | h1
              · exact Or.inl (by rw [← hDone2]; exact h1)
              · exact Or.inr h1

theorem completeLoop_zero (env : TEnv) (dfuel : Nat) (σ : PState) (goals : List task) :
    completeLoop env dfuel 0 σ goals = (σ, .timeout) := rfl

theorem completeLoop_nil (env : TEnv) (dfuel fuel : Nat) (σ : PState) :
    completeLoop env dfuel (Nat.succ fuel) σ [] = (σ, .done) := rfl

theorem completeLoop_cons_to (env : TEnv) (dfuel fuel : Nat) (σ σ5 : PState)
    (g : task) (gs : List task)
    (h : doLoop env dfuel σ [g] [] = (σ5, .timeout)) :
    completeLoop env dfuel (Nat.succ fuel) σ (g :: gs) = (σ5, .timeout) := by
  rw [completeLoop, h]

theorem completeLoop_cons_fail (env : TEnv) (dfuel fuel : Nat) (σ σ5 : PState)
    (g : task) (gs : List task) (e : Err)
    (h : doLoop env dfuel σ [g] [] = (σ5, .fail e)) :
    completeLoop env dfuel (Nat.succ fuel) σ (g :: gs) = (σ5, .fail e) := by
  rw [completeLoop, h]

theorem completeLoop_cons_done (env : TEnv) (dfuel fuel : Nat) (σ σ5 : PState)
    (g : task) (gs nd : List task)
    (h : doLoop env dfuel σ [g] [] = (σ5, .done nd)) :
    completeLoop env dfuel (Nat.succ fuel) σ (g :: gs) =
      completeLoop env dfuel fuel σ5
        (gs ++ (nd.filter (fun d => !d.Complete)).map (fun d => task.mk d.typ true)) := by
  rw [completeLoop, h]

set_option maxHeartbeats 800000 in
/-- The master lemma for the completion worklist: assuming the operation-level
invariant and that every partially-Done task's Complete goal is pending, the
loop preserves the invariant, finishes every goal, and on exit leaves every
partially-Done task fully Done. -/
theorem completeLoop_spec (env : TEnv) (dfuel : Nat) :
    ∀ (fuel : Nat) (σ : PState) (goals : List task),
    InvCore env σ →
    (∀ u, inProg σ u = false) →
    CDV σ [] →
    (∀ T, isDoneB σ (task.mk T false) = true →
      isDoneB σ (task.mk T true) = true ∨ task.mk T true ∈ goals) →
    (∀ σ1 e, completeLoop env dfuel fuel σ goals = (σ1, .fail e) → WTr σ1 ∧ e ≠ .msg snhMsg) ∧
    (∀ σ1, completeLoop env dfuel fuel σ goals = (σ1, .timeout) → WTr σ1) ∧
    (∀ σ1, completeLoop env dfuel fuel σ goals = (σ1, .done) →
      InvCore env σ1 ∧
      (∀ u, isDoneB σ u = true → isDoneB σ1 u = true) ∧
      (∀ T v, alookup σ.values T = some v → alookup σ1.values T = some v) ∧
      σ1.rules = σ.rules ∧
      (∀ u, inProg σ1 u = false) ∧
      (∀ g ∈ goals, isDoneB σ1 g = true) ∧
      CDV σ1 [] ∧
      (∀ T, isDoneB σ1 (task.mk T false) = true → isDoneB σ1 (task.mk T true) = true)) := by
  intro fuel
  induction fuel with
  | zero =>
    intro σ goals hinv hip hCDV hQI
    refine ⟨?_, ?_, ?_⟩
    · intro σ1 e h
      rw [completeLoop_zero] at h
      injection h with h1 h2
      cases h2
    · intro σ1 h
      rw [completeLoop_zero] at h
      injection h with h1 h2
      subst h1
      exact InvCore_WTr env σ hinv
    · intro σ1 h
      rw [completeLoop_zero] at h
      injection h with h1 h2
      cases h2
  | succ fuel ih =>
    intro σ goals hinv hip hCDV hQI
    rcases goals with _ | ⟨g, gs⟩
    · refine ⟨?_, ?_, ?_⟩
      · intro σ1 e h
        rw [completeLoop_nil] at h
        injection h with h1 h2
        cases h2
      · intro σ1 h
        rw [completeLoop_nil] at h
        injection h with h1 h2
        cases h2
      · intro σ1 h
        rw [completeLoop_nil] at h
        injection h with h1 h2
        subst h1
        refine ⟨hinv, fun u hu => hu, fun T v hv => hv, rfl, hip, ?_, hCDV, ?_⟩
        · intro g hg
          simp at hg
        · intro T hT
          rcases hQI T hT with h1 | h1
          · exact h1
          · simp at h1
    · -- one goal at a time
      have hIPSg : IPS σ [g] := by
        intro u hu
        rw [hip u] at hu
        exact absurd hu Bool.false_ne_true
      have hCDSg : CDS σ [g] := by
        intro T hT
        rw [hip _] at hT
        exact absurd hT Bool.false_ne_true
      have hCDVg : CDV σ [g] := by
        intro T hT
        rcases hCDV T hT with h1 | h1
        · exact Or.inl h1
        · simp at h1
      have hSIag : SIa σ [] [g] := by
        refine ⟨?_, trivial⟩
        intro hg2
        exact absurd hg2.1 (by rw [hip g]; simp)
      obtain ⟨dF, dT, dD⟩ := doLoop_spec env dfuel σ [g] [] hinv hIPSg hCDSg hCDVg hSIag
      rcases hdl : doLoop env dfuel σ [g] [] with ⟨σ5, res⟩
      rcases res with nd | e5 | _
      · -- the goal's walk finished
        have heq := completeLoop_cons_done env dfuel fuel σ σ5 g gs nd hdl
        obtain ⟨c1, c2, c3, c4, c5, c6, c7, c8, c9, c10⟩ := dD σ5 nd hdl
        have hQI5 : ∀ T, isDoneB σ5 (task.mk T false) = true →
            isDoneB σ5 (task.mk T true) = true ∨
            task.mk T true ∈ gs ++ (nd.filter (fun d => !d.Complete)).map (fun d => task.mk d.typ true) := by
          intro T hT
          rcases c7 T hT with h1 | h1
          · rcases hQI T h1 with h2 | h2
            · exact Or.inl (c2 _ h2)
            · rcases List.mem_cons.mp h2 with h3 | h3
              · exact Or.inl (by rw [h3]; exact c6 g (List.mem_cons_self g []))
              · exact Or.inr (List.mem_append_left _ h3)
          · right
            refine List.mem_append_right _ ?_
            have hf : task.mk T false ∈ nd.filter (fun d => !d.Complete) :=
              List.mem_filter.mpr ⟨h1, rfl⟩
            exact List.mem_map_of_mem (fun d => task.mk d.typ true) hf
        obtain ⟨ihF, ihT, ihD⟩ := ih σ5 _ c1 c5 c10 hQI5
        refine ⟨?_, ?_, ?_⟩
        · intro σ1 e h
          rw [heq] at h
          exact ihF σ1 e h
        · intro σ1 h
          rw [heq] at h
          exact ihT σ1 h
        · intro σ1 h
          rw [heq] at h
          obtain ⟨e1, e2, e3, e4, e5, e6, e7, e8⟩ := ihD σ1 h
          refine ⟨e1, ?_, ?_, ?_, e5, ?_, e7, e8⟩
          · intro u hu
            exact e2 u (c2 u hu)
          · intro T v hv
            exact e3 T v (c3 T v hv)
          · rw [e4, c4]
          · intro g2 hg2
            rcases List.mem_cons.mp hg2 with h3 | h3
            · rw [h3]
              exact e2 g (c6 g (List.mem_cons_self g []))
            · exact e6 g2 (List.mem_append_left _ h3)
      · -- the walk failed
        have heq := completeLoop_cons_fail env dfuel fuel σ σ5 g gs e5 hdl
        refine ⟨?_, ?_, ?_⟩
        · intro σ1 e h
          rw [heq] at h
          injection h with h1 h2
          injection h2 with h2
          subst h1
          subst h2
          exact dF σ5 e5 hdl
        · intro σ1 h
          rw [heq] at h
          injection h with h1 h2
          cases h2
        · intro σ1 h
          rw [heq] at h
          injection h with h1 h2
          cases h2
      · -- the walk ran out of fuel
        have heq := completeLoop_cons_to env dfuel fuel σ σ5 g gs hdl
        refine ⟨?_, ?_, ?_⟩
        · intro σ1 e h
          rw [heq] at h
          injection h with h1 h2
          cases h2
        · intro σ1 h
          rw [heq] at h
          injection h with h1 h2
          subst h1
          exact dT σ5 hdl
        · intro σ1 h
          rw [heq] at h
          injection h with h1 h2
          cases h2

/-- C9: for an auto-provided pointer-to-struct type with annotated fields and
a `PleaseProvide` capability, the derived Complete action first sets every
annotated field from the value store (in declaration order), and only then
invokes the initializer capability — the trace shows all field-set events
before the initializer-call event; the action stores nothing into the value
store and propagates the first non-nil error value the initializer returns. -/
theorem C9_field_then_init (env : TEnv) (el : GoType) (cap : InitCap)
    (pf : List pfield) (init : initializer) (σ : PState)
    (hk : kindOf env el = .structK)
    (hcap : initCapOf env (.ptr el) = some cap)
    (hpf : collectFields env (typeName env el) (fieldsOf env el) 0 = .ok pf)
    (hinit : autoProvide env (.ptr el) = .ok init) :
    init.CompleteState.Do = some (.autoPtrCompleteDo (.ptr el) pf cap.ins true) ∧
    ∀ a, init.CompleteState.Do = some a →
      (runAction env a σ).1.trace
        = (σ.trace ++ pf.map (fun f => Event.setFieldE (GoType.ptr el) f.Index))
          ++ [Event.callInit (GoType.ptr el)] ∧
      (runAction env a σ).1.values = σ.values ∧
      (runAction env a σ).2 = Option.map Err.val (firstNonNil
        (cap.sem
          (match (alookup σ.values (GoType.ptr el)).getD .invalid with
            | .ptrv a2 => (setFields (GoType.ptr el)
                ((alookup σ.values (GoType.ptr el)).getD .invalid) pf σ).heap.getD a2 .invalid
            | _ => .invalid)
          (readInputs σ.values cap.ins)).2) := by
  have hshape : init = buildPtrInit (.ptr el) pf cap.ins true := by
    have hk2 : (kindOf env el == GoKind.structK) = true := by rw [hk]; rfl
    have hno : (kindOf env (GoType.ptr el) == GoKind.ifaceK) = false := rfl
    rcases hfind : cap.outTypes.find? (fun t => !isErrorType env t) with _ | bad
    · simp [autoProvide, hno, hk2, hpf, hcap, hfind] at hinit
      exact hinit.symm
    · simp [autoProvide, hno, hk2, hpf, hcap, hfind] at hinit
  subst hshape
  refine ⟨rfl, ?_⟩
  intro a ha
  have ha2 : a = .autoPtrCompleteDo (.ptr el) pf cap.ins true := by
    simpa [buildPtrInit] using ha.symm
  subst ha2
  have hsf := setFields_spec (GoType.ptr el)
    ((alookup σ.values (GoType.ptr el)).getD .invalid) pf σ
  simp only [runAction, hcap]
  rw [hsf.2.2.1]
  rcases hfn : firstNonNil
      (cap.sem
        (match (alookup σ.values (GoType.ptr el)).getD Value.invalid with
          | Value.ptrv a2 => (setFields (GoType.ptr el)
              ((alookup σ.values (GoType.ptr el)).getD Value.invalid) pf σ).heap.getD a2
              Value.invalid
          | _ => Value.invalid)
        (readInputs σ.values cap.ins)).2
    with _ | e <;>
    simp [hfn, hsf.1, hsf.2.1, hsf.2.2.1, hsf.2.2.2.1, hsf.2.2.2.2]

/-- Witness for `C9_field_then_init` at `envInitCap` from a fresh state: the
trace of the Complete action is the field-set event followed by the
initializer-call event. -/
theorem C9_field_then_init_witness :
    (runAction envInitCap
        (.autoPtrCompleteDo (.ptr (.base 0)) [⟨.base 1, 0, true⟩] [.base 2] true)
        emptyProvider).1.trace
      = [Event.setFieldE (.ptr (.base 0)) 0, Event.callInit (.ptr (.base 0))] := by
  have h := C9_field_then_init envInitCap (.base 0) capPS [⟨.base 1, 0, true⟩]
    (buildPtrInit (.ptr (.base 0)) [⟨.base 1, 0, true⟩] [.base 2] true)
    emptyProvider rfl rfl (by rfl) (by rfl)
  have h2 := (h.2 (.autoPtrCompleteDo (.ptr (.base 0)) [⟨.base 1, 0, true⟩] [.base 2] true)
    (by rfl)).1
  simpa [emptyProvider] using h2

end ProvideModel
